import Mathlib

/-!
# Verification of the linkding-sync two-way reconciliation core

Shallow embedding of the path↔tag codec, the incremental two-way
reconciler (`runTwoWaySync`), the initial sync strategies
(`runInitialTwoWaySync`) and the `SyncManager` concurrency guard from
`src/sync.js` and the background script, together with proofs of the
claimed properties.

Strings are modelled by Lean `String`; JavaScript `startsWith`,
`slice` and `length` are modelled on the underlying character lists.
-/

namespace LinkdingSync

/-- JS `t.startsWith(pre)`: `pre` is a prefix of `t`. -/
def jsStartsWith (t pre : String) : Bool := pre.data.isPrefixOf t.data

/-- JS `t.slice(n)`: drop the first `n` characters. -/
def jsSlice (t : String) (n : Nat) : String := ⟨t.data.drop n⟩

/-- JS `t.length` (character count). -/
def jsLength (t : String) : Nat := t.data.length

/-- `buildTagsForPath` from src/sync.js (lines 376–379): root-level
bookmarks get `[syncTag]`, nested ones `[syncTag, syncTag ++ "/" ++ folderPath]`. -/
def buildTagsForPath (syncTag folderPath : String) : List String :=
  if folderPath = "" then [syncTag] else [syncTag, syncTag ++ "/" ++ folderPath]

/-- One step of the scan in `extractFolderPath`:
`if (t.startsWith(prefix) && t.length > best.length) best = t`. -/
def bestTagStep (pre best t : String) : String :=
  if jsStartsWith t pre = true ∧ jsLength best < jsLength t then t else best

/-- `extractFolderPath` from src/sync.js (lines 383–392): scan the tags for
those starting with `syncTag ++ "/"`, keep the longest (first wins on ties),
and strip the prefix; empty string if none matches. -/
def extractFolderPath (syncTag : String) (tagNames : List String) : String :=
  let pre := syncTag ++ "/"
  let best := tagNames.foldl (bestTagStep pre) ""
  if best = "" then "" else jsSlice best (jsLength pre)

theorem string_data_append (a b : String) : (a ++ b).data = a.data ++ b.data := by
  cases a; cases b; rfl

theorem string_mk_data (s : String) : (⟨s.data⟩ : String) = s := by
  cases s; rfl

theorem string_eq_iff_data (a b : String) : a = b ↔ a.data = b.data :=
  ⟨congrArg String.data, fun h => by cases a; cases b; exact congrArg String.mk h⟩

theorem buildTagsForPath_empty (T : String) : buildTagsForPath T "" = [T] := by
  unfold buildTagsForPath; rw [if_pos rfl]

theorem buildTagsForPath_ne (T p : String) (hp : p ≠ "") :
    buildTagsForPath T p = [T, T ++ "/" ++ p] := by
  unfold buildTagsForPath; rw [if_neg hp]

/-- A sync tag is never a "path tag" for itself: `T` does not start with `T ++ "/"`. -/
theorem jsStartsWith_self_slash (T : String) : jsStartsWith T (T ++ "/") = false := by
  unfold jsStartsWith
  rw [Bool.eq_false_iff]
  intro h
  have hpre : (T ++ "/").data <+: T.data := by
    rw [← List.isPrefixOf_iff_prefix]; exact h
  have hlen := hpre.length_le
  rw [string_data_append] at hlen
  simp at hlen

theorem jsStartsWith_append (pre rest : String) :
    jsStartsWith (pre ++ rest) pre = true := by
  unfold jsStartsWith
  rw [List.isPrefixOf_iff_prefix, string_data_append]
  exact List.prefix_append _ _

theorem extractFolderPath_eq (T : String) (tags : List String) :
    extractFolderPath T tags =
      (if tags.foldl (bestTagStep (T ++ "/")) "" = "" then ""
       else jsSlice (tags.foldl (bestTagStep (T ++ "/")) "") (jsLength (T ++ "/"))) := rfl

theorem bestTagStep_no_match (pre b t : String) (h : jsStartsWith t pre = false) :
    bestTagStep pre b t = b := by
  unfold bestTagStep
  rw [if_neg]
  rintro ⟨h1, _⟩
  rw [h] at h1
  exact Bool.false_ne_true h1

/-- The tail of the fold in `extractFolderPath`: tags that do not start with
the prefix never change the running best. -/
theorem extract_foldl_no_match (pre : String) (rest : List String) (b : String)
    (h : ∀ t ∈ rest, jsStartsWith t pre = false) :
    rest.foldl (bestTagStep pre) b = b := by
  induction rest with
  | nil => rfl
  | cons x xs ih =>
    rw [List.foldl_cons, bestTagStep_no_match pre b x (h x (List.mem_cons_self x xs))]
    exact ih (fun t ht => h t (List.mem_cons_of_mem x ht))

/-- Core round-trip: decoding the encoding of any folder path (with any tags
that are not path tags appended) gives the path back. -/
theorem extract_build_append (T p : String) (rest : List String)
    (h : ∀ t ∈ rest, jsStartsWith t (T ++ "/") = false) :
    extractFolderPath T (buildTagsForPath T p ++ rest) = p := by
  rw [extractFolderPath_eq]
  by_cases hp : p = ""
  · subst hp
    rw [buildTagsForPath_empty, List.cons_append, List.nil_append, List.foldl_cons,
      bestTagStep_no_match _ _ _ (jsStartsWith_self_slash T),
      extract_foldl_no_match _ _ _ h, if_pos rfl]
  · rw [buildTagsForPath_ne T p hp]
    have hstart : jsStartsWith (T ++ "/" ++ p) (T ++ "/") = true := jsStartsWith_append _ _
    have hlen : jsLength "" < jsLength (T ++ "/" ++ p) := by
      have h1 : jsLength (T ++ "/" ++ p) = jsLength (T ++ "/") + jsLength p := by
        unfold jsLength
        rw [string_data_append, List.length_append]
      have h2 : jsLength p ≠ 0 := by
        intro hc
        unfold jsLength at hc
        rw [List.length_eq_zero] at hc
        exact hp ((string_eq_iff_data p "").mpr (by rw [hc]))
      have h3 : jsLength "" = 0 := rfl
      omega
    have hstep : bestTagStep (T ++ "/") "" (T ++ "/" ++ p) = T ++ "/" ++ p := by
      unfold bestTagStep
      rw [if_pos ⟨hstart, hlen⟩]
    rw [List.cons_append, List.cons_append, List.nil_append, List.foldl_cons,
      List.foldl_cons, bestTagStep_no_match _ _ _ (jsStartsWith_self_slash T), hstep,
      extract_foldl_no_match _ _ _ h]
    have hne : T ++ "/" ++ p ≠ "" := by
      intro hc
      rw [hc] at hlen
      exact lt_irrefl _ hlen
    rw [if_neg hne]
    unfold jsSlice jsLength
    rw [string_data_append (T ++ "/") p, List.drop_left, string_mk_data]

/-- Round-trip with no extra tags. -/
theorem extract_build (T p : String) :
    extractFolderPath T (buildTagsForPath T p) = p := by
  have := extract_build_append T p [] (by intro t ht; cases ht)
  simpa using this

/-- Joining path segments with `/`, as the Chrome tree walk produces them. -/
def joinPath (segs : List String) : String := String.intercalate "/" segs

/-- C1. For every sync tag `T` and every path given as a `/`-joined sequence of
non-empty, `/`-free segments, decoding the encoding returns the path:
`extractFolderPath T (buildTagsForPath T p) = p`; in particular the empty path
encodes to `[T]` and decodes back to the empty path. -/
theorem path_codec_roundtrip (T : String) (segs : List String)
    (h : ∀ s ∈ segs, s ≠ "" ∧ '/' ∉ s.data) :
    extractFolderPath T (buildTagsForPath T (joinPath segs)) = joinPath segs ∧
    buildTagsForPath T "" = [T] ∧ extractFolderPath T [T] = "" := by
  refine ⟨extract_build T (joinPath segs), buildTagsForPath_empty T, ?_⟩
  have := extract_build T ""
  rwa [buildTagsForPath_empty] at this

/-- Witness for C1 at a concrete sync tag and path. -/
theorem path_codec_roundtrip_witness :
    (∀ s ∈ ["Work", "Projects"], s ≠ "" ∧ '/' ∉ s.data) ∧
    (extractFolderPath "bookmark-sync"
        (buildTagsForPath "bookmark-sync" (joinPath ["Work", "Projects"])) =
      joinPath ["Work", "Projects"] ∧
    buildTagsForPath "bookmark-sync" "" = ["bookmark-sync"] ∧
    extractFolderPath "bookmark-sync" ["bookmark-sync"] = "") :=
  ⟨by decide, path_codec_roundtrip "bookmark-sync" ["Work", "Projects"] (by decide)⟩

/-! ## Data model

`LdBookmark` models a Linkding (remote) bookmark as returned by the API:
`id, url, title, tag_names, date_modified` (absent dates are `none`, matching
`ld.date_modified ? new Date(ld.date_modified).getTime() : 0`).
`ChromeBookmark` models one element of the flat list produced by
`getChromeBookmarksRecursive`: `id, url, title, dateAdded, folderPath`.
`MappingEntry` models one value of the persisted `twoWayMapping` object. -/

structure LdBookmark where
  id : Nat
  url : String
  title : String
  tagNames : List String
  dateModified : Option Nat
deriving DecidableEq

structure ChromeBookmark where
  id : Nat
  url : String
  title : String
  dateAdded : Nat
  folderPath : String
deriving DecidableEq

structure MappingEntry where
  linkdingId : Nat
  chromeId : Nat
  title : String
  url : String
  folderPath : String
  lastSynced : Nat
deriving DecidableEq

/-- The persisted mapping: a JS object keyed by URL (keys unique). -/
abbrev Mapping := List (String × MappingEntry)

/-- JS object property read `mapping[url]` (keys are unique in a JS object;
the first matching pair wins). -/
def lookupEntry (m : Mapping) (k : String) : Option MappingEntry :=
  match m with
  | [] => none
  | p :: rest => if p.1 == k then some p.2 else lookupEntry rest k

/-- JS object property write `mapping[url] = v` (overwrite or append). -/
def mapSet (m : Mapping) (k : String) (v : MappingEntry) : Mapping :=
  if m.any (fun p => p.1 == k) then m.map (fun p => if p.1 == k then (k, v) else p)
  else m ++ [(k, v)]

/-- JS `Map` built with `map.set(bm.url, bm)` over the list in order: a `get`
returns the last item with that URL. -/
def ldByUrl (l : List LdBookmark) (u : String) : Option LdBookmark :=
  l.reverse.find? (fun b => b.url == u)

def chromeByUrl (l : List ChromeBookmark) (u : String) : Option ChromeBookmark :=
  l.reverse.find? (fun b => b.url == u)

/-- JS `[...new Set(list)]`: first-occurrence dedup in insertion order. -/
def setDedup (l : List String) : List String :=
  l.foldl (fun acc x => if x ∈ acc then acc else acc ++ [x]) []

/-- `[...new Set([...a, ...b])]` as used to merge tag lists. -/
def mergeTagLists (a b : List String) : List String := setDedup (a ++ b)

/-- JS `ld.title || ld.url`. -/
def ldTitleOf (b : LdBookmark) : String := if b.title = "" then b.url else b.title

/-- The two stores, the persisted mapping and the id counters of the two
stores; `now` is the clock value `Date.now()` returns during a run. -/
structure World where
  ld : List LdBookmark
  chrome : List ChromeBookmark
  mapping : Mapping
  nextLdId : Nat
  nextChromeId : Nat
  now : Nat
deriving DecidableEq

/-- The `{added, removed, updated}` result of `runTwoWaySync`. -/
structure SyncCounts where
  added : Nat
  removed : Nat
  updated : Nat
deriving DecidableEq

/-- Mutable state threaded through one reconciliation run: the two stores,
fresh-id counters, the `newMapping` object being built, and the counters. -/
structure RunAcc where
  ld : List LdBookmark
  chrome : List ChromeBookmark
  nextLdId : Nat
  nextChromeId : Nat
  newMapping : Mapping
  added : Nat
  removed : Nat
  updated : Nat
deriving DecidableEq

/-! ## Store adapter operations -/

/-- `createLinkdingBookmark` (the POST body sends `title: title || url`). -/
def ldCreate (acc : RunAcc) (url title : String) (tags : List String) (now : Nat) :
    LdBookmark × RunAcc :=
  let created : LdBookmark :=
    ⟨acc.nextLdId, url, if title = "" then url else title, tags, some now⟩
  (created, { acc with ld := acc.ld ++ [created], nextLdId := acc.nextLdId + 1 })

/-- One remote item after `updateLinkdingBookmark`: `url` and `title` are sent
only when truthy (non-empty); `tag_names` is always sent by the sync code. -/
def ldApplyUpdate (b : LdBookmark) (url title : String) (tags : List String) : LdBookmark :=
  { b with
    url := if url = "" then b.url else url
    title := if title = "" then b.title else title
    tagNames := tags }

def ldUpdate (l : List LdBookmark) (id : Nat) (url title : String) (tags : List String) :
    List LdBookmark :=
  l.map (fun b => if b.id = id then ldApplyUpdate b url title tags else b)

/-- `deleteLinkdingBookmark` (404 tolerated: deleting an absent id is a no-op). -/
def ldDelete (l : List LdBookmark) (id : Nat) : List LdBookmark :=
  l.filter (fun b => b.id != id)

/-- `chrome.bookmarks.create` under the folder at `folderPath`
(`ensureFolderPath` resolves/creates the folder; the flat-walk view of the new
bookmark carries that path). -/
def chromeCreate (acc : RunAcc) (folderPath title url : String) (now : Nat) :
    ChromeBookmark × RunAcc :=
  let created : ChromeBookmark := ⟨acc.nextChromeId, url, title, now, folderPath⟩
  (created, { acc with chrome := acc.chrome ++ [created], nextChromeId := acc.nextChromeId + 1 })

def chromeSetTitle (l : List ChromeBookmark) (id : Nat) (title : String) : List ChromeBookmark :=
  l.map (fun b => if b.id = id then { b with title := title } else b)

def chromeMove (l : List ChromeBookmark) (id : Nat) (folderPath : String) : List ChromeBookmark :=
  l.map (fun b => if b.id = id then { b with folderPath := folderPath } else b)

/-- `chrome.bookmarks.remove` wrapped in try/catch: absent id is a no-op. -/
def chromeRemove (l : List ChromeBookmark) (id : Nat) : List ChromeBookmark :=
  l.filter (fun b => b.id != id)

/-! ## Incremental reconciler (`runTwoWaySync`, src/sync.js lines 699–931) -/

/-- Step 1 body: a Chrome bookmark whose URL is not in the mapping is either
pushed to Linkding (absent there) or linked to the existing remote item by
merging the path tags onto it. -/
def phase1Step (T : String) (lds : List LdBookmark) (m0 : Mapping) (now : Nat)
    (acc : RunAcc) (cbm : ChromeBookmark) : RunAcc :=
  match lookupEntry m0 cbm.url with
  | some _ => acc
  | none =>
    let tags := buildTagsForPath T cbm.folderPath
    match ldByUrl lds cbm.url with
    | none =>
      let (created, acc1) := ldCreate acc cbm.url cbm.title tags now
      { acc1 with
        newMapping := mapSet acc1.newMapping cbm.url
          ⟨created.id, cbm.id, cbm.title, cbm.url, cbm.folderPath, now⟩
        added := acc1.added + 1 }
    | some ld =>
      let mergedTags := mergeTagLists ld.tagNames tags
      let acc1 :=
        if mergedTags.length = ld.tagNames.length ∧ ∀ t ∈ mergedTags, t ∈ ld.tagNames then acc
        else { acc with ld := ldUpdate acc.ld ld.id ld.url ld.title mergedTags }
      { acc1 with
        newMapping := mapSet acc1.newMapping cbm.url
          ⟨ld.id, cbm.id, cbm.title, cbm.url, cbm.folderPath, now⟩ }

/-- Step 2 body: a Linkding bookmark absent from the mapping and from Chrome is
created locally at its decoded folder path. -/
def phase2Step (T : String) (cs : List ChromeBookmark) (m0 : Mapping) (now : Nat)
    (acc : RunAcc) (ld : LdBookmark) : RunAcc :=
  if (lookupEntry m0 ld.url).isNone ∧ (chromeByUrl cs ld.url).isNone then
    let folderPath := extractFolderPath T ld.tagNames
    let (created, acc1) := chromeCreate acc folderPath (ldTitleOf ld) ld.url now
    { acc1 with
      newMapping := mapSet acc1.newMapping ld.url
        ⟨ld.id, created.id, ldTitleOf ld, ld.url, folderPath, now⟩
      added := acc1.added + 1 }
  else acc

/-- Title resolution for a mapped entry present on both sides; returns
`(finalTitle, needsLdUpdate, needsChromeUpdate)` contributions. -/
def resolveTitle (entry : MappingEntry) (chromeTitle ldTitle : String) (ldDate : Nat) :
    String × Bool × Bool :=
  if chromeTitle ≠ entry.title ∧ ldTitle = entry.title then (chromeTitle, true, false)
  else if ldTitle ≠ entry.title ∧ chromeTitle = entry.title then (ldTitle, false, true)
  else if ldTitle ≠ entry.title ∧ chromeTitle ≠ entry.title then
    (if entry.lastSynced < ldDate then (ldTitle, false, true) else (chromeTitle, true, false))
  else (entry.title, false, false)

/-- Folder-path resolution for a mapped entry present on both sides. -/
def resolvePath (mappedFolderPath chromeFolderPath ldFolderPath : String) :
    String × Bool × Bool :=
  if chromeFolderPath ≠ mappedFolderPath ∧ ldFolderPath = mappedFolderPath then
    (chromeFolderPath, true, false)
  else if ldFolderPath ≠ mappedFolderPath ∧ chromeFolderPath = mappedFolderPath then
    (ldFolderPath, false, true)
  else if ldFolderPath ≠ mappedFolderPath ∧ chromeFolderPath ≠ mappedFolderPath then
    (chromeFolderPath, true, false)
  else (mappedFolderPath, false, false)

/-- Tag list sent by the corrective Linkding update: the new path tags plus
every existing tag that is neither the sync tag nor a path tag. -/
def rewriteTags (T : String) (finalFolderPath : String) (tags : List String) : List String :=
  buildTagsForPath T finalFolderPath ++
    tags.filter (fun t => !(t == T) && !(jsStartsWith t (T ++ "/")))

/-- Step 3 body for a mapped entry present on both sides: conflict-resolve
titles and folder paths, apply corrective writes, record the merged entry. -/
def phase3Both (T : String) (now : Nat) (acc : RunAcc) (url : String) (entry : MappingEntry)
    (cbm : ChromeBookmark) (ld : LdBookmark) : RunAcc :=
  let chromeTitle := cbm.title
  let ldTitle := ldTitleOf ld
  let chromeFolderPath := cbm.folderPath
  let ldFolderPath := extractFolderPath T ld.tagNames
  let rt := resolveTitle entry chromeTitle ldTitle (ld.dateModified.getD 0)
  let rp := resolvePath entry.folderPath chromeFolderPath ldFolderPath
  let finalTitle := rt.1
  let finalFolderPath := rp.1
  let needsLdUpdate := rt.2.1 || rp.2.1
  let needsChromeUpdate := rt.2.2 || rp.2.2
  let acc1 :=
    if needsLdUpdate then
      { acc with
        ld := ldUpdate acc.ld ld.id ld.url finalTitle (rewriteTags T finalFolderPath ld.tagNames)
        updated := acc.updated + 1 }
    else acc
  let acc2 :=
    if needsChromeUpdate then
      let c1 :=
        if finalTitle ≠ chromeTitle then chromeSetTitle acc1.chrome cbm.id finalTitle
        else acc1.chrome
      let c2 :=
        if finalFolderPath ≠ chromeFolderPath then chromeMove c1 cbm.id finalFolderPath
        else c1
      { acc1 with chrome := c2, updated := acc1.updated + 1 }
    else acc1
  if needsLdUpdate = false ∧ needsChromeUpdate = false then
    { acc2 with
      newMapping := mapSet acc2.newMapping url
        { entry with chromeId := cbm.id, linkdingId := ld.id, folderPath := chromeFolderPath } }
  else
    { acc2 with
      newMapping := mapSet acc2.newMapping url
        ⟨ld.id, cbm.id, finalTitle, url, finalFolderPath, now⟩ }

/-- Step 3 body: process one persisted mapping entry. -/
def phase3Step (T : String) (lds : List LdBookmark) (cs : List ChromeBookmark) (now : Nat)
    (acc : RunAcc) (pair : String × MappingEntry) : RunAcc :=
  match chromeByUrl cs pair.1, ldByUrl lds pair.1 with
  | none, none => { acc with removed := acc.removed + 1 }
  | none, some ld =>
    { acc with ld := ldDelete acc.ld ld.id, removed := acc.removed + 1 }
  | some _, none =>
    { acc with chrome := chromeRemove acc.chrome pair.2.chromeId, removed := acc.removed + 1 }
  | some cbm, some ld => phase3Both T now acc pair.1 pair.2 cbm ld

/-- `runTwoWaySync`: fetch the tagged remote bookmarks and the local tree
snapshot, then run the three reconciliation passes; the new mapping replaces
the old one. -/
def runTwoWaySync (T : String) (w : World) : World × SyncCounts :=
  let lds := w.ld.filter (fun b => b.tagNames.contains T)
  let cs := w.chrome
  let m0 := w.mapping
  let acc0 : RunAcc := ⟨w.ld, w.chrome, w.nextLdId, w.nextChromeId, [], 0, 0, 0⟩
  let acc1 := cs.foldl (phase1Step T lds m0 w.now) acc0
  let acc2 := lds.foldl (phase2Step T cs m0 w.now) acc1
  let acc3 := m0.foldl (phase3Step T lds cs w.now) acc2
  (⟨acc3.ld, acc3.chrome, acc3.newMapping, acc3.nextLdId, acc3.nextChromeId, w.now⟩,
   ⟨acc3.added, acc3.removed, acc3.updated⟩)

/-! ## Basic lemmas about the JS-object and JS-Set models -/

theorem lookupEntry_map_overwrite (m : Mapping) (k : String) (v : MappingEntry)
    (h : m.any (fun p => p.1 == k) = true) :
    lookupEntry (m.map (fun p => if p.1 == k then (k, v) else p)) k = some v := by
  induction m with
  | nil => simp at h
  | cons x xs ih =>
    by_cases hx : (x.1 == k) = true
    · rw [List.map_cons, if_pos hx]
      simp [lookupEntry]
    · rw [List.map_cons, if_neg hx]
      rw [lookupEntry, if_neg (by simpa using hx)]
      apply ih
      rcases List.any_eq_true.mp h with ⟨p, hp, hpk⟩
      rcases List.mem_cons.mp hp with rfl | hp'
      · exact absurd hpk hx
      · exact List.any_eq_true.mpr ⟨p, hp', hpk⟩

theorem lookupEntry_append_last (m : Mapping) (k : String) (v : MappingEntry)
    (h : m.any (fun p => p.1 == k) = false) :
    lookupEntry (m ++ [(k, v)]) k = some v := by
  induction m with
  | nil => simp [lookupEntry]
  | cons x xs ih =>
    rw [List.any_cons, Bool.or_eq_false_iff] at h
    rw [List.cons_append, lookupEntry, if_neg (by simp [h.1])]
    exact ih h.2

/-- Writing a key then reading it gives the written value. -/
theorem lookupEntry_mapSet_self (m : Mapping) (k : String) (v : MappingEntry) :
    lookupEntry (mapSet m k v) k = some v := by
  unfold mapSet
  by_cases h : m.any (fun p => p.1 == k) = true
  · rw [if_pos h]
    exact lookupEntry_map_overwrite m k v h
  · rw [if_neg h]
    exact lookupEntry_append_last m k v (Bool.eq_false_iff.mpr h)

theorem lookupEntry_map_overwrite_ne (m : Mapping) (k k' : String) (v : MappingEntry)
    (h : k' ≠ k) :
    lookupEntry (m.map (fun p => if p.1 == k then (k, v) else p)) k' = lookupEntry m k' := by
  induction m with
  | nil => rfl
  | cons x xs ih =>
    rw [List.map_cons]
    by_cases hx : (x.1 == k) = true
    · have hxk : x.1 = k := by simpa using hx
      rw [if_pos hx, lookupEntry, lookupEntry, if_neg (by simp [Ne.symm h]),
        if_neg (by simp [hxk, Ne.symm h])]
      exact ih
    · rw [if_neg hx, lookupEntry, lookupEntry]
      by_cases hx' : (x.1 == k') = true
      · rw [if_pos hx', if_pos hx']
      · rw [if_neg hx', if_neg hx']
        exact ih

theorem lookupEntry_append_ne (m : Mapping) (k k' : String) (v : MappingEntry) (h : k' ≠ k) :
    lookupEntry (m ++ [(k, v)]) k' = lookupEntry m k' := by
  induction m with
  | nil => simp [lookupEntry, Ne.symm h]
  | cons x xs ih =>
    rw [List.cons_append, lookupEntry, lookupEntry]
    by_cases hx' : (x.1 == k') = true
    · rw [if_pos hx', if_pos hx']
    · rw [if_neg hx', if_neg hx']
      exact ih

/-- Writing a key leaves reads of other keys unchanged. -/
theorem lookupEntry_mapSet_ne (m : Mapping) (k k' : String) (v : MappingEntry)
    (h : k' ≠ k) :
    lookupEntry (mapSet m k v) k' = lookupEntry m k' := by
  unfold mapSet
  by_cases hm : m.any (fun p => p.1 == k) = true
  · rw [if_pos hm]
    exact lookupEntry_map_overwrite_ne m k k' v h
  · rw [if_neg hm]
    exact lookupEntry_append_ne m k k' v h

theorem mem_setDedup_foldl (l : List String) :
    ∀ (acc : List String) (x : String),
      (x ∈ l.foldl (fun acc x => if x ∈ acc then acc else acc ++ [x]) acc) ↔
        (x ∈ acc ∨ x ∈ l) := by
  induction l with
  | nil => intro acc x; simp
  | cons y ys ih =>
    intro acc x
    rw [List.foldl_cons]
    by_cases hy : y ∈ acc
    · rw [if_pos hy, ih]
      constructor
      · rintro (h | h)
        · exact Or.inl h
        · exact Or.inr (List.mem_cons_of_mem y h)
      · rintro (h | h)
        · exact Or.inl h
        · rcases List.mem_cons.mp h with h | h
          · exact Or.inl (h ▸ hy)
          · exact Or.inr h
    · rw [if_neg hy, ih]
      constructor
      · rintro (h | h)
        · rcases List.mem_append.mp h with h | h
          · exact Or.inl h
          · exact Or.inr (List.mem_cons.mpr (Or.inl (List.mem_singleton.mp h)))
        · exact Or.inr (List.mem_cons_of_mem y h)
      · rintro (h | h)
        · exact Or.inl (List.mem_append.mpr (Or.inl h))
        · rcases List.mem_cons.mp h with h | h
          · exact Or.inl (List.mem_append.mpr (Or.inr (by simp [h])))
          · exact Or.inr h

/-- Membership in the JS-Set dedup is membership in the original list. -/
theorem mem_setDedup (l : List String) (x : String) : x ∈ setDedup l ↔ x ∈ l := by
  unfold setDedup
  rw [mem_setDedup_foldl]
  simp

theorem nodup_setDedup_foldl (l : List String) :
    ∀ (acc : List String), acc.Nodup →
      (l.foldl (fun acc x => if x ∈ acc then acc else acc ++ [x]) acc).Nodup := by
  induction l with
  | nil => intro acc h; exact h
  | cons y ys ih =>
    intro acc h
    rw [List.foldl_cons]
    by_cases hy : y ∈ acc
    · rw [if_pos hy]; exact ih acc h
    · rw [if_neg hy]
      refine ih _ ?_
      rw [List.nodup_append]
      refine ⟨h, List.nodup_singleton y, ?_⟩
      intro a ha hb
      rw [List.mem_singleton] at hb
      exact hy (hb ▸ ha)

theorem nodup_setDedup (l : List String) : (setDedup l).Nodup :=
  nodup_setDedup_foldl l [] List.nodup_nil

theorem mem_mergeTagLists (a b : List String) (t : String) :
    t ∈ mergeTagLists a b ↔ t ∈ a ∨ t ∈ b := by
  unfold mergeTagLists
  rw [mem_setDedup, List.mem_append]

/-! ## Sync scheduler / concurrency guard (`SyncManager`, background script)

The `SyncManager` object keeps two booleans, `isSyncing` and `queuedTwoWay`.
`run(type, ...)` has a synchronous prefix deciding whether the request starts,
is queued (`type === 'twoWay'` while busy) or is rejected with a busy error
(any other type while busy); on completion the `finally` block clears
`isSyncing` and `checkQueue()` immediately starts a queued two-way run,
clearing the flag. -/

inductive ReqType where
  | oneWay
  | twoWay
deriving DecidableEq

inductive RunOutcome where
  | started
  | rejectedBusy
  | queued
deriving DecidableEq

structure SyncManagerState where
  isSyncing : Bool
  queuedTwoWay : Bool
deriving DecidableEq

/-- The synchronous decision made at the top of `SyncManager.run(type, ...)`. -/
def SyncManagerState.request (s : SyncManagerState) (t : ReqType) :
    SyncManagerState × RunOutcome :=
  if s.isSyncing then
    match t with
    | .twoWay => ({ s with queuedTwoWay := true }, .queued)
    | .oneWay => (s, .rejectedBusy)
  else ({ s with isSyncing := true }, .started)

/-- The `finally { this.isSyncing = false; this.checkQueue(); }` transition:
returns the new state and whether a queued two-way run was started. -/
def SyncManagerState.complete (s : SyncManagerState) : SyncManagerState × Bool :=
  if s.queuedTwoWay then (⟨true, false⟩, true) else (⟨false, s.queuedTwoWay⟩, false)

/-- The request sources wired to `SyncManager.run` in the background script:
popup messages `"sync"`, `"twoWayInitialSync"`, `"twoWaySync"`, the alarm
handler, and the debounced bookmark-change listener. -/
inductive Request where
  | manualOneWay
  | manualInitialTwoWay
  | manualTwoWay
  | timerOneWay
  | timerTwoWay
  | changeDriven
deriving DecidableEq

/-- The `type` string each request source passes to `SyncManager.run`
(the debounced change listener behaves like a `'twoWay'` request: it queues
when busy and runs otherwise). -/
def Request.reqType : Request → ReqType
  | .manualOneWay => .oneWay
  | .manualInitialTwoWay => .twoWay
  | .manualTwoWay => .twoWay
  | .timerOneWay => .oneWay
  | .timerTwoWay => .twoWay
  | .changeDriven => .twoWay

/-- C5 counterexample. The claim says any *manual* sync request during a
running sync is rejected with a busy error and never queued; but the manual
two-way request (popup message `"twoWaySync"`) calls `run('twoWay', ...)`,
which while busy silently sets the queued flag instead of rejecting. -/
theorem scheduler_manual_twoWay_queued_cex :
    (SyncManagerState.request ⟨true, false⟩ Request.manualTwoWay.reqType).2 = RunOutcome.queued ∧
    (SyncManagerState.request ⟨true, false⟩ Request.manualTwoWay.reqType).2 ≠
      RunOutcome.rejectedBusy ∧
    (SyncManagerState.request ⟨true, false⟩ Request.manualTwoWay.reqType).1.queuedTwoWay = true := by
  decide

/-- C5 (amended). While a run is in progress: a manual one-way request is
rejected with a busy error and never queued; any two-way request (manual,
initial, timer or change-driven) is silently absorbed into the single queued
flag, duplicates collapse, and on completion the queued run starts exactly
once with the flag cleared (a completion with no queued flag returns to idle
and starts nothing). -/
theorem scheduler_busy_amended :
    ∀ q : Bool,
      SyncManagerState.request ⟨true, q⟩ Request.manualOneWay.reqType =
        (⟨true, q⟩, RunOutcome.rejectedBusy) ∧
      SyncManagerState.request ⟨true, q⟩ Request.timerOneWay.reqType =
        (⟨true, q⟩, RunOutcome.rejectedBusy) ∧
      SyncManagerState.request ⟨true, q⟩ Request.manualTwoWay.reqType =
        (⟨true, true⟩, RunOutcome.queued) ∧
      SyncManagerState.request ⟨true, q⟩ Request.manualInitialTwoWay.reqType =
        (⟨true, true⟩, RunOutcome.queued) ∧
      SyncManagerState.request ⟨true, q⟩ Request.timerTwoWay.reqType =
        (⟨true, true⟩, RunOutcome.queued) ∧
      SyncManagerState.request ⟨true, q⟩ Request.changeDriven.reqType =
        (⟨true, true⟩, RunOutcome.queued) ∧
      SyncManagerState.request
          (SyncManagerState.request ⟨true, q⟩ Request.changeDriven.reqType).1
          Request.changeDriven.reqType = (⟨true, true⟩, RunOutcome.queued) ∧
      SyncManagerState.complete ⟨true, true⟩ = (⟨true, false⟩, true) ∧
      SyncManagerState.complete ⟨true, false⟩ = (⟨false, false⟩, false) := by
  intro q
  cases q <;> decide

/-! ## Conflict-resolver branch lemmas -/

theorem resolveTitle_chrome_only (e : MappingEntry) (ct lt : String) (d : Nat)
    (h1 : ct ≠ e.title) (h2 : lt = e.title) :
    resolveTitle e ct lt d = (ct, true, false) := by
  unfold resolveTitle
  rw [if_pos ⟨h1, h2⟩]

theorem resolveTitle_ld_only (e : MappingEntry) (ct lt : String) (d : Nat)
    (h1 : lt ≠ e.title) (h2 : ct = e.title) :
    resolveTitle e ct lt d = (lt, false, true) := by
  unfold resolveTitle
  rw [if_neg (by rintro ⟨hc, _⟩; exact hc h2), if_pos ⟨h1, h2⟩]

theorem resolveTitle_both_ld (e : MappingEntry) (ct lt : String) (d : Nat)
    (h1 : lt ≠ e.title) (h2 : ct ≠ e.title) (h3 : e.lastSynced < d) :
    resolveTitle e ct lt d = (lt, false, true) := by
  unfold resolveTitle
  rw [if_neg (by rintro ⟨_, hl⟩; exact h1 hl), if_neg (by rintro ⟨_, hc⟩; exact h2 hc),
    if_pos ⟨h1, h2⟩, if_pos h3]

theorem resolveTitle_both_chrome (e : MappingEntry) (ct lt : String) (d : Nat)
    (h1 : lt ≠ e.title) (h2 : ct ≠ e.title) (h3 : ¬e.lastSynced < d) :
    resolveTitle e ct lt d = (ct, true, false) := by
  unfold resolveTitle
  rw [if_neg (by rintro ⟨_, hl⟩; exact h1 hl), if_neg (by rintro ⟨_, hc⟩; exact h2 hc),
    if_pos ⟨h1, h2⟩, if_neg h3]

theorem resolveTitle_none (e : MappingEntry) (ct lt : String) (d : Nat)
    (h1 : ct = e.title) (h2 : lt = e.title) :
    resolveTitle e ct lt d = (e.title, false, false) := by
  unfold resolveTitle
  rw [if_neg (by rintro ⟨hc, _⟩; exact hc h1), if_neg (by rintro ⟨hl, _⟩; exact hl h2),
    if_neg (by rintro ⟨hl, _⟩; exact hl h2)]

/-- Neither of the title flags is set exactly when both current titles agree
with the remembered title. -/
theorem resolveTitle_flags (e : MappingEntry) (ct lt : String) (d : Nat) :
    ((resolveTitle e ct lt d).2.1 = false ∧ (resolveTitle e ct lt d).2.2 = false) ↔
      (ct = e.title ∧ lt = e.title) := by
  by_cases hc : ct = e.title <;> by_cases hl : lt = e.title
  · rw [resolveTitle_none e ct lt d hc hl]
    simp [hc, hl]
  · rw [resolveTitle_ld_only e ct lt d hl hc]
    simp [hl]
  · rw [resolveTitle_chrome_only e ct lt d hc hl]
    simp [hc]
  · by_cases hd : e.lastSynced < d
    · rw [resolveTitle_both_ld e ct lt d hl hc hd]
      simp [hc]
    · rw [resolveTitle_both_chrome e ct lt d hl hc hd]
      simp [hc]

theorem resolvePath_chrome_only (m c l : String) (h1 : c ≠ m) (h2 : l = m) :
    resolvePath m c l = (c, true, false) := by
  unfold resolvePath
  rw [if_pos ⟨h1, h2⟩]

theorem resolvePath_ld_only (m c l : String) (h1 : l ≠ m) (h2 : c = m) :
    resolvePath m c l = (l, false, true) := by
  unfold resolvePath
  rw [if_neg (by rintro ⟨hc, _⟩; exact hc h2), if_pos ⟨h1, h2⟩]

theorem resolvePath_both (m c l : String) (h1 : l ≠ m) (h2 : c ≠ m) :
    resolvePath m c l = (c, true, false) := by
  unfold resolvePath
  rw [if_neg (by rintro ⟨_, hl⟩; exact h1 hl), if_neg (by rintro ⟨_, hc⟩; exact h2 hc),
    if_pos ⟨h1, h2⟩]

theorem resolvePath_none (m c l : String) (h1 : c = m) (h2 : l = m) :
    resolvePath m c l = (m, false, false) := by
  unfold resolvePath
  rw [if_neg (by rintro ⟨hc, _⟩; exact hc h1), if_neg (by rintro ⟨hl, _⟩; exact hl h2),
    if_neg (by rintro ⟨hl, _⟩; exact hl h2)]

/-- Neither of the path flags is set exactly when both current paths agree
with the remembered path. -/
theorem resolvePath_flags (m c l : String) :
    ((resolvePath m c l).2.1 = false ∧ (resolvePath m c l).2.2 = false) ↔
      (c = m ∧ l = m) := by
  by_cases hc : c = m <;> by_cases hl : l = m
  · rw [resolvePath_none m c l hc hl]
    simp [hc, hl]
  · rw [resolvePath_ld_only m c l hl hc]
    simp [hl]
  · rw [resolvePath_chrome_only m c l hc hl]
    simp [hc]
  · rw [resolvePath_both m c l hl hc]
    simp [hc]

/-- The resolved path is always one of the three observed paths. -/
theorem resolvePath_mem (m c l : String) :
    (resolvePath m c l).1 = m ∨ (resolvePath m c l).1 = c ∨ (resolvePath m c l).1 = l := by
  by_cases hc : c = m <;> by_cases hl : l = m
  · rw [resolvePath_none m c l hc hl]; left; rfl
  · rw [resolvePath_ld_only m c l hl hc]; right; right; rfl
  · rw [resolvePath_chrome_only m c l hc hl]; right; left; rfl
  · rw [resolvePath_both m c l hl hc]; right; left; rfl

/-! ## Corrective tag rewriting -/

/-- Decoding the rewritten tag list gives exactly the final folder path: the
kept non-sync tags never start with the path prefix. -/
theorem extract_rewriteTags (T p : String) (tags : List String) :
    extractFolderPath T (rewriteTags T p tags) = p := by
  unfold rewriteTags
  apply extract_build_append
  intro t ht
  have h2 := (List.mem_filter.mp ht).2
  rw [Bool.and_eq_true, Bool.not_eq_true', Bool.not_eq_true'] at h2
  exact h2.2

/-- Every non-sync tag survives the corrective rewrite. -/
theorem mem_rewriteTags_of_other (T p : String) (tags : List String) (t : String)
    (ht : t ∈ tags) (h1 : (t == T) = false) (h2 : jsStartsWith t (T ++ "/") = false) :
    t ∈ rewriteTags T p tags := by
  unfold rewriteTags
  refine List.mem_append.mpr (Or.inr (List.mem_filter.mpr ⟨ht, ?_⟩))
  rw [Bool.and_eq_true, Bool.not_eq_true', Bool.not_eq_true']
  exact ⟨h1, h2⟩

/-- Every tag of the rewritten list is a new path tag or an old tag. -/
theorem mem_rewriteTags_cases (T p : String) (tags : List String) (t : String)
    (ht : t ∈ rewriteTags T p tags) :
    t ∈ buildTagsForPath T p ∨ t ∈ tags := by
  unfold rewriteTags at ht
  rcases List.mem_append.mp ht with h | h
  · exact Or.inl h
  · exact Or.inr (List.mem_filter.mp h).1

/-- The sync tag is always part of an encoded tag list. -/
theorem syncTag_mem_buildTagsForPath (T p : String) : T ∈ buildTagsForPath T p := by
  unfold buildTagsForPath
  by_cases hp : p = ""
  · rw [if_pos hp]; exact List.mem_singleton.mpr rfl
  · rw [if_neg hp]; exact List.mem_cons_self _ _

/-! ## Reductions of `phase3Step` by presence of the two sides -/

theorem phase3Step_none_none (T : String) (lds : List LdBookmark) (cs : List ChromeBookmark)
    (now : Nat) (acc : RunAcc) (u : String) (e : MappingEntry)
    (hc : chromeByUrl cs u = none) (hl : ldByUrl lds u = none) :
    phase3Step T lds cs now acc (u, e) = { acc with removed := acc.removed + 1 } := by
  unfold phase3Step
  simp only [hc, hl]

theorem phase3Step_ld_only (T : String) (lds : List LdBookmark) (cs : List ChromeBookmark)
    (now : Nat) (acc : RunAcc) (u : String) (e : MappingEntry) (ld : LdBookmark)
    (hc : chromeByUrl cs u = none) (hl : ldByUrl lds u = some ld) :
    phase3Step T lds cs now acc (u, e) =
      { acc with ld := ldDelete acc.ld ld.id, removed := acc.removed + 1 } := by
  unfold phase3Step
  simp only [hc, hl]

theorem phase3Step_chrome_only (T : String) (lds : List LdBookmark) (cs : List ChromeBookmark)
    (now : Nat) (acc : RunAcc) (u : String) (e : MappingEntry) (cbm : ChromeBookmark)
    (hc : chromeByUrl cs u = some cbm) (hl : ldByUrl lds u = none) :
    phase3Step T lds cs now acc (u, e) =
      { acc with chrome := chromeRemove acc.chrome e.chromeId, removed := acc.removed + 1 } := by
  unfold phase3Step
  simp only [hc, hl]

theorem phase3Step_both (T : String) (lds : List LdBookmark) (cs : List ChromeBookmark)
    (now : Nat) (acc : RunAcc) (u : String) (e : MappingEntry)
    (cbm : ChromeBookmark) (ld : LdBookmark)
    (hc : chromeByUrl cs u = some cbm) (hl : ldByUrl lds u = some ld) :
    phase3Step T lds cs now acc (u, e) = phase3Both T now acc u e cbm ld := by
  unfold phase3Step
  simp only [hc, hl]

/-- Explicit record form of `phase3Both`, separating the effect on each
component of the run state; `resolveTitle e cbm.title (ldTitleOf ld) _` and
`resolvePath e.folderPath cbm.folderPath (extractFolderPath T ld.tagNames)`
are abbreviated `rt`/`rp` in this comment. -/
theorem phase3Both_eq (T : String) (now : Nat) (acc : RunAcc) (u : String)
    (e : MappingEntry) (cbm : ChromeBookmark) (ld : LdBookmark) :
    phase3Both T now acc u e cbm ld =
      { ld :=
          if (resolveTitle e cbm.title (ldTitleOf ld) (ld.dateModified.getD 0)).2.1 ||
              (resolvePath e.folderPath cbm.folderPath (extractFolderPath T ld.tagNames)).2.1 then
            ldUpdate acc.ld ld.id ld.url
              (resolveTitle e cbm.title (ldTitleOf ld) (ld.dateModified.getD 0)).1
              (rewriteTags T
                (resolvePath e.folderPath cbm.folderPath (extractFolderPath T ld.tagNames)).1
                ld.tagNames)
          else acc.ld
        chrome :=
          if (resolveTitle e cbm.title (ldTitleOf ld) (ld.dateModified.getD 0)).2.2 ||
              (resolvePath e.folderPath cbm.folderPath (extractFolderPath T ld.tagNames)).2.2 then
            (if (resolvePath e.folderPath cbm.folderPath
                  (extractFolderPath T ld.tagNames)).1 ≠ cbm.folderPath then
              chromeMove
                (if (resolveTitle e cbm.title (ldTitleOf ld) (ld.dateModified.getD 0)).1 ≠
                    cbm.title then
                  chromeSetTitle acc.chrome cbm.id
                    (resolveTitle e cbm.title (ldTitleOf ld) (ld.dateModified.getD 0)).1
                else acc.chrome)
                cbm.id
                (resolvePath e.folderPath cbm.folderPath (extractFolderPath T ld.tagNames)).1
            else
              (if (resolveTitle e cbm.title (ldTitleOf ld) (ld.dateModified.getD 0)).1 ≠
                  cbm.title then
                chromeSetTitle acc.chrome cbm.id
                  (resolveTitle e cbm.title (ldTitleOf ld) (ld.dateModified.getD 0)).1
              else acc.chrome))
          else acc.chrome
        nextLdId := acc.nextLdId
        nextChromeId := acc.nextChromeId
        newMapping := mapSet acc.newMapping u
          (if ((resolveTitle e cbm.title (ldTitleOf ld) (ld.dateModified.getD 0)).2.1 ||
                (resolvePath e.folderPath cbm.folderPath
                  (extractFolderPath T ld.tagNames)).2.1) = false ∧
              ((resolveTitle e cbm.title (ldTitleOf ld) (ld.dateModified.getD 0)).2.2 ||
                (resolvePath e.folderPath cbm.folderPath
                  (extractFolderPath T ld.tagNames)).2.2) = false then
            { e with chromeId := cbm.id, linkdingId := ld.id, folderPath := cbm.folderPath }
          else
            ⟨ld.id, cbm.id,
              (resolveTitle e cbm.title (ldTitleOf ld) (ld.dateModified.getD 0)).1, u,
              (resolvePath e.folderPath cbm.folderPath (extractFolderPath T ld.tagNames)).1,
              now⟩)
        added := acc.added
        removed := acc.removed
        updated := acc.updated +
          (if (resolveTitle e cbm.title (ldTitleOf ld) (ld.dateModified.getD 0)).2.1 ||
              (resolvePath e.folderPath cbm.folderPath
                (extractFolderPath T ld.tagNames)).2.1 then 1 else 0) +
          (if (resolveTitle e cbm.title (ldTitleOf ld) (ld.dateModified.getD 0)).2.2 ||
              (resolvePath e.folderPath cbm.folderPath
                (extractFolderPath T ld.tagNames)).2.2 then 1 else 0) } := by
  cases h1 : (resolveTitle e cbm.title (ldTitleOf ld) (ld.dateModified.getD 0)).2.1 <;>
    cases h2 : (resolveTitle e cbm.title (ldTitleOf ld) (ld.dateModified.getD 0)).2.2 <;>
    cases h3 : (resolvePath e.folderPath cbm.folderPath (extractFolderPath T ld.tagNames)).2.1 <;>
    cases h4 : (resolvePath e.folderPath cbm.folderPath (extractFolderPath T ld.tagNames)).2.2 <;>
    simp only [phase3Both, h1, h2, h3, h4, Bool.false_or, Bool.true_or, Bool.or_false,
      Bool.or_true, Bool.or_self, if_true, if_false, Bool.true_eq_false, Bool.false_eq_true,
      false_and, and_false, and_self, true_and] <;>
    rfl

/-! ## Store-effect lemmas -/

theorem mem_ldDelete (l : List LdBookmark) (id : Nat) (b : LdBookmark) :
    b ∈ ldDelete l id ↔ b ∈ l ∧ b.id ≠ id := by
  unfold ldDelete
  rw [List.mem_filter]
  simp [bne_iff_ne]

theorem mem_chromeRemove (l : List ChromeBookmark) (id : Nat) (b : ChromeBookmark) :
    b ∈ chromeRemove l id ↔ b ∈ l ∧ b.id ≠ id := by
  unfold chromeRemove
  rw [List.mem_filter]
  simp [bne_iff_ne]

theorem mem_ldUpdate_self (l : List LdBookmark) (url title : String) (tags : List String)
    (b : LdBookmark) (hb : b ∈ l) :
    ldApplyUpdate b url title tags ∈ ldUpdate l b.id url title tags := by
  unfold ldUpdate
  have := List.mem_map_of_mem
    (fun x => if x.id = b.id then ldApplyUpdate x url title tags else x) hb
  simpa using this

theorem ldApplyUpdate_id (b : LdBookmark) (url title : String) (tags : List String) :
    (ldApplyUpdate b url title tags).id = b.id := rfl

theorem ldApplyUpdate_tagNames (b : LdBookmark) (url title : String) (tags : List String) :
    (ldApplyUpdate b url title tags).tagNames = tags := rfl

theorem ldApplyUpdate_title (b : LdBookmark) (url title : String) (tags : List String) :
    (ldApplyUpdate b url title tags).title = if title = "" then b.title else title := rfl

/-- The combined effect of the conditional title update and conditional move
on the local store always contains a bookmark with the entry's id carrying the
resolved title and path. -/
theorem chrome_write_spec (l : List ChromeBookmark) (cbm : ChromeBookmark)
    (t p : String) (hb : cbm ∈ l) :
    ∃ b ∈ (if p ≠ cbm.folderPath then
            chromeMove (if t ≠ cbm.title then chromeSetTitle l cbm.id t else l) cbm.id p
          else (if t ≠ cbm.title then chromeSetTitle l cbm.id t else l)),
      b.id = cbm.id ∧ b.title = t ∧ b.folderPath = p := by
  have hc1 : ∃ b ∈ (if t ≠ cbm.title then chromeSetTitle l cbm.id t else l),
      b.id = cbm.id ∧ b.title = t ∧ b.folderPath = cbm.folderPath := by
    by_cases ht : t ≠ cbm.title
    · rw [if_pos ht]
      refine ⟨{ cbm with title := t }, ?_, rfl, rfl, rfl⟩
      unfold chromeSetTitle
      have := List.mem_map_of_mem (fun x => if x.id = cbm.id then { x with title := t } else x) hb
      simpa using this
    · rw [if_neg ht]
      push_neg at ht
      exact ⟨cbm, hb, rfl, ht.symm, rfl⟩
  rcases hc1 with ⟨b1, hb1, hid1, htt1, hfp1⟩
  by_cases hp : p ≠ cbm.folderPath
  · rw [if_pos hp]
    refine ⟨{ b1 with folderPath := p }, ?_, hid1, htt1, rfl⟩
    unfold chromeMove
    have := List.mem_map_of_mem
      (fun x => if x.id = cbm.id then { x with folderPath := p } else x) hb1
    simpa [hid1] using this
  · rw [if_neg hp]
    push_neg at hp
    exact ⟨b1, hb1, hid1, htt1, hfp1 ▸ hp.symm⟩

/-! ## C3: deletion of mapped entries -/

/-- C3 counterexample. The claim says an entry absent remotely but present
locally has "the local item removed"; the code removes the *recorded*
`entry.chromeId` (here stale: 99), so the local item with the mapped URL
(id 5) survives the run. -/
theorem mapped_deletion_stale_local_cex :
    (⟨5, "u", "t", 0, ""⟩ : ChromeBookmark) ∈
      (phase3Step "s" [] [⟨5, "u", "t", 0, ""⟩] 100
        ⟨[], [⟨5, "u", "t", 0, ""⟩], 10, 10, [], 0, 0, 0⟩
        ("u", ⟨1, 99, "t", "u", "", 50⟩)).chrome := by
  decide

/-- C3 (amended). For every key in the persisted mapping: absent on both
sides → the entry is dropped and counted as removed, with no store writes;
absent locally, present remotely → the remote item (by its freshly fetched id)
is deleted, the entry dropped and counted as removed; absent remotely, present
locally → the bookmark carrying the entry's *recorded* `chromeId` is removed
(if still present; a local item with the mapped URL but a different id
survives), the entry dropped and counted as removed. -/
theorem mapped_deletion_cases (T : String) (lds : List LdBookmark)
    (cs : List ChromeBookmark) (now : Nat) (acc : RunAcc) (u : String) (e : MappingEntry) :
    (chromeByUrl cs u = none → ldByUrl lds u = none →
      phase3Step T lds cs now acc (u, e) = { acc with removed := acc.removed + 1 }) ∧
    (∀ ld, chromeByUrl cs u = none → ldByUrl lds u = some ld →
      (phase3Step T lds cs now acc (u, e)).removed = acc.removed + 1 ∧
      (phase3Step T lds cs now acc (u, e)).newMapping = acc.newMapping ∧
      (∀ b ∈ (phase3Step T lds cs now acc (u, e)).ld, b.id ≠ ld.id) ∧
      (∀ b ∈ acc.ld, b.id ≠ ld.id → b ∈ (phase3Step T lds cs now acc (u, e)).ld) ∧
      (phase3Step T lds cs now acc (u, e)).chrome = acc.chrome) ∧
    (∀ cbm, chromeByUrl cs u = some cbm → ldByUrl lds u = none →
      (phase3Step T lds cs now acc (u, e)).removed = acc.removed + 1 ∧
      (phase3Step T lds cs now acc (u, e)).newMapping = acc.newMapping ∧
      (∀ b ∈ (phase3Step T lds cs now acc (u, e)).chrome, b.id ≠ e.chromeId) ∧
      (∀ b ∈ acc.chrome, b.id ≠ e.chromeId → b ∈ (phase3Step T lds cs now acc (u, e)).chrome) ∧
      (phase3Step T lds cs now acc (u, e)).ld = acc.ld) := by
  refine ⟨?_, ?_, ?_⟩
  · intro hc hl
    exact phase3Step_none_none T lds cs now acc u e hc hl
  · intro ld hc hl
    rw [phase3Step_ld_only T lds cs now acc u e ld hc hl]
    refine ⟨rfl, rfl, ?_, ?_, rfl⟩
    · intro b hb
      exact ((mem_ldDelete acc.ld ld.id b).mp hb).2
    · intro b hb hbid
      exact (mem_ldDelete acc.ld ld.id b).mpr ⟨hb, hbid⟩
  · intro cbm hc hl
    rw [phase3Step_chrome_only T lds cs now acc u e cbm hc hl]
    refine ⟨rfl, rfl, ?_, ?_, rfl⟩
    · intro b hb
      exact ((mem_chromeRemove acc.chrome e.chromeId b).mp hb).2
    · intro b hb hbid
      exact (mem_chromeRemove acc.chrome e.chromeId b).mpr ⟨hb, hbid⟩

/-- Witness for C3 (amended) at a concrete state: a mapped URL deleted from
Chrome gets its remote item deleted and is counted as removed. -/
theorem mapped_deletion_cases_witness :
    (phase3Step "s" [⟨1, "u", "t", ["s"], none⟩] [] 100
      ⟨[⟨1, "u", "t", ["s"], none⟩], [], 2, 2, [], 0, 0, 0⟩
      ("u", ⟨1, 1, "t", "u", "", 50⟩)).removed = 0 + 1 ∧
    (phase3Step "s" [⟨1, "u", "t", ["s"], none⟩] [] 100
      ⟨[⟨1, "u", "t", ["s"], none⟩], [], 2, 2, [], 0, 0, 0⟩
      ("u", ⟨1, 1, "t", "u", "", 50⟩)).newMapping = [] ∧
    (∀ b ∈ (phase3Step "s" [⟨1, "u", "t", ["s"], none⟩] [] 100
      ⟨[⟨1, "u", "t", ["s"], none⟩], [], 2, 2, [], 0, 0, 0⟩
      ("u", ⟨1, 1, "t", "u", "", 50⟩)).ld, b.id ≠ 1) ∧
    (∀ b ∈ [(⟨1, "u", "t", ["s"], none⟩ : LdBookmark)], b.id ≠ 1 →
      b ∈ (phase3Step "s" [⟨1, "u", "t", ["s"], none⟩] [] 100
        ⟨[⟨1, "u", "t", ["s"], none⟩], [], 2, 2, [], 0, 0, 0⟩
        ("u", ⟨1, 1, "t", "u", "", 50⟩)).ld) ∧
    (phase3Step "s" [⟨1, "u", "t", ["s"], none⟩] [] 100
      ⟨[⟨1, "u", "t", ["s"], none⟩], [], 2, 2, [], 0, 0, 0⟩
      ("u", ⟨1, 1, "t", "u", "", 50⟩)).chrome = [] := by
  exact (mapped_deletion_cases "s" [⟨1, "u", "t", ["s"], none⟩] [] 100
    ⟨[⟨1, "u", "t", ["s"], none⟩], [], 2, 2, [], 0, 0, 0⟩ "u" ⟨1, 1, "t", "u", "", 50⟩).2.1
    ⟨1, "u", "t", ["s"], none⟩ (by decide) (by decide)

/-! ## C4: folder-path conflict resolution -/

/-- C4. For a mapped entry present on both sides: if both current paths differ
from the remembered path (and from each other), the local (Chrome) side wins —
the remote item's path tags are rewritten to encode the Chrome folder path and
the merged entry records it; if only one side's path differs from the
remembered path, that side's path wins and is propagated to the other side. -/
theorem path_conflict_resolution (T : String) (lds : List LdBookmark)
    (cs : List ChromeBookmark) (now : Nat) (acc : RunAcc) (u : String) (e : MappingEntry)
    (cbm : ChromeBookmark) (ld : LdBookmark)
    (hc : chromeByUrl cs u = some cbm) (hl : ldByUrl lds u = some ld)
    (hld : ld ∈ acc.ld) (hcb : cbm ∈ acc.chrome) :
    ((cbm.folderPath ≠ e.folderPath → extractFolderPath T ld.tagNames ≠ e.folderPath →
      cbm.folderPath ≠ extractFolderPath T ld.tagNames →
      (∃ b ∈ (phase3Step T lds cs now acc (u, e)).ld, b.id = ld.id ∧
        extractFolderPath T b.tagNames = cbm.folderPath) ∧
      (∃ e', lookupEntry (phase3Step T lds cs now acc (u, e)).newMapping u = some e' ∧
        e'.folderPath = cbm.folderPath)) ∧
    (cbm.folderPath ≠ e.folderPath → extractFolderPath T ld.tagNames = e.folderPath →
      (∃ b ∈ (phase3Step T lds cs now acc (u, e)).ld, b.id = ld.id ∧
        extractFolderPath T b.tagNames = cbm.folderPath) ∧
      (∃ e', lookupEntry (phase3Step T lds cs now acc (u, e)).newMapping u = some e' ∧
        e'.folderPath = cbm.folderPath)) ∧
    (extractFolderPath T ld.tagNames ≠ e.folderPath → cbm.folderPath = e.folderPath →
      (∃ b ∈ (phase3Step T lds cs now acc (u, e)).chrome, b.id = cbm.id ∧
        b.folderPath = extractFolderPath T ld.tagNames) ∧
      (∃ e', lookupEntry (phase3Step T lds cs now acc (u, e)).newMapping u = some e' ∧
        e'.folderPath = extractFolderPath T ld.tagNames))) := by
  rw [phase3Step_both T lds cs now acc u e cbm ld hc hl, phase3Both_eq]
  refine ⟨?_, ?_, ?_⟩
  · intro hcm hlm _
    rw [resolvePath_both e.folderPath cbm.folderPath (extractFolderPath T ld.tagNames) hlm hcm]
    simp only [Bool.or_true, if_true, Bool.true_eq_false, and_false, if_false]
    constructor
    · refine ⟨ldApplyUpdate ld ld.url
        (resolveTitle e cbm.title (ldTitleOf ld) (ld.dateModified.getD 0)).1
        (rewriteTags T cbm.folderPath ld.tagNames), ?_, rfl, ?_⟩
      · exact mem_ldUpdate_self acc.ld ld.url _ _ ld hld
      · rw [ldApplyUpdate_tagNames]
        exact extract_rewriteTags T cbm.folderPath ld.tagNames
    · exact ⟨_, lookupEntry_mapSet_self _ _ _, rfl⟩
  · intro hcm hlm
    rw [resolvePath_chrome_only e.folderPath cbm.folderPath (extractFolderPath T ld.tagNames)
      hcm hlm]
    simp only [Bool.or_true, if_true, Bool.true_eq_false, and_false, if_false]
    constructor
    · refine ⟨ldApplyUpdate ld ld.url
        (resolveTitle e cbm.title (ldTitleOf ld) (ld.dateModified.getD 0)).1
        (rewriteTags T cbm.folderPath ld.tagNames), ?_, rfl, ?_⟩
      · exact mem_ldUpdate_self acc.ld ld.url _ _ ld hld
      · rw [ldApplyUpdate_tagNames]
        exact extract_rewriteTags T cbm.folderPath ld.tagNames
    · exact ⟨_, lookupEntry_mapSet_self _ _ _, rfl⟩
  · intro hlm hcm
    rw [resolvePath_ld_only e.folderPath cbm.folderPath (extractFolderPath T ld.tagNames)
      hlm hcm]
    simp only [Bool.or_true, if_true, Bool.true_eq_false, and_false, if_false]
    constructor
    · rcases chrome_write_spec acc.chrome cbm
        (resolveTitle e cbm.title (ldTitleOf ld) (ld.dateModified.getD 0)).1
        (extractFolderPath T ld.tagNames) hcb with ⟨b, hb, hid, _, hfp⟩
      exact ⟨b, hb, hid, hfp⟩
    · exact ⟨_, lookupEntry_mapSet_self _ _ _, rfl⟩

/-- Witness for C4 at a concrete conflict: entry remembers path `"orig"`, the
Chrome bookmark sits in `"A"`, the remote tags encode `"B"`; the remote item
is rewritten to encode `"A"` and the entry records `"A"`. -/
theorem path_conflict_resolution_witness :
    ((∃ b ∈ (phase3Step "s" [⟨1, "u", "t", ["s", "s/B"], none⟩] [⟨1, "u", "t", 0, "A"⟩] 100
        ⟨[⟨1, "u", "t", ["s", "s/B"], none⟩], [⟨1, "u", "t", 0, "A"⟩], 2, 2, [], 0, 0, 0⟩
        ("u", ⟨1, 1, "t", "u", "orig", 50⟩)).ld,
      b.id = 1 ∧ extractFolderPath "s" b.tagNames = "A") ∧
    (∃ e', lookupEntry (phase3Step "s" [⟨1, "u", "t", ["s", "s/B"], none⟩]
        [⟨1, "u", "t", 0, "A"⟩] 100
        ⟨[⟨1, "u", "t", ["s", "s/B"], none⟩], [⟨1, "u", "t", 0, "A"⟩], 2, 2, [], 0, 0, 0⟩
        ("u", ⟨1, 1, "t", "u", "orig", 50⟩)).newMapping "u" = some e' ∧
      e'.folderPath = "A")) := by
  exact (path_conflict_resolution "s" [⟨1, "u", "t", ["s", "s/B"], none⟩]
    [⟨1, "u", "t", 0, "A"⟩] 100
    ⟨[⟨1, "u", "t", ["s", "s/B"], none⟩], [⟨1, "u", "t", 0, "A"⟩], 2, 2, [], 0, 0, 0⟩
    "u" ⟨1, 1, "t", "u", "orig", 50⟩ ⟨1, "u", "t", 0, "A"⟩ ⟨1, "u", "t", ["s", "s/B"], none⟩
    (by decide) (by decide) (by decide) (by decide)).1
    (by decide) (by decide) (by decide)

/-! ## C7: title conflict resolution -/

/-- C7 counterexample. The claim says the winning side's title is propagated
to the other side; here the Chrome title changed to `""` (remote still matches
the remembered `"x"`), so Chrome wins — but `updateLinkdingBookmark` only
sends truthy titles, so the remote item keeps `"x"` while the merged entry
records `""`: the winning title is *not* propagated. -/
theorem title_empty_not_propagated_cex :
    (phase3Step "s" [⟨1, "u", "x", ["s"], none⟩] [⟨1, "u", "", 0, ""⟩] 100
        ⟨[⟨1, "u", "x", ["s"], none⟩], [⟨1, "u", "", 0, ""⟩], 2, 2, [], 0, 0, 0⟩
        ("u", ⟨1, 1, "x", "u", "", 50⟩)).ld = [⟨1, "u", "x", ["s"], none⟩] ∧
    lookupEntry (phase3Step "s" [⟨1, "u", "x", ["s"], none⟩] [⟨1, "u", "", 0, ""⟩] 100
        ⟨[⟨1, "u", "x", ["s"], none⟩], [⟨1, "u", "", 0, ""⟩], 2, 2, [], 0, 0, 0⟩
        ("u", ⟨1, 1, "x", "u", "", 50⟩)).newMapping "u" =
      some ⟨1, 1, "", "u", "", 100⟩ := by
  decide

/-- C7 (amended). For a mapped entry present on both sides: if exactly one
side's title differs from the remembered title, that side wins — the merged
entry records it, and it is propagated to the other side, except that an empty
winning local title is not sent to the remote store (the remote item keeps its
previous title). If both sides differ, the remote title wins exactly when the
remote modification timestamp is newer than the entry's `lastSynced`, and
otherwise the local title wins by default (with the same empty-title
caveat). -/
theorem title_conflict_amended (T : String) (lds : List LdBookmark)
    (cs : List ChromeBookmark) (now : Nat) (acc : RunAcc) (u : String) (e : MappingEntry)
    (cbm : ChromeBookmark) (ld : LdBookmark)
    (hc : chromeByUrl cs u = some cbm) (hl : ldByUrl lds u = some ld)
    (hld : ld ∈ acc.ld) (hcb : cbm ∈ acc.chrome) :
    ((cbm.title ≠ e.title → ldTitleOf ld = e.title →
      (∃ e', lookupEntry (phase3Step T lds cs now acc (u, e)).newMapping u = some e' ∧
        e'.title = cbm.title) ∧
      (∃ b ∈ (phase3Step T lds cs now acc (u, e)).ld, b.id = ld.id ∧
        b.title = (if cbm.title = "" then ld.title else cbm.title))) ∧
    (ldTitleOf ld ≠ e.title → cbm.title = e.title →
      (∃ e', lookupEntry (phase3Step T lds cs now acc (u, e)).newMapping u = some e' ∧
        e'.title = ldTitleOf ld) ∧
      (∃ b ∈ (phase3Step T lds cs now acc (u, e)).chrome, b.id = cbm.id ∧
        b.title = ldTitleOf ld)) ∧
    (cbm.title ≠ e.title → ldTitleOf ld ≠ e.title →
      (e.lastSynced < ld.dateModified.getD 0 →
        (∃ e', lookupEntry (phase3Step T lds cs now acc (u, e)).newMapping u = some e' ∧
          e'.title = ldTitleOf ld) ∧
        (∃ b ∈ (phase3Step T lds cs now acc (u, e)).chrome, b.id = cbm.id ∧
          b.title = ldTitleOf ld)) ∧
      (¬e.lastSynced < ld.dateModified.getD 0 →
        (∃ e', lookupEntry (phase3Step T lds cs now acc (u, e)).newMapping u = some e' ∧
          e'.title = cbm.title) ∧
        (∃ b ∈ (phase3Step T lds cs now acc (u, e)).ld, b.id = ld.id ∧
          b.title = (if cbm.title = "" then ld.title else cbm.title))))) := by
  rw [phase3Step_both T lds cs now acc u e cbm ld hc hl, phase3Both_eq]
  refine ⟨?_, ?_, ?_⟩
  · intro h1 h2
    rw [resolveTitle_chrome_only e cbm.title (ldTitleOf ld) (ld.dateModified.getD 0) h1 h2]
    simp only [Bool.true_or, if_true, Bool.true_eq_false, false_and, if_false]
    constructor
    · exact ⟨_, lookupEntry_mapSet_self _ _ _, rfl⟩
    · refine ⟨ldApplyUpdate ld ld.url cbm.title
        (rewriteTags T
          (resolvePath e.folderPath cbm.folderPath (extractFolderPath T ld.tagNames)).1
          ld.tagNames), ?_, rfl, rfl⟩
      exact mem_ldUpdate_self acc.ld ld.url _ _ ld hld
  · intro h1 h2
    rw [resolveTitle_ld_only e cbm.title (ldTitleOf ld) (ld.dateModified.getD 0) h1 h2]
    simp only [Bool.true_or, if_true, Bool.true_eq_false, and_false, if_false]
    constructor
    · exact ⟨_, lookupEntry_mapSet_self _ _ _, rfl⟩
    · rcases chrome_write_spec acc.chrome cbm (ldTitleOf ld)
        (resolvePath e.folderPath cbm.folderPath (extractFolderPath T ld.tagNames)).1 hcb with
        ⟨b, hb, hid, htt, _⟩
      exact ⟨b, hb, hid, htt⟩
  · intro h1 h2
    constructor
    · intro h3
      rw [resolveTitle_both_ld e cbm.title (ldTitleOf ld) (ld.dateModified.getD 0) h2 h1 h3]
      simp only [Bool.true_or, if_true, Bool.true_eq_false, and_false, if_false]
      constructor
      · exact ⟨_, lookupEntry_mapSet_self _ _ _, rfl⟩
      · rcases chrome_write_spec acc.chrome cbm (ldTitleOf ld)
          (resolvePath e.folderPath cbm.folderPath (extractFolderPath T ld.tagNames)).1 hcb with
          ⟨b, hb, hid, htt, _⟩
        exact ⟨b, hb, hid, htt⟩
    · intro h3
      rw [resolveTitle_both_chrome e cbm.title (ldTitleOf ld) (ld.dateModified.getD 0) h2 h1 h3]
      simp only [Bool.true_or, if_true, Bool.true_eq_false, false_and, if_false]
      constructor
      · exact ⟨_, lookupEntry_mapSet_self _ _ _, rfl⟩
      · refine ⟨ldApplyUpdate ld ld.url cbm.title
          (rewriteTags T
            (resolvePath e.folderPath cbm.folderPath (extractFolderPath T ld.tagNames)).1
            ld.tagNames), ?_, rfl, rfl⟩
        exact mem_ldUpdate_self acc.ld ld.url _ _ ld hld

/-- Witness for C7 (amended): the remote title changed (`"y"` ≠ remembered
`"x"`), Chrome still matches — the remote title wins and is propagated to the
Chrome bookmark and the merged entry. -/
theorem title_conflict_amended_witness :
    (∃ e', lookupEntry (phase3Step "s" [⟨1, "u", "y", ["s"], none⟩] [⟨1, "u", "x", 0, ""⟩] 100
        ⟨[⟨1, "u", "y", ["s"], none⟩], [⟨1, "u", "x", 0, ""⟩], 2, 2, [], 0, 0, 0⟩
        ("u", ⟨1, 1, "x", "u", "", 50⟩)).newMapping "u" = some e' ∧
      e'.title = ldTitleOf ⟨1, "u", "y", ["s"], none⟩) ∧
    (∃ b ∈ (phase3Step "s" [⟨1, "u", "y", ["s"], none⟩] [⟨1, "u", "x", 0, ""⟩] 100
        ⟨[⟨1, "u", "y", ["s"], none⟩], [⟨1, "u", "x", 0, ""⟩], 2, 2, [], 0, 0, 0⟩
        ("u", ⟨1, 1, "x", "u", "", 50⟩)).chrome, b.id = 1 ∧
      b.title = ldTitleOf ⟨1, "u", "y", ["s"], none⟩) := by
  exact (title_conflict_amended "s" [⟨1, "u", "y", ["s"], none⟩] [⟨1, "u", "x", 0, ""⟩] 100
    ⟨[⟨1, "u", "y", ["s"], none⟩], [⟨1, "u", "x", 0, ""⟩], 2, 2, [], 0, 0, 0⟩
    "u" ⟨1, 1, "x", "u", "", 50⟩ ⟨1, "u", "x", 0, ""⟩ ⟨1, "u", "y", ["s"], none⟩
    (by decide) (by decide) (by decide) (by decide)).2.1 (by decide) (by decide)

/-! ## C9: `lastSynced` on merged entries -/

/-- C9 counterexample. The claim says the merged entry gets
`lastSynced = now` even when neither side diverged; in a quiescent run
(`now = 100`) the entry keeps its previous `lastSynced = 50`, because the
no-update branch overwrites the freshly stamped entry with the spread of the
old one. -/
theorem lastSynced_preserved_cex :
    lookupEntry ((runTwoWaySync "s"
        ⟨[⟨1, "u", "B", ["s"], none⟩], [⟨1, "u", "B", 0, ""⟩],
          [("u", ⟨1, 1, "B", "u", "", 50⟩)], 2, 2, 100⟩).1.mapping) "u" =
      some ⟨1, 1, "B", "u", "", 50⟩ ∧ (50 : Nat) ≠ 100 := by
  constructor
  · decide
  · decide

/-- C9 (amended). For a mapped key present on both sides, the merged entry is
written with `lastSynced = now` whenever a corrective write was applied to
either side; when neither side diverged (both titles and both paths equal the
remembered ones) the previous entry is preserved — ids and folder path
refreshed — keeping its old `lastSynced`, and no store write or `updated`
count occurs. -/
theorem lastSynced_refresh_amended (T : String) (lds : List LdBookmark)
    (cs : List ChromeBookmark) (now : Nat) (acc : RunAcc) (u : String) (e : MappingEntry)
    (cbm : ChromeBookmark) (ld : LdBookmark)
    (hc : chromeByUrl cs u = some cbm) (hl : ldByUrl lds u = some ld) :
    ((cbm.title = e.title ∧ ldTitleOf ld = e.title ∧ cbm.folderPath = e.folderPath ∧
        extractFolderPath T ld.tagNames = e.folderPath) →
      lookupEntry (phase3Step T lds cs now acc (u, e)).newMapping u =
        some { e with chromeId := cbm.id, linkdingId := ld.id, folderPath := cbm.folderPath } ∧
      (phase3Step T lds cs now acc (u, e)).ld = acc.ld ∧
      (phase3Step T lds cs now acc (u, e)).chrome = acc.chrome ∧
      (phase3Step T lds cs now acc (u, e)).updated = acc.updated) ∧
    (¬(cbm.title = e.title ∧ ldTitleOf ld = e.title ∧ cbm.folderPath = e.folderPath ∧
        extractFolderPath T ld.tagNames = e.folderPath) →
      ∃ e', lookupEntry (phase3Step T lds cs now acc (u, e)).newMapping u = some e' ∧
        e'.lastSynced = now) := by
  rw [phase3Step_both T lds cs now acc u e cbm ld hc hl, phase3Both_eq]
  constructor
  · rintro ⟨h1, h2, h3, h4⟩
    rw [resolveTitle_none e cbm.title (ldTitleOf ld) (ld.dateModified.getD 0) h1 h2,
      resolvePath_none e.folderPath cbm.folderPath (extractFolderPath T ld.tagNames) h3 h4]
    simp [lookupEntry_mapSet_self]
  · intro hne
    by_cases hcond :
        ((resolveTitle e cbm.title (ldTitleOf ld) (ld.dateModified.getD 0)).2.1 ||
          (resolvePath e.folderPath cbm.folderPath (extractFolderPath T ld.tagNames)).2.1)
          = false ∧
        ((resolveTitle e cbm.title (ldTitleOf ld) (ld.dateModified.getD 0)).2.2 ||
          (resolvePath e.folderPath cbm.folderPath (extractFolderPath T ld.tagNames)).2.2)
          = false
    · exfalso
      rcases hcond with ⟨hA, hB⟩
      rw [Bool.or_eq_false_iff] at hA hB
      have ht := (resolveTitle_flags e cbm.title (ldTitleOf ld) (ld.dateModified.getD 0)).mp
        ⟨hA.1, hB.1⟩
      have hpth := (resolvePath_flags e.folderPath cbm.folderPath
        (extractFolderPath T ld.tagNames)).mp ⟨hA.2, hB.2⟩
      exact hne ⟨ht.1, ht.2, hpth.1, hpth.2⟩
    · rw [if_neg hcond]
      exact ⟨_, lookupEntry_mapSet_self _ _ _, rfl⟩

/-- Witness for C9 (amended): a diverged title (remote `"y"`, remembered
`"x"`) stamps the merged entry with the run timestamp. -/
theorem lastSynced_refresh_amended_witness :
    (∃ e', lookupEntry (phase3Step "s" [⟨1, "u", "y", ["s"], none⟩] [⟨1, "u", "x", 0, ""⟩] 100
        ⟨[⟨1, "u", "y", ["s"], none⟩], [⟨1, "u", "x", 0, ""⟩], 2, 2, [], 0, 0, 0⟩
        ("u", ⟨1, 1, "x", "u", "", 50⟩)).newMapping "u" = some e' ∧
      e'.lastSynced = 100) := by
  exact (lastSynced_refresh_amended "s" [⟨1, "u", "y", ["s"], none⟩] [⟨1, "u", "x", 0, ""⟩] 100
    ⟨[⟨1, "u", "y", ["s"], none⟩], [⟨1, "u", "x", 0, ""⟩], 2, 2, [], 0, 0, 0⟩
    "u" ⟨1, 1, "x", "u", "", 50⟩ ⟨1, "u", "x", 0, ""⟩ ⟨1, "u", "y", ["s"], none⟩
    (by decide) (by decide)).2 (by decide)

/-! ## C10: remote writes preserve tags outside the sync namespace -/

/-- C10. Remote writes for existing items preserve all tags outside the sync
namespace: the corrective rewrite keeps every tag that is neither the sync tag
nor a path tag and only adds the new path tags; the linking updates send the
set union of the existing tags and the new path tags; and the reconciler's
corrective update leaves, on the updated item, every non-sync-namespace tag in
place. -/
theorem remote_tag_frame :
    (∀ (T p : String) (tags : List String) (t : String),
      t ∈ tags → (t == T) = false → jsStartsWith t (T ++ "/") = false →
      t ∈ rewriteTags T p tags) ∧
    (∀ (T p : String) (tags : List String) (t : String),
      t ∈ rewriteTags T p tags → t ∈ buildTagsForPath T p ∨ t ∈ tags) ∧
    (∀ (a b : List String) (t : String), t ∈ mergeTagLists a b ↔ t ∈ a ∨ t ∈ b) ∧
    (∀ (T : String) (lds : List LdBookmark) (cs : List ChromeBookmark) (now : Nat)
      (acc : RunAcc) (u : String) (e : MappingEntry) (cbm : ChromeBookmark) (ld : LdBookmark),
      chromeByUrl cs u = some cbm → ldByUrl lds u = some ld → ld ∈ acc.ld →
      ∀ t ∈ ld.tagNames, (t == T) = false → jsStartsWith t (T ++ "/") = false →
        ∃ b ∈ (phase3Step T lds cs now acc (u, e)).ld, b.id = ld.id ∧ t ∈ b.tagNames) := by
  refine ⟨mem_rewriteTags_of_other, mem_rewriteTags_cases, mem_mergeTagLists, ?_⟩
  intro T lds cs now acc u e cbm ld hc hl hld t ht h1 h2
  rw [phase3Step_both T lds cs now acc u e cbm ld hc hl, phase3Both_eq]
  by_cases hb :
      ((resolveTitle e cbm.title (ldTitleOf ld) (ld.dateModified.getD 0)).2.1 ||
        (resolvePath e.folderPath cbm.folderPath (extractFolderPath T ld.tagNames)).2.1) = true
  · rw [if_pos hb]
    refine ⟨ldApplyUpdate ld ld.url
      (resolveTitle e cbm.title (ldTitleOf ld) (ld.dateModified.getD 0)).1
      (rewriteTags T
        (resolvePath e.folderPath cbm.folderPath (extractFolderPath T ld.tagNames)).1
        ld.tagNames), mem_ldUpdate_self acc.ld ld.url _ _ ld hld, rfl, ?_⟩
    rw [ldApplyUpdate_tagNames]
    exact mem_rewriteTags_of_other T _ ld.tagNames t ht h1 h2
  · rw [if_neg hb]
    exact ⟨ld, hld, rfl, ht⟩

/-- Witness for C10 at concrete tag lists and a concrete reconciler step. -/
theorem remote_tag_frame_witness :
    ("keep" ∈ rewriteTags "s" "A" ["s", "s/B", "keep"]) ∧
    ("x" ∈ buildTagsForPath "s" "A" ∨ "x" ∈ ["s", "x"]) ∧
    ("keep" ∈ mergeTagLists ["keep"] ["s"] ↔ "keep" ∈ ["keep"] ∨ "keep" ∈ ["s"]) ∧
    (∃ b ∈ (phase3Step "s" [⟨1, "u", "t", ["s", "s/B", "keep"], none⟩]
        [⟨1, "u", "t", 0, "A"⟩] 100
        ⟨[⟨1, "u", "t", ["s", "s/B", "keep"], none⟩], [⟨1, "u", "t", 0, "A"⟩], 2, 2, [],
          0, 0, 0⟩
        ("u", ⟨1, 1, "t", "u", "orig", 50⟩)).ld, b.id = 1 ∧ "keep" ∈ b.tagNames) := by
  refine ⟨remote_tag_frame.1 "s" "A" ["s", "s/B", "keep"] "keep" (by decide) (by decide)
      (by decide),
    remote_tag_frame.2.1 "s" "A" ["s", "x"] "x" (by decide),
    remote_tag_frame.2.2.1 ["keep"] ["s"] "keep", ?_⟩
  exact remote_tag_frame.2.2.2 "s" [⟨1, "u", "t", ["s", "s/B", "keep"], none⟩]
    [⟨1, "u", "t", 0, "A"⟩] 100
    ⟨[⟨1, "u", "t", ["s", "s/B", "keep"], none⟩], [⟨1, "u", "t", 0, "A"⟩], 2, 2, [], 0, 0, 0⟩
    "u" ⟨1, 1, "t", "u", "orig", 50⟩ ⟨1, "u", "t", 0, "A"⟩
    ⟨1, "u", "t", ["s", "s/B", "keep"], none⟩ (by decide) (by decide) (by decide)
    "keep" (by decide) (by decide) (by decide)

/-! ## Initial sync strategies (`runInitialTwoWaySync`, src/sync.js 422–697)

State for one initial-sync run, with the `added / updated / downloaded`
counters. Remote creates can fail (`failCreate url = true` models a
`createLinkdingBookmark` exception for that URL); other calls are modelled as
succeeding. In `push` and `pull` the items run through `processBatch`, whose
per-item try/catch turns a failure into a skipped item; the `merge` loop is a
plain `for` over the deduplicated URLs, so an exception propagates and aborts
the run. -/

structure InitAcc where
  ld : List LdBookmark
  chrome : List ChromeBookmark
  nextLdId : Nat
  nextChromeId : Nat
  mapping : Mapping
  added : Nat
  updated : Nat
  downloaded : Nat
deriving DecidableEq

def initLdCreate (acc : InitAcc) (url title : String) (tags : List String) (now : Nat) :
    LdBookmark × InitAcc :=
  let created : LdBookmark :=
    ⟨acc.nextLdId, url, if title = "" then url else title, tags, some now⟩
  (created, { acc with ld := acc.ld ++ [created], nextLdId := acc.nextLdId + 1 })

def initChromeCreate (acc : InitAcc) (folderPath title url : String) (now : Nat) :
    ChromeBookmark × InitAcc :=
  let created : ChromeBookmark := ⟨acc.nextChromeId, url, title, now, folderPath⟩
  (created,
    { acc with chrome := acc.chrome ++ [created], nextChromeId := acc.nextChromeId + 1 })

/-- A `for … await` loop over fallible per-item work: the first exception
aborts the loop and propagates. -/
def foldE {α : Type} (f : InitAcc → α → Except String InitAcc) :
    List α → InitAcc → Except String InitAcc
  | [], a => .ok a
  | x :: xs, a =>
    match f a x with
    | .ok a' => foldE f xs a'
    | .error e => .error e

/-- `processBatch` applied to fallible per-item work: every item is attempted;
a failure is caught (`console.error`) and the item skipped, leaving the run
state unchanged for that item. -/
def processBatchFold {α : Type} (f : InitAcc → α → Except String InitAcc)
    (items : List α) (a : InitAcc) : InitAcc :=
  items.foldl (fun acc i => match f acc i with | .ok acc' => acc' | .error _ => acc) a

/-- `Number.MAX_SAFE_INTEGER`, the sort index of URLs absent from the saved
order. -/
def MAX_SAFE_INT : Nat := 9007199254740991

/-- `orderMap.has(u) ? orderMap.get(u) : MAX_SAFE_INTEGER` where `orderMap`
maps each URL of the saved order to its (last) index. -/
def orderIdx (ord : List String) (u : String) : Nat :=
  match (ord.enum.map (fun p => (p.2, p.1))).reverse.find? (fun p => p.1 == u) with
  | some p => p.2
  | none => MAX_SAFE_INT

/-- The deduplicated union of both sides' URLs, sorted by the saved config
order when one exists (`Array.prototype.sort` is stable). -/
def mergeUrls (configOrder : Option (List String)) (lds : List LdBookmark)
    (cs : List ChromeBookmark) : List String :=
  let sortedUrls := setDedup (lds.map (fun b => b.url) ++ cs.map (fun b => b.url))
  let existingOrder := match configOrder with | some ord => ord | none => []
  if existingOrder.length > 0 then
    sortedUrls.mergeSort (fun a b => decide (orderIdx existingOrder a ≤ orderIdx existingOrder b))
  else sortedUrls

/-- One item of the `push` strategy: link (merging path tags) when the URL
already exists remotely, else create the remote item. -/
def pushStep (T : String) (lds : List LdBookmark) (now : Nat) (failCreate : String → Bool)
    (acc : InitAcc) (cbm : ChromeBookmark) : Except String InitAcc :=
  let tags := buildTagsForPath T cbm.folderPath
  match ldByUrl lds cbm.url with
  | some ld =>
    let mergedTags := mergeTagLists ld.tagNames tags
    let acc1 :=
      if mergedTags.length = ld.tagNames.length ∧ ∀ t ∈ mergedTags, t ∈ ld.tagNames then acc
      else { acc with ld := ldUpdate acc.ld ld.id ld.url ld.title mergedTags }
    .ok { acc1 with
      mapping := mapSet acc1.mapping cbm.url
        ⟨ld.id, cbm.id, cbm.title, cbm.url, cbm.folderPath, now⟩
      updated := acc1.updated + 1 }
  | none =>
    if failCreate cbm.url then .error "Create failed"
    else
      let (created, acc1) := initLdCreate acc cbm.url cbm.title tags now
      .ok { acc1 with
        mapping := mapSet acc1.mapping cbm.url
          ⟨created.id, cbm.id, cbm.title, cbm.url, cbm.folderPath, now⟩
        added := acc1.added + 1 }

def runInitialPush (T : String) (failCreate : String → Bool) (w : World) : InitAcc :=
  let lds := w.ld.filter (fun b => b.tagNames.contains T)
  processBatchFold (pushStep T lds w.now failCreate) w.chrome
    ⟨w.ld, w.chrome, w.nextLdId, w.nextChromeId, [], 0, 0, 0⟩

/-- One item of the `pull` strategy: recreate the remote bookmark locally at
its decoded folder path. -/
def pullStep (T : String) (now : Nat) (acc : InitAcc) (ld : LdBookmark) :
    Except String InitAcc :=
  let folderPath := extractFolderPath T ld.tagNames
  let (created, acc1) := initChromeCreate acc folderPath (ldTitleOf ld) ld.url now
  .ok { acc1 with
    mapping := mapSet acc1.mapping ld.url
      ⟨ld.id, created.id, ldTitleOf ld, ld.url, folderPath, now⟩
    downloaded := acc1.downloaded + 1 }

/-- `pull`: clear the synced subtree (`removeChildrenOf`), then recreate one
local bookmark per remote item (sorted by the config order when present). -/
def runInitialPull (T : String) (configOrder : Option (List String)) (w : World) : InitAcc :=
  let lds := w.ld.filter (fun b => b.tagNames.contains T)
  let lds1 :=
    match configOrder with
    | some ord =>
      lds.mergeSort (fun a b => decide (orderIdx ord a.url ≤ orderIdx ord b.url))
    | none => lds
  processBatchFold (pullStep T w.now) lds1
    ⟨w.ld, [], w.nextLdId, w.nextChromeId, [], 0, 0, 0⟩

/-- The both-present branch of the `merge` strategy: the newer side's title
wins, the Chrome folder path's tags are merged onto the remote item. -/
def mergeBoth (T : String) (now : Nat) (acc : InitAcc) (url : String)
    (ld : LdBookmark) (cbm : ChromeBookmark) : InitAcc :=
  let title := if cbm.dateAdded < ld.dateModified.getD 0 then ldTitleOf ld else cbm.title
  let acc1 :=
    if title ≠ cbm.title then { acc with chrome := chromeSetTitle acc.chrome cbm.id title }
    else acc
  let mergedTags := mergeTagLists ld.tagNames (buildTagsForPath T cbm.folderPath)
  let acc2 :=
    if mergedTags.length = ld.tagNames.length ∧ ∀ t ∈ mergedTags, t ∈ ld.tagNames then acc1
    else { acc1 with ld := ldUpdate acc1.ld ld.id ld.url title mergedTags }
  { acc2 with
    mapping := mapSet acc2.mapping url ⟨ld.id, cbm.id, title, url, cbm.folderPath, now⟩
    updated := acc2.updated + 1 }

/-- One URL of the `merge` strategy. -/
def mergeStep (T : String) (lds : List LdBookmark) (cs : List ChromeBookmark) (now : Nat)
    (failCreate : String → Bool) (acc : InitAcc) (url : String) : Except String InitAcc :=
  match ldByUrl lds url, chromeByUrl cs url with
  | some ld, some cbm => .ok (mergeBoth T now acc url ld cbm)
  | none, some cbm =>
    if failCreate cbm.url then .error "Create failed"
    else
      let (created, acc1) :=
        initLdCreate acc cbm.url cbm.title (buildTagsForPath T cbm.folderPath) now
      .ok { acc1 with
        mapping := mapSet acc1.mapping url
          ⟨created.id, cbm.id, cbm.title, url, cbm.folderPath, now⟩
        added := acc1.added + 1 }
  | some ld, none =>
    let folderPath := extractFolderPath T ld.tagNames
    let (created, acc1) := initChromeCreate acc folderPath (ldTitleOf ld) ld.url now
    .ok { acc1 with
      mapping := mapSet acc1.mapping url
        ⟨ld.id, created.id, ldTitleOf ld, url, folderPath, now⟩
      downloaded := acc1.downloaded + 1 }
  | none, none => .ok acc

def runInitialMerge (T : String) (failCreate : String → Bool)
    (configOrder : Option (List String)) (w : World) : Except String InitAcc :=
  let lds := w.ld.filter (fun b => b.tagNames.contains T)
  foldE (mergeStep T lds w.chrome w.now failCreate) (mergeUrls configOrder lds w.chrome)
    ⟨w.ld, w.chrome, w.nextLdId, w.nextChromeId, [], 0, 0, 0⟩

/-! ## Lemmas about URL lookups, `foldE`, `processBatchFold` and key counts -/

theorem chromeByUrl_some (cs : List ChromeBookmark) (u : String) (b : ChromeBookmark)
    (h : chromeByUrl cs u = some b) : b ∈ cs ∧ b.url = u := by
  unfold chromeByUrl at h
  refine ⟨List.mem_reverse.mp (List.mem_of_find?_eq_some h), ?_⟩
  have := List.find?_some h
  simpa using this

theorem ldByUrl_some (lds : List LdBookmark) (u : String) (b : LdBookmark)
    (h : ldByUrl lds u = some b) : b ∈ lds ∧ b.url = u := by
  unfold ldByUrl at h
  refine ⟨List.mem_reverse.mp (List.mem_of_find?_eq_some h), ?_⟩
  have := List.find?_some h
  simpa using this

theorem foldE_append {α : Type} (f : InitAcc → α → Except String InitAcc)
    (l1 l2 : List α) :
    ∀ a, foldE f (l1 ++ l2) a =
      (match foldE f l1 a with
       | .ok a' => foldE f l2 a'
       | .error e => .error e) := by
  induction l1 with
  | nil => intro a; rfl
  | cons x xs ih =>
    intro a
    rw [List.cons_append]
    cases hfa : f a x with
    | ok a1 =>
      have hL : foldE f (x :: (xs ++ l2)) a = foldE f (xs ++ l2) a1 := by
        simp only [foldE, hfa]
      have hR : foldE f (x :: xs) a = foldE f xs a1 := by
        simp only [foldE, hfa]
      rw [hL, hR, ih a1]
    | error e =>
      have hL : foldE f (x :: (xs ++ l2)) a = .error e := by
        simp only [foldE, hfa]
      have hR : foldE f (x :: xs) a = .error e := by
        simp only [foldE, hfa]
      rw [hL, hR]

theorem foldE_ok_induction {α : Type} (f : InitAcc → α → Except String InitAcc)
    (P : InitAcc → Prop) :
    ∀ (l : List α), (∀ a x, x ∈ l → ∀ a', f a x = .ok a' → P a → P a') →
      ∀ a r, foldE f l a = .ok r → P a → P r := by
  intro l
  induction l with
  | nil =>
    intro _ a r h hp
    unfold foldE at h
    cases h
    exact hp
  | cons x xs ih =>
    intro hstep a r h hp
    unfold foldE at h
    cases hfa : f a x with
    | ok a1 =>
      rw [hfa] at h
      exact ih (fun a y hy => hstep a y (List.mem_cons_of_mem x hy)) a1 r h
        (hstep a x (List.mem_cons_self x xs) a1 hfa hp)
    | error e =>
      rw [hfa] at h
      cases h

theorem foldE_error_of_mem {α : Type} (f : InitAcc → α → Except String InitAcc)
    (u : α) (hf : ∀ a a', f a u ≠ .ok a') :
    ∀ (l : List α), u ∈ l → ∀ a r, foldE f l a ≠ .ok r := by
  intro l
  induction l with
  | nil => intro hu; cases hu
  | cons x xs ih =>
    intro hu a r h
    unfold foldE at h
    cases hfa : f a x with
    | ok a1 =>
      rw [hfa] at h
      rcases List.mem_cons.mp hu with rfl | hu'
      · exact hf a a1 hfa
      · exact ih hu' a1 r h
    | error e =>
      rw [hfa] at h
      cases h

theorem processBatchFold_preserves {α : Type} (f : InitAcc → α → Except String InitAcc)
    (P : InitAcc → Prop) :
    ∀ (items : List α), (∀ a x, x ∈ items → ∀ a', f a x = .ok a' → P a → P a') →
      ∀ a, P a → P (processBatchFold f items a) := by
  intro items
  induction items with
  | nil => intro _ a hp; exact hp
  | cons x xs ih =>
    intro hstep a hp
    unfold processBatchFold
    rw [List.foldl_cons]
    have hnext :
        P (match f a x with | .ok a' => a' | .error _ => a) := by
      cases hfa : f a x with
      | ok a1 => exact hstep a x (List.mem_cons_self x xs) a1 hfa hp
      | error e => exact hp
    exact ih (fun a y hy => hstep a y (List.mem_cons_of_mem x hy)) _ hnext

theorem processBatchFold_append {α : Type} (f : InitAcc → α → Except String InitAcc)
    (l1 l2 : List α) (a : InitAcc) :
    processBatchFold f (l1 ++ l2) a = processBatchFold f l2 (processBatchFold f l1 a) := by
  unfold processBatchFold
  exact List.foldl_append _ _ l1 l2

/-- Count of pairs with a given key, to express "exactly one mapping entry". -/
def countKey (m : Mapping) (k : String) : Nat := (m.filter (fun p => p.1 == k)).length

theorem countKey_eq_zero_any (m : Mapping) (k : String) (h : countKey m k = 0) :
    m.any (fun p => p.1 == k) = false := by
  unfold countKey at h
  rw [List.length_eq_zero, List.filter_eq_nil_iff] at h
  rw [Bool.eq_false_iff]
  intro hc
  rcases List.any_eq_true.mp hc with ⟨p, hp, hpk⟩
  exact h p hp hpk

theorem countKey_mapSet_new (m : Mapping) (k : String) (v : MappingEntry)
    (h : countKey m k = 0) : countKey (mapSet m k v) k = 1 := by
  unfold mapSet
  rw [if_neg (by rw [countKey_eq_zero_any m k h]; exact Bool.false_ne_true)]
  unfold countKey
  rw [List.filter_append]
  unfold countKey at h
  rw [List.length_eq_zero] at h
  rw [h, List.nil_append, List.filter_cons, if_pos (by simp), List.filter_nil]
  rfl

theorem filter_map_overwrite_ne (m : Mapping) (k u : String) (v : MappingEntry)
    (h : k ≠ u) :
    (m.map (fun p => if p.1 == k then (k, v) else p)).filter (fun p => p.1 == u) =
      m.filter (fun p => p.1 == u) := by
  induction m with
  | nil => rfl
  | cons x xs ih =>
    by_cases hx : (x.1 == k) = true
    · have hxk : x.1 = k := by simpa using hx
      rw [List.map_cons, if_pos hx, List.filter_cons, List.filter_cons,
        if_neg (by simp [h]), if_neg (by simp [hxk, h])]
      exact ih
    · rw [List.map_cons, if_neg hx, List.filter_cons, List.filter_cons]
      by_cases hx' : (x.1 == u) = true
      · rw [if_pos hx', if_pos hx', ih]
      · rw [if_neg hx', if_neg hx']
        exact ih

theorem countKey_mapSet_ne (m : Mapping) (k u : String) (v : MappingEntry) (h : k ≠ u) :
    countKey (mapSet m k v) u = countKey m u := by
  unfold mapSet
  by_cases hm : m.any (fun p => p.1 == k) = true
  · rw [if_pos hm]
    unfold countKey
    rw [filter_map_overwrite_ne m k u v h]
  · rw [if_neg hm]
    unfold countKey
    rw [List.filter_append, List.filter_cons, if_neg (by simp [h]), List.filter_nil,
      List.append_nil]

theorem lookupEntry_mapSet_isSome (m : Mapping) (k k' : String) (v : MappingEntry)
    (h : (lookupEntry m k').isSome) : (lookupEntry (mapSet m k v) k').isSome := by
  by_cases hk : k' = k
  · subst hk
    rw [lookupEntry_mapSet_self]
    rfl
  · rw [lookupEntry_mapSet_ne m k k' v hk]
    exact h

theorem mem_ldUpdate_rev (l : List LdBookmark) (i : Nat) (url title : String)
    (tags : List String) (b' : LdBookmark) (h : b' ∈ ldUpdate l i url title tags) :
    ∃ b ∈ l, b'.id = b.id ∧ (b' = b ∨ (b.id = i ∧ b' = ldApplyUpdate b url title tags)) := by
  unfold ldUpdate at h
  rcases List.mem_map.mp h with ⟨b, hb, hbe⟩
  by_cases hid : b.id = i
  · rw [if_pos hid] at hbe
    exact ⟨b, hb, by rw [← hbe]; rfl, Or.inr ⟨hid, hbe.symm⟩⟩
  · rw [if_neg hid] at hbe
    exact ⟨b, hb, by rw [hbe], Or.inl hbe.symm⟩

theorem mem_chromeSetTitle_rev (l : List ChromeBookmark) (i : Nat) (t : String)
    (b' : ChromeBookmark) (h : b' ∈ chromeSetTitle l i t) :
    ∃ b ∈ l, b'.id = b.id ∧ b'.url = b.url := by
  unfold chromeSetTitle at h
  rcases List.mem_map.mp h with ⟨b, hb, hbe⟩
  by_cases hid : b.id = i
  · rw [if_pos hid] at hbe
    exact ⟨b, hb, by rw [← hbe], by rw [← hbe]⟩
  · rw [if_neg hid] at hbe
    exact ⟨b, hb, by rw [hbe], by rw [hbe]⟩

theorem ldApplyUpdate_url (b : LdBookmark) (url title : String) (tags : List String) :
    (ldApplyUpdate b url title tags).url = if url = "" then b.url else url := rfl

/-! ## Reductions of `mergeStep` -/

theorem mergeBoth_eq (T : String) (now : Nat) (acc : InitAcc) (url : String)
    (ld : LdBookmark) (cbm : ChromeBookmark) :
    mergeBoth T now acc url ld cbm =
      { ld :=
          if (mergeTagLists ld.tagNames (buildTagsForPath T cbm.folderPath)).length =
              ld.tagNames.length ∧
            ∀ t ∈ mergeTagLists ld.tagNames (buildTagsForPath T cbm.folderPath),
              t ∈ ld.tagNames then acc.ld
          else
            ldUpdate acc.ld ld.id ld.url
              (if cbm.dateAdded < ld.dateModified.getD 0 then ldTitleOf ld else cbm.title)
              (mergeTagLists ld.tagNames (buildTagsForPath T cbm.folderPath))
        chrome :=
          if (if cbm.dateAdded < ld.dateModified.getD 0 then ldTitleOf ld else cbm.title) ≠
              cbm.title then
            chromeSetTitle acc.chrome cbm.id
              (if cbm.dateAdded < ld.dateModified.getD 0 then ldTitleOf ld else cbm.title)
          else acc.chrome
        nextLdId := acc.nextLdId
        nextChromeId := acc.nextChromeId
        mapping := mapSet acc.mapping url
          ⟨ld.id, cbm.id,
            (if cbm.dateAdded < ld.dateModified.getD 0 then ldTitleOf ld else cbm.title), url,
            cbm.folderPath, now⟩
        added := acc.added
        updated := acc.updated + 1
        downloaded := acc.downloaded } := by
  simp only [mergeBoth]
  split_ifs <;> rfl

theorem mergeStep_both (T : String) (lds : List LdBookmark) (cs : List ChromeBookmark)
    (now : Nat) (failCreate : String → Bool) (a : InitAcc) (u : String)
    (ld : LdBookmark) (cbm : ChromeBookmark)
    (hl : ldByUrl lds u = some ld) (hc : chromeByUrl cs u = some cbm) :
    mergeStep T lds cs now failCreate a u = .ok (mergeBoth T now a u ld cbm) := by
  simp only [mergeStep, hl, hc]

theorem mergeStep_none_none (T : String) (lds : List LdBookmark) (cs : List ChromeBookmark)
    (now : Nat) (failCreate : String → Bool) (a : InitAcc) (u : String)
    (hl : ldByUrl lds u = none) (hc : chromeByUrl cs u = none) :
    mergeStep T lds cs now failCreate a u = .ok a := by
  simp only [mergeStep, hl, hc]

theorem mergeStep_ld_only (T : String) (lds : List LdBookmark) (cs : List ChromeBookmark)
    (now : Nat) (failCreate : String → Bool) (a : InitAcc) (u : String) (ld : LdBookmark)
    (hl : ldByUrl lds u = some ld) (hc : chromeByUrl cs u = none) :
    mergeStep T lds cs now failCreate a u =
      .ok { ld := a.ld
            chrome := a.chrome ++
              [⟨a.nextChromeId, ld.url, ldTitleOf ld, now, extractFolderPath T ld.tagNames⟩]
            nextLdId := a.nextLdId
            nextChromeId := a.nextChromeId + 1
            mapping := mapSet a.mapping u
              ⟨ld.id, a.nextChromeId, ldTitleOf ld, u, extractFolderPath T ld.tagNames, now⟩
            added := a.added
            updated := a.updated
            downloaded := a.downloaded + 1 } := by
  simp only [mergeStep, hl, hc, initChromeCreate]

theorem mergeStep_chrome_only_fail (T : String) (lds : List LdBookmark)
    (cs : List ChromeBookmark) (now : Nat) (failCreate : String → Bool) (a : InitAcc)
    (u : String) (cbm : ChromeBookmark)
    (hl : ldByUrl lds u = none) (hc : chromeByUrl cs u = some cbm)
    (hf : failCreate cbm.url = true) :
    mergeStep T lds cs now failCreate a u = .error "Create failed" := by
  simp only [mergeStep, hl, hc, hf, if_true]

theorem mergeStep_chrome_only_ok (T : String) (lds : List LdBookmark)
    (cs : List ChromeBookmark) (now : Nat) (failCreate : String → Bool) (a : InitAcc)
    (u : String) (cbm : ChromeBookmark)
    (hl : ldByUrl lds u = none) (hc : chromeByUrl cs u = some cbm)
    (hf : failCreate cbm.url = false) :
    mergeStep T lds cs now failCreate a u =
      .ok { ld := a.ld ++
              [⟨a.nextLdId, cbm.url, if cbm.title = "" then cbm.url else cbm.title,
                buildTagsForPath T cbm.folderPath, some now⟩]
            chrome := a.chrome
            nextLdId := a.nextLdId + 1
            nextChromeId := a.nextChromeId
            mapping := mapSet a.mapping u ⟨a.nextLdId, cbm.id, cbm.title, u, cbm.folderPath, now⟩
            added := a.added + 1
            updated := a.updated
            downloaded := a.downloaded } := by
  simp only [mergeStep, hl, hc, hf, if_false, initLdCreate, Bool.false_eq_true]

/-! ## Invariants for the merge-dedup property -/

/-- After processing, every item carrying the URL `u` is an item that already
existed in the corresponding store (no duplicate was created for `u`). -/
def noNewItemForUrl (w : World) (u : String) (a : InitAcc) : Prop :=
  (∀ b ∈ a.ld, b.url = u → b.id ∈ w.ld.map (fun x => x.id)) ∧
  (∀ b ∈ a.chrome, b.url = u → b.id ∈ w.chrome.map (fun x => x.id))

theorem mergeStep_noNewItem (T : String) (lds : List LdBookmark) (cs : List ChromeBookmark)
    (now : Nat) (failCreate : String → Bool) (w : World) (u : String)
    (hsub : ∀ b ∈ lds, b ∈ w.ld)
    (a a' : InitAcc) (u' : String)
    (hstep : mergeStep T lds cs now failCreate a u' = .ok a')
    (hguard : u' = u → (ldByUrl lds u).isSome ∧ (chromeByUrl cs u).isSome)
    (hP : noNewItemForUrl w u a) : noNewItemForUrl w u a' := by
  rcases hl : ldByUrl lds u' with _ | ld' <;> rcases hc : chromeByUrl cs u' with _ | cbm'
  · rw [mergeStep_none_none T lds cs now failCreate a u' hl hc] at hstep
    cases hstep
    exact hP
  · by_cases hf : failCreate cbm'.url = true
    · rw [mergeStep_chrome_only_fail T lds cs now failCreate a u' cbm' hl hc hf] at hstep
      cases hstep
    · rw [mergeStep_chrome_only_ok T lds cs now failCreate a u' cbm' hl hc
        (Bool.eq_false_iff.mpr hf)] at hstep
      cases hstep
      refine ⟨?_, hP.2⟩
      intro b hb hbu
      rcases List.mem_append.mp hb with hb | hb
      · exact hP.1 b hb hbu
      · exfalso
        rw [List.mem_singleton] at hb
        subst hb
        have hcu : cbm'.url = u' := (chromeByUrl_some cs u' cbm' hc).2
        have : u' = u := by rw [← hcu]; exact hbu
        rcases (hguard this).1 with hsome
        rw [← this, hl] at hsome
        cases hsome
  · rw [mergeStep_ld_only T lds cs now failCreate a u' ld' hl hc] at hstep
    cases hstep
    refine ⟨hP.1, ?_⟩
    intro b hb hbu
    rcases List.mem_append.mp hb with hb | hb
    · exact hP.2 b hb hbu
    · exfalso
      rw [List.mem_singleton] at hb
      subst hb
      have hlu : ld'.url = u' := (ldByUrl_some lds u' ld' hl).2
      have : u' = u := by rw [← hlu]; exact hbu
      rcases (hguard this).2 with hsome
      rw [← this, hc] at hsome
      cases hsome
  · rw [mergeStep_both T lds cs now failCreate a u' ld' cbm' hl hc] at hstep
    cases hstep
    rw [mergeBoth_eq]
    constructor
    · intro b hb hbu
      by_cases hm : (mergeTagLists ld'.tagNames (buildTagsForPath T cbm'.folderPath)).length =
          ld'.tagNames.length ∧
          ∀ t ∈ mergeTagLists ld'.tagNames (buildTagsForPath T cbm'.folderPath),
            t ∈ ld'.tagNames
      · rw [if_pos hm] at hb
        exact hP.1 b hb hbu
      · rw [if_neg hm] at hb
        rcases mem_ldUpdate_rev _ _ _ _ _ b hb with ⟨b0, hb0, hbid, hcase⟩
        rcases hcase with heq | ⟨hb0id, hbeq⟩
        · rw [hbid]
          exact hP.1 b0 hb0 (heq ▸ hbu)
        · subst hbeq
          rw [ldApplyUpdate_url] at hbu
          by_cases h0 : ld'.url = ""
          · rw [if_pos h0] at hbu
            rw [hbid]
            exact hP.1 b0 hb0 hbu
          · rw [if_neg h0] at hbu
            rw [hbid, hb0id]
            have hld'w : ld' ∈ w.ld := hsub ld' (ldByUrl_some lds u' ld' hl).1
            exact List.mem_map_of_mem (fun x => x.id) hld'w
    · intro b hb hbu
      by_cases ht : (if cbm'.dateAdded < ld'.dateModified.getD 0 then ldTitleOf ld'
          else cbm'.title) ≠ cbm'.title
      · rw [if_pos ht] at hb
        rcases mem_chromeSetTitle_rev _ _ _ b hb with ⟨b0, hb0, hbid, hburl⟩
        rw [hbid]
        exact hP.2 b0 hb0 (by rw [← hburl]; exact hbu)
      · rw [if_neg ht] at hb
        exact hP.2 b hb hbu

theorem mergeStep_countKey (T : String) (lds : List LdBookmark) (cs : List ChromeBookmark)
    (now : Nat) (failCreate : String → Bool) (u : String)
    (a a' : InitAcc) (u' : String)
    (hstep : mergeStep T lds cs now failCreate a u' = .ok a') :
    (u' ≠ u → countKey a'.mapping u = countKey a.mapping u) ∧
    (u' = u → (ldByUrl lds u).isSome → countKey a.mapping u = 0 →
      countKey a'.mapping u = 1) := by
  rcases hl : ldByUrl lds u' with _ | ld' <;> rcases hc : chromeByUrl cs u' with _ | cbm'
  · rw [mergeStep_none_none T lds cs now failCreate a u' hl hc] at hstep
    cases hstep
    refine ⟨fun _ => rfl, ?_⟩
    intro hu hsome _
    rw [hu] at hl
    rw [hl] at hsome
    cases hsome
  · by_cases hf : failCreate cbm'.url = true
    · rw [mergeStep_chrome_only_fail T lds cs now failCreate a u' cbm' hl hc hf] at hstep
      cases hstep
    · rw [mergeStep_chrome_only_ok T lds cs now failCreate a u' cbm' hl hc
        (Bool.eq_false_iff.mpr hf)] at hstep
      cases hstep
      refine ⟨fun hne => countKey_mapSet_ne _ _ _ _ hne, ?_⟩
      intro hu hsome _
      rw [hu] at hl
      rw [hl] at hsome
      cases hsome
  · rw [mergeStep_ld_only T lds cs now failCreate a u' ld' hl hc] at hstep
    cases hstep
    refine ⟨fun hne => countKey_mapSet_ne _ _ _ _ hne, ?_⟩
    intro hu _ h0
    subst hu
    exact countKey_mapSet_new _ _ _ h0
  · rw [mergeStep_both T lds cs now failCreate a u' ld' cbm' hl hc] at hstep
    cases hstep
    rw [mergeBoth_eq]
    refine ⟨fun hne => countKey_mapSet_ne _ _ _ _ hne, ?_⟩
    intro hu _ h0
    subst hu
    exact countKey_mapSet_new _ _ _ h0

theorem mergeUrls_nodup (configOrder : Option (List String)) (lds : List LdBookmark)
    (cs : List ChromeBookmark) : (mergeUrls configOrder lds cs).Nodup := by
  unfold mergeUrls
  by_cases hord :
      (match configOrder with | some ord => ord | none => ([] : List String)).length > 0
  · rw [if_pos hord]
    exact ((List.mergeSort_perm _ _).nodup_iff).mpr (nodup_setDedup _)
  · rw [if_neg hord]
    exact nodup_setDedup _

theorem mem_mergeUrls (configOrder : Option (List String)) (lds : List LdBookmark)
    (cs : List ChromeBookmark) (u : String) :
    u ∈ mergeUrls configOrder lds cs ↔
      u ∈ lds.map (fun b => b.url) ∨ u ∈ cs.map (fun b => b.url) := by
  unfold mergeUrls
  by_cases hord :
      (match configOrder with | some ord => ord | none => ([] : List String)).length > 0
  · rw [if_pos hord, (List.mergeSort_perm _ _).mem_iff, mem_setDedup, List.mem_append]
  · rw [if_neg hord, mem_setDedup, List.mem_append]

/-! ## Reductions of `pushStep` and `pullStep` -/

theorem pushStep_linked (T : String) (lds : List LdBookmark) (now : Nat)
    (failCreate : String → Bool) (a : InitAcc) (cbm : ChromeBookmark) (ld : LdBookmark)
    (hl : ldByUrl lds cbm.url = some ld) :
    pushStep T lds now failCreate a cbm =
      .ok { ld :=
              if (mergeTagLists ld.tagNames (buildTagsForPath T cbm.folderPath)).length =
                  ld.tagNames.length ∧
                ∀ t ∈ mergeTagLists ld.tagNames (buildTagsForPath T cbm.folderPath),
                  t ∈ ld.tagNames then a.ld
              else
                ldUpdate a.ld ld.id ld.url ld.title
                  (mergeTagLists ld.tagNames (buildTagsForPath T cbm.folderPath))
            chrome := a.chrome
            nextLdId := a.nextLdId
            nextChromeId := a.nextChromeId
            mapping := mapSet a.mapping cbm.url
              ⟨ld.id, cbm.id, cbm.title, cbm.url, cbm.folderPath, now⟩
            added := a.added
            updated := a.updated + 1
            downloaded := a.downloaded } := by
  simp only [pushStep, hl]
  split_ifs <;> rfl

theorem pushStep_create_ok (T : String) (lds : List LdBookmark) (now : Nat)
    (failCreate : String → Bool) (a : InitAcc) (cbm : ChromeBookmark)
    (hl : ldByUrl lds cbm.url = none) (hf : failCreate cbm.url = false) :
    pushStep T lds now failCreate a cbm =
      .ok { ld := a.ld ++
              [⟨a.nextLdId, cbm.url, if cbm.title = "" then cbm.url else cbm.title,
                buildTagsForPath T cbm.folderPath, some now⟩]
            chrome := a.chrome
            nextLdId := a.nextLdId + 1
            nextChromeId := a.nextChromeId
            mapping := mapSet a.mapping cbm.url
              ⟨a.nextLdId, cbm.id, cbm.title, cbm.url, cbm.folderPath, now⟩
            added := a.added + 1
            updated := a.updated
            downloaded := a.downloaded } := by
  simp only [pushStep, hl, hf, if_false, initLdCreate, Bool.false_eq_true]

theorem pushStep_create_fail (T : String) (lds : List LdBookmark) (now : Nat)
    (failCreate : String → Bool) (a : InitAcc) (cbm : ChromeBookmark)
    (hl : ldByUrl lds cbm.url = none) (hf : failCreate cbm.url = true) :
    pushStep T lds now failCreate a cbm = .error "Create failed" := by
  simp only [pushStep, hl, hf, if_true]

theorem pullStep_eq (T : String) (now : Nat) (a : InitAcc) (ld : LdBookmark) :
    pullStep T now a ld =
      .ok { ld := a.ld
            chrome := a.chrome ++
              [⟨a.nextChromeId, ld.url, ldTitleOf ld, now, extractFolderPath T ld.tagNames⟩]
            nextLdId := a.nextLdId
            nextChromeId := a.nextChromeId + 1
            mapping := mapSet a.mapping ld.url
              ⟨ld.id, a.nextChromeId, ldTitleOf ld, ld.url, extractFolderPath T ld.tagNames, now⟩
            added := a.added
            updated := a.updated
            downloaded := a.downloaded + 1 } := rfl

theorem processBatchFold_cons {α : Type} (f : InitAcc → α → Except String InitAcc)
    (x : α) (l : List α) (a : InitAcc) :
    processBatchFold f (x :: l) a =
      processBatchFold f l (match f a x with | .ok a' => a' | .error _ => a) := rfl

theorem pushStep_mapping_isSome (T : String) (lds : List LdBookmark) (now : Nat)
    (failCreate : String → Bool) (k : String) (a : InitAcc) (x : ChromeBookmark)
    (a' : InitAcc) (h : pushStep T lds now failCreate a x = .ok a')
    (hk : (lookupEntry a.mapping k).isSome) : (lookupEntry a'.mapping k).isSome := by
  rcases hl : ldByUrl lds x.url with _ | ld'
  · by_cases hf : failCreate x.url = true
    · rw [pushStep_create_fail T lds now failCreate a x hl hf] at h
      cases h
    · rw [pushStep_create_ok T lds now failCreate a x hl (Bool.eq_false_iff.mpr hf)] at h
      cases h
      exact lookupEntry_mapSet_isSome _ _ _ _ hk
  · rw [pushStep_linked T lds now failCreate a x ld' hl] at h
    cases h
    exact lookupEntry_mapSet_isSome _ _ _ _ hk

theorem pullStep_mapping_isSome (T : String) (now : Nat) (k : String) (a : InitAcc)
    (x : LdBookmark) (a' : InitAcc) (h : pullStep T now a x = .ok a')
    (hk : (lookupEntry a.mapping k).isSome) : (lookupEntry a'.mapping k).isSome := by
  rw [pullStep_eq] at h
  cases h
  exact lookupEntry_mapSet_isSome _ _ _ _ hk

/-! ## C6: merge deduplication and incremental linking -/

/-- C6. If an item with the same URL is present on both sides before any
mapping exists, a completed `Merge` initial sync produces exactly one mapping
entry for that URL and creates no item for it on either side (every item later
carrying that URL is one that already existed); likewise the incremental
reconciler links a locally-new bookmark whose URL already exists remotely by
merging the path tags onto the existing remote item — no remote create, and
the new mapping entry points at the existing remote id. -/
theorem merge_dedup :
    (∀ (T : String) (failCreate : String → Bool) (configOrder : Option (List String))
      (w : World) (u : String) (acc : InitAcc),
      runInitialMerge T failCreate configOrder w = .ok acc →
      (ldByUrl (w.ld.filter (fun b => b.tagNames.contains T)) u).isSome →
      (chromeByUrl w.chrome u).isSome →
      countKey acc.mapping u = 1 ∧ noNewItemForUrl w u acc) ∧
    (∀ (T : String) (lds : List LdBookmark) (m0 : Mapping) (now : Nat) (acc : RunAcc)
      (cbm : ChromeBookmark) (ld : LdBookmark),
      lookupEntry m0 cbm.url = none → ldByUrl lds cbm.url = some ld → ld ∈ acc.ld →
      (phase1Step T lds m0 now acc cbm).nextLdId = acc.nextLdId ∧
      (phase1Step T lds m0 now acc cbm).ld.length = acc.ld.length ∧
      (∃ e', lookupEntry (phase1Step T lds m0 now acc cbm).newMapping cbm.url = some e' ∧
        e'.linkdingId = ld.id ∧ e'.chromeId = cbm.id) ∧
      (∃ b ∈ (phase1Step T lds m0 now acc cbm).ld, b.id = ld.id ∧
        (∀ t ∈ ld.tagNames, t ∈ b.tagNames) ∧
        (∀ t ∈ buildTagsForPath T cbm.folderPath, t ∈ b.tagNames))) := by
  constructor
  · intro T failCreate configOrder w u acc hrun hls hcs
    rcases Option.isSome_iff_exists.mp hls with ⟨ld0, hld0⟩
    simp only [runInitialMerge] at hrun
    have hu : u ∈ mergeUrls configOrder (w.ld.filter (fun b => b.tagNames.contains T))
        w.chrome := by
      rw [mem_mergeUrls]
      left
      have h1 := ldByUrl_some _ u ld0 hld0
      rw [← h1.2]
      exact List.mem_map_of_mem (fun b => b.url) h1.1
    rcases List.append_of_mem hu with ⟨l1, l2, hsplit⟩
    have hnd := mergeUrls_nodup configOrder (w.ld.filter (fun b => b.tagNames.contains T))
      w.chrome
    rw [hsplit] at hnd
    rcases List.nodup_append.mp hnd with ⟨_, hnd2, hdisj⟩
    have hul1 : u ∉ l1 := fun hmem => hdisj hmem (List.mem_cons_self u l2)
    have hul2 : u ∉ l2 := (List.nodup_cons.mp hnd2).1
    rw [hsplit, foldE_append] at hrun
    have hsub : ∀ b ∈ w.ld.filter (fun b => b.tagNames.contains T), b ∈ w.ld :=
      fun b hb => List.mem_of_mem_filter hb
    cases h1 : foldE (mergeStep T (w.ld.filter (fun b => b.tagNames.contains T))
        w.chrome w.now failCreate) l1
        ⟨w.ld, w.chrome, w.nextLdId, w.nextChromeId, [], 0, 0, 0⟩ with
    | error e => rw [h1] at hrun; cases hrun
    | ok a1 =>
      rw [h1] at hrun
      have hP1 : noNewItemForUrl w u a1 ∧ countKey a1.mapping u = 0 := by
        refine foldE_ok_induction _
          (fun a => noNewItemForUrl w u a ∧ countKey a.mapping u = 0) l1 ?_ _ a1 h1
          ⟨⟨fun b hb _ => List.mem_map_of_mem (fun x => x.id) hb,
            fun b hb _ => List.mem_map_of_mem (fun x => x.id) hb⟩, rfl⟩
        intro a x hx a' hstep hP
        have hxu : x ≠ u := fun hxu => hul1 (hxu ▸ hx)
        refine ⟨mergeStep_noNewItem _ _ _ _ _ w u hsub a a' x hstep
          (fun hc => absurd hc hxu) hP.1, ?_⟩
        rw [(mergeStep_countKey _ _ _ _ _ u a a' x hstep).1 hxu]
        exact hP.2
      unfold foldE at hrun
      cases h2 : mergeStep T (w.ld.filter (fun b => b.tagNames.contains T)) w.chrome w.now
          failCreate a1 u with
      | error e => rw [h2] at hrun; cases hrun
      | ok a2 =>
        rw [h2] at hrun
        have hP2 : noNewItemForUrl w u a2 ∧ countKey a2.mapping u = 1 := by
          refine ⟨mergeStep_noNewItem _ _ _ _ _ w u hsub a1 a2 u h2
            (fun _ => ⟨hls, hcs⟩) hP1.1, ?_⟩
          exact (mergeStep_countKey _ _ _ _ _ u a1 a2 u h2).2 rfl hls hP1.2
        have hPfin : noNewItemForUrl w u acc ∧ countKey acc.mapping u = 1 := by
          refine foldE_ok_induction _
            (fun a => noNewItemForUrl w u a ∧ countKey a.mapping u = 1) l2 ?_ a2 acc hrun hP2
          intro a x hx a' hstep hP
          have hxu : x ≠ u := fun hxu => hul2 (hxu ▸ hx)
          refine ⟨mergeStep_noNewItem _ _ _ _ _ w u hsub a a' x hstep
            (fun hc => absurd hc hxu) hP.1, ?_⟩
          rw [(mergeStep_countKey _ _ _ _ _ u a a' x hstep).1 hxu]
          exact hP.2
        exact ⟨hPfin.2, hPfin.1⟩
  · intro T lds m0 now acc cbm ld h0 h1 hld
    simp only [phase1Step, h0, h1]
    by_cases hm : (mergeTagLists ld.tagNames (buildTagsForPath T cbm.folderPath)).length =
        ld.tagNames.length ∧
        ∀ t ∈ mergeTagLists ld.tagNames (buildTagsForPath T cbm.folderPath), t ∈ ld.tagNames
    · rw [if_pos hm]
      refine ⟨rfl, rfl, ⟨_, lookupEntry_mapSet_self _ _ _, rfl, rfl⟩, ld, hld, rfl, ?_, ?_⟩
      · intro t ht
        exact ht
      · intro t ht
        exact hm.2 t ((mem_mergeTagLists _ _ t).mpr (Or.inr ht))
    · rw [if_neg hm]
      refine ⟨rfl, ?_, ⟨_, lookupEntry_mapSet_self _ _ _, rfl, rfl⟩,
        ldApplyUpdate ld ld.url ld.title
          (mergeTagLists ld.tagNames (buildTagsForPath T cbm.folderPath)),
        mem_ldUpdate_self acc.ld ld.url ld.title _ ld hld, rfl, ?_, ?_⟩
      · exact List.length_map acc.ld _
      · intro t ht
        rw [ldApplyUpdate_tagNames]
        exact (mem_mergeTagLists _ _ t).mpr (Or.inl ht)
      · intro t ht
        rw [ldApplyUpdate_tagNames]
        exact (mem_mergeTagLists _ _ t).mpr (Or.inr ht)

/-- Witness for C6: a URL on both sides is merged into one entry and both
stores keep a single item for it; the incremental linker reuses the existing
remote id. -/
theorem merge_dedup_witness :
    (countKey
        (⟨[⟨1, "u", "B", ["s"], some 7⟩], [⟨1, "u", "B", 3, ""⟩], 2, 2,
          [("u", ⟨1, 1, "B", "u", "", 100⟩)], 0, 1, 0⟩ : InitAcc).mapping "u" = 1 ∧
      noNewItemForUrl ⟨[⟨1, "u", "B", ["s"], some 7⟩], [⟨1, "u", "A", 3, ""⟩], [], 2, 2, 100⟩
        "u"
        ⟨[⟨1, "u", "B", ["s"], some 7⟩], [⟨1, "u", "B", 3, ""⟩], 2, 2,
          [("u", ⟨1, 1, "B", "u", "", 100⟩)], 0, 1, 0⟩) ∧
    ((phase1Step "s" [⟨1, "u", "B", ["s"], none⟩] [] 100
        ⟨[⟨1, "u", "B", ["s"], none⟩], [⟨1, "u", "A", 0, ""⟩], 2, 2, [], 0, 0, 0⟩
        ⟨1, "u", "A", 0, ""⟩).nextLdId = 2 ∧
      (phase1Step "s" [⟨1, "u", "B", ["s"], none⟩] [] 100
        ⟨[⟨1, "u", "B", ["s"], none⟩], [⟨1, "u", "A", 0, ""⟩], 2, 2, [], 0, 0, 0⟩
        ⟨1, "u", "A", 0, ""⟩).ld.length = 1 ∧
      (∃ e', lookupEntry (phase1Step "s" [⟨1, "u", "B", ["s"], none⟩] [] 100
          ⟨[⟨1, "u", "B", ["s"], none⟩], [⟨1, "u", "A", 0, ""⟩], 2, 2, [], 0, 0, 0⟩
          ⟨1, "u", "A", 0, ""⟩).newMapping "u" = some e' ∧
        e'.linkdingId = 1 ∧ e'.chromeId = 1) ∧
      (∃ b ∈ (phase1Step "s" [⟨1, "u", "B", ["s"], none⟩] [] 100
          ⟨[⟨1, "u", "B", ["s"], none⟩], [⟨1, "u", "A", 0, ""⟩], 2, 2, [], 0, 0, 0⟩
          ⟨1, "u", "A", 0, ""⟩).ld, b.id = 1 ∧
        (∀ t ∈ ["s"], t ∈ b.tagNames) ∧
        (∀ t ∈ buildTagsForPath "s" "", t ∈ b.tagNames))) := by
  constructor
  · exact merge_dedup.1 "s" (fun _ => false) none
      ⟨[⟨1, "u", "B", ["s"], some 7⟩], [⟨1, "u", "A", 3, ""⟩], [], 2, 2, 100⟩ "u"
      ⟨[⟨1, "u", "B", ["s"], some 7⟩], [⟨1, "u", "B", 3, ""⟩], 2, 2,
        [("u", ⟨1, 1, "B", "u", "", 100⟩)], 0, 1, 0⟩
      (by rfl) (by decide) (by decide)
  · exact merge_dedup.2 "s" [⟨1, "u", "B", ["s"], none⟩] [] 100
      ⟨[⟨1, "u", "B", ["s"], none⟩], [⟨1, "u", "A", 0, ""⟩], 2, 2, [], 0, 0, 0⟩
      ⟨1, "u", "A", 0, ""⟩ ⟨1, "u", "B", ["s"], none⟩ (by decide) (by decide) (by decide)

/-! ## C8: tolerance of per-item API errors in the initial strategies -/

/-- C8 counterexample. The claim says all three initial strategies log and
skip a single item's API error and continue; the `merge` strategy's plain
`for` loop has no try/catch, so one failing `createLinkdingBookmark` aborts
the whole run (no mapping is produced at all, and the remaining URL `"b"` is
never processed). -/
theorem merge_aborts_cex :
    runInitialMerge "s" (fun u => u == "a") none
      ⟨[], [⟨1, "a", "t", 0, ""⟩, ⟨2, "b", "t2", 0, ""⟩], [], 5, 5, 100⟩ =
      .error "Create failed" := by
  rfl

theorem pull_fold_sets_key (T : String) (now : Nat) (ld : LdBookmark)
    (items : List LdBookmark) (hmem : ld ∈ items) :
    ∀ a : InitAcc,
      (lookupEntry (processBatchFold (pullStep T now) items a).mapping ld.url).isSome := by
  intro a
  rcases List.append_of_mem hmem with ⟨l1, l2, hsplit⟩
  rw [hsplit, processBatchFold_append, processBatchFold_cons]
  have hstep : ∀ a : InitAcc,
      (lookupEntry (match pullStep T now a ld with
        | .ok a' => a'
        | .error _ => a).mapping ld.url).isSome := by
    intro a
    rw [pullStep_eq]
    simp [lookupEntry_mapSet_self]
  refine processBatchFold_preserves _ (fun a => (lookupEntry a.mapping ld.url).isSome)
    l2 ?_ _ (hstep _)
  intro a x _ a' hx hk
  exact pullStep_mapping_isSome T now ld.url a x a' hx hk

/-- C8 (amended). In the `push` and `pull` strategies every item is routed
through `processBatch`, whose per-item try/catch logs and skips a failing
item, so the run continues: every Chrome bookmark whose remote create does
not fail (or which links to an existing remote item) still ends up in the
produced mapping, and every tagged remote bookmark is downloaded by `pull`.
In the `merge` strategy a single item's create error propagates and aborts
the run. -/
theorem partial_failure_amended :
    (∀ (T : String) (failCreate : String → Bool) (w : World) (cbm : ChromeBookmark),
      cbm ∈ w.chrome →
      (failCreate cbm.url = false ∨
        (ldByUrl (w.ld.filter (fun b => b.tagNames.contains T)) cbm.url).isSome) →
      (lookupEntry (runInitialPush T failCreate w).mapping cbm.url).isSome) ∧
    (∀ (T : String) (configOrder : Option (List String)) (w : World) (ld : LdBookmark),
      ld ∈ w.ld.filter (fun b => b.tagNames.contains T) →
      (lookupEntry (runInitialPull T configOrder w).mapping ld.url).isSome) ∧
    (∀ (T : String) (failCreate : String → Bool) (configOrder : Option (List String))
      (w : World) (u : String) (cbm : ChromeBookmark),
      ldByUrl (w.ld.filter (fun b => b.tagNames.contains T)) u = none →
      chromeByUrl w.chrome u = some cbm → failCreate cbm.url = true →
      ∀ r, runInitialMerge T failCreate configOrder w ≠ .ok r) := by
  refine ⟨?_, ?_, ?_⟩
  · intro T failCreate w cbm hmem hok
    simp only [runInitialPush]
    rcases List.append_of_mem hmem with ⟨l1, l2, hsplit⟩
    rw [hsplit, processBatchFold_append, processBatchFold_cons]
    have hstep : ∀ a : InitAcc,
        (lookupEntry (match pushStep T (w.ld.filter (fun b => b.tagNames.contains T)) w.now
            failCreate a cbm with
          | .ok a' => a'
          | .error _ => a).mapping cbm.url).isSome := by
      intro a
      rcases hl : ldByUrl (w.ld.filter (fun b => b.tagNames.contains T)) cbm.url with _ | ld'
      · rcases hok with hf | hsome
        · rw [pushStep_create_ok T _ w.now failCreate a cbm hl hf]
          simp [lookupEntry_mapSet_self]
        · rw [hl] at hsome
          cases hsome
      · rw [pushStep_linked T _ w.now failCreate a cbm ld' hl]
        simp [lookupEntry_mapSet_self]
    refine processBatchFold_preserves _ (fun a => (lookupEntry a.mapping cbm.url).isSome)
      l2 ?_ _ (hstep _)
    intro a x _ a' hx hk
    exact pushStep_mapping_isSome T _ w.now failCreate cbm.url a x a' hx hk
  · intro T configOrder w ld hmem
    cases configOrder with
    | none =>
      simp only [runInitialPull]
      exact pull_fold_sets_key T w.now ld _ hmem _
    | some ord =>
      simp only [runInitialPull]
      exact pull_fold_sets_key T w.now ld _ (((List.mergeSort_perm _ _).mem_iff).mpr hmem) _
  · intro T failCreate configOrder w u cbm hl hc hf r
    simp only [runInitialMerge]
    refine foldE_error_of_mem _ u ?_ _ ?_ _ r
    · intro a a' hstep
      rw [mergeStep_chrome_only_fail T _ w.chrome w.now failCreate a u cbm hl hc hf] at hstep
      cases hstep
    · rw [mem_mergeUrls]
      right
      have h1 := chromeByUrl_some w.chrome u cbm hc
      rw [← h1.2]
      exact List.mem_map_of_mem (fun b => b.url) h1.1

/-- Witness for C8 (amended): in `push`, the item with the failing create is
skipped while the other two (a create and a link) still receive mapping
entries; in `merge`, the failing create aborts the run. -/
theorem partial_failure_amended_witness :
    (lookupEntry (runInitialPush "s" (fun u => u == "c")
        ⟨[⟨1, "u", "B", ["s"], none⟩],
          [⟨1, "u", "A", 0, ""⟩, ⟨2, "c", "C", 0, ""⟩, ⟨3, "d", "D", 0, ""⟩],
          [], 9, 9, 100⟩).mapping "d").isSome ∧
    (lookupEntry (runInitialPull "s" none
        ⟨[⟨1, "u", "B", ["s"], none⟩], [], [], 9, 9, 100⟩).mapping "u").isSome ∧
    (∀ r, runInitialMerge "s" (fun u => u == "a") none
      ⟨[], [⟨1, "a", "t", 0, ""⟩, ⟨2, "b", "t2", 0, ""⟩], [], 5, 5, 100⟩ ≠ .ok r) := by
  refine ⟨?_, ?_, ?_⟩
  · exact partial_failure_amended.1 "s" (fun u => u == "c")
      ⟨[⟨1, "u", "B", ["s"], none⟩],
        [⟨1, "u", "A", 0, ""⟩, ⟨2, "c", "C", 0, ""⟩, ⟨3, "d", "D", 0, ""⟩], [], 9, 9, 100⟩
      ⟨3, "d", "D", 0, ""⟩ (by decide) (Or.inl (by decide))
  · exact partial_failure_amended.2.1 "s" none
      ⟨[⟨1, "u", "B", ["s"], none⟩], [], [], 9, 9, 100⟩ ⟨1, "u", "B", ["s"], none⟩ (by decide)
  · exact partial_failure_amended.2.2 "s" (fun u => u == "a") none
      ⟨[], [⟨1, "a", "t", 0, ""⟩, ⟨2, "b", "t2", 0, ""⟩], [], 5, 5, 100⟩ "a"
      ⟨1, "a", "t", 0, ""⟩ (by decide) (by decide) (by decide)

/-! ## Generic fold lemmas and further store lemmas (towards idempotence) -/

theorem foldl_id {σ α : Type} (f : σ → α → σ) :
    ∀ (l : List α), (∀ a x, x ∈ l → f a x = a) → ∀ a, l.foldl f a = a := by
  intro l
  induction l with
  | nil => intro _ a; rfl
  | cons x xs ih =>
    intro h a
    rw [List.foldl_cons, h a x (List.mem_cons_self x xs)]
    exact ih (fun a y hy => h a y (List.mem_cons_of_mem x hy)) a

theorem foldl_invariant {σ α : Type} (f : σ → α → σ) (P : σ → Prop) :
    ∀ (l : List α), (∀ a x, x ∈ l → P a → P (f a x)) → ∀ a, P a → P (l.foldl f a) := by
  intro l
  induction l with
  | nil => intro _ a hp; exact hp
  | cons x xs ih =>
    intro h a hp
    rw [List.foldl_cons]
    exact ih (fun a y hy => h a y (List.mem_cons_of_mem x hy)) (f a x)
      (h a x (List.mem_cons_self x xs) hp)

theorem foldl_rec {σ α : Type} (f : σ → α → σ) (P : List α → σ → Prop) (l0 : List α)
    (hstep : ∀ done a x rest, l0 = done ++ x :: rest → P done a → P (done ++ [x]) (f a x)) :
    ∀ (l done : List α) (a : σ), l0 = done ++ l → P done a → P (done ++ l) (l.foldl f a) := by
  intro l
  induction l with
  | nil => intro done a _ hp; simpa using hp
  | cons x xs ih =>
    intro done a hsplit hp
    rw [List.foldl_cons]
    have h1 := hstep done a x xs hsplit hp
    have h2 := ih (done ++ [x]) (f a x) (by rw [hsplit]; simp) h1
    simpa using h2

theorem lookupEntry_eq_none_iff (m : Mapping) (k : String) :
    lookupEntry m k = none ↔ ∀ p ∈ m, p.1 ≠ k := by
  induction m with
  | nil => simp [lookupEntry]
  | cons x xs ih =>
    rw [lookupEntry]
    by_cases hx : (x.1 == k) = true
    · rw [if_pos hx]
      constructor
      · intro h; cases h
      · intro h
        exact absurd (by simpa using hx) (h x (List.mem_cons_self x xs))
    · rw [if_neg hx, ih]
      constructor
      · intro h p hp
        rcases List.mem_cons.mp hp with rfl | hp'
        · simpa using hx
        · exact h p hp'
      · intro h p hp
        exact h p (List.mem_cons_of_mem x hp)

theorem lookupEntry_isSome_of_mem (m : Mapping) (p : String × MappingEntry) (hp : p ∈ m) :
    lookupEntry m p.1 ≠ none := by
  rw [Ne, lookupEntry_eq_none_iff]
  intro h
  exact h p hp rfl

theorem lookupEntry_of_mem_nodup (m : Mapping) (hnd : (m.map (fun p => p.1)).Nodup)
    (u : String) (e : MappingEntry) (hm : (u, e) ∈ m) : lookupEntry m u = some e := by
  induction m with
  | nil => cases hm
  | cons x xs ih =>
    rw [List.map_cons, List.nodup_cons] at hnd
    rcases List.mem_cons.mp hm with rfl | hm'
    · rw [lookupEntry, if_pos (by simp)]
    · rw [lookupEntry]
      by_cases hx : (x.1 == u) = true
      · exfalso
        have : u ∈ xs.map (fun p => p.1) := by
          rw [List.mem_map]
          exact ⟨(u, e), hm', rfl⟩
        have hxu : x.1 = u := by simpa using hx
        exact hnd.1 (hxu ▸ this)
      · rw [if_neg hx]
        exact ih hnd.2 hm'

theorem mem_mapSet (m : Mapping) (k : String) (v : MappingEntry) (p : String × MappingEntry)
    (hp : p ∈ mapSet m k v) : p ∈ m ∨ p.1 = k := by
  unfold mapSet at hp
  by_cases hm : m.any (fun p => p.1 == k) = true
  · rw [if_pos hm] at hp
    rcases List.mem_map.mp hp with ⟨q, hq, hqe⟩
    by_cases hqk : (q.1 == k) = true
    · rw [if_pos hqk] at hqe
      right
      rw [← hqe]
    · rw [if_neg hqk] at hqe
      left
      rw [← hqe]
      exact hq
  · rw [if_neg hm] at hp
    rcases List.mem_append.mp hp with hp | hp
    · exact Or.inl hp
    · right
      rw [List.mem_singleton] at hp
      rw [hp]

theorem mapSet_of_lookup_none (m : Mapping) (k : String) (v : MappingEntry)
    (h : lookupEntry m k = none) : mapSet m k v = m ++ [(k, v)] := by
  unfold mapSet
  rw [if_neg]
  intro hany
  rcases List.any_eq_true.mp hany with ⟨p, hp, hpk⟩
  exact (lookupEntry_eq_none_iff m k).mp h p hp (by simpa using hpk)

theorem nodup_keys_mapSet_new (m : Mapping) (k : String) (v : MappingEntry)
    (hnd : (m.map (fun p => p.1)).Nodup) (h : lookupEntry m k = none) :
    ((mapSet m k v).map (fun p => p.1)).Nodup := by
  rw [mapSet_of_lookup_none m k v h, List.map_append]
  rw [List.nodup_append]
  refine ⟨hnd, by simp, ?_⟩
  intro a ha hb
  simp only [List.map_cons, List.map_nil, List.mem_singleton] at hb
  rcases List.mem_map.mp ha with ⟨p, hp, hpe⟩
  exact (lookupEntry_eq_none_iff m k).mp h p hp (by rw [hpe, hb])

theorem chromeByUrl_none (cs : List ChromeBookmark) (u : String)
    (h : chromeByUrl cs u = none) : ∀ c ∈ cs, c.url ≠ u := by
  intro c hc hcu
  unfold chromeByUrl at h
  rw [List.find?_eq_none] at h
  exact absurd (by simpa using hcu) (h c (List.mem_reverse.mpr hc))

theorem ldByUrl_none (lds : List LdBookmark) (u : String)
    (h : ldByUrl lds u = none) : ∀ b ∈ lds, b.url ≠ u := by
  intro b hb hbu
  unfold ldByUrl at h
  rw [List.find?_eq_none] at h
  exact absurd (by simpa using hbu) (h b (List.mem_reverse.mpr hb))

theorem chromeByUrl_isSome_of_mem (cs : List ChromeBookmark) (u : String)
    (c : ChromeBookmark) (hc : c ∈ cs) (hu : c.url = u) : (chromeByUrl cs u).isSome := by
  cases h : chromeByUrl cs u with
  | some _ => rfl
  | none => exact absurd hu (chromeByUrl_none cs u h c hc)

theorem ldByUrl_isSome_of_mem (lds : List LdBookmark) (u : String)
    (b : LdBookmark) (hb : b ∈ lds) (hu : b.url = u) : (ldByUrl lds u).isSome := by
  cases h : ldByUrl lds u with
  | some _ => rfl
  | none => exact absurd hu (ldByUrl_none lds u h b hb)

theorem eq_of_mem_of_nodup_map {α β : Type} [DecidableEq β] (f : α → β) (l : List α)
    (hnd : (l.map f).Nodup) :
    ∀ a ∈ l, ∀ b ∈ l, f a = f b → a = b := by
  induction l with
  | nil => intro a ha; cases ha
  | cons x xs ih =>
    rw [List.map_cons, List.nodup_cons] at hnd
    intro a ha b hb hf
    rcases List.mem_cons.mp ha with rfl | ha' <;> rcases List.mem_cons.mp hb with rfl | hb'
    · rfl
    · exact absurd (hf ▸ List.mem_map_of_mem f hb') hnd.1
    · exact absurd (hf ▸ List.mem_map_of_mem f ha') hnd.1
    · exact ih hnd.2 a ha' b hb' hf

theorem ldByUrl_unique (lds : List LdBookmark) (hnd : (lds.map (fun b => b.url)).Nodup)
    (u : String) (x : LdBookmark) (hx : ldByUrl lds u = some x) :
    ∀ y ∈ lds, y.url = u → y = x := by
  intro y hy hyu
  have h1 := ldByUrl_some lds u x hx
  exact eq_of_mem_of_nodup_map (fun b => b.url) lds hnd y hy x h1.1 (by simp [hyu, h1.2])

theorem chromeByUrl_unique (cs : List ChromeBookmark)
    (hnd : (cs.map (fun c => c.url)).Nodup) (u : String) (x : ChromeBookmark)
    (hx : chromeByUrl cs u = some x) : ∀ y ∈ cs, y.url = u → y = x := by
  intro y hy hyu
  have h1 := chromeByUrl_some cs u x hx
  exact eq_of_mem_of_nodup_map (fun c => c.url) cs hnd y hy x h1.1 (by simp [hyu, h1.2])

theorem mem_ldUpdate_of_ne (l : List LdBookmark) (i : Nat) (url title : String)
    (tags : List String) (b : LdBookmark) (hb : b ∈ l) (hne : b.id ≠ i) :
    b ∈ ldUpdate l i url title tags := by
  unfold ldUpdate
  have := List.mem_map_of_mem (fun x => if x.id = i then ldApplyUpdate x url title tags else x) hb
  simpa [hne] using this

theorem mem_chromeSetTitle_of_ne (l : List ChromeBookmark) (i : Nat) (t : String)
    (b : ChromeBookmark) (hb : b ∈ l) (hne : b.id ≠ i) : b ∈ chromeSetTitle l i t := by
  unfold chromeSetTitle
  have := List.mem_map_of_mem (fun x => if x.id = i then { x with title := t } else x) hb
  simpa [hne] using this

theorem mem_chromeMove_of_ne (l : List ChromeBookmark) (i : Nat) (p : String)
    (b : ChromeBookmark) (hb : b ∈ l) (hne : b.id ≠ i) : b ∈ chromeMove l i p := by
  unfold chromeMove
  have := List.mem_map_of_mem (fun x => if x.id = i then { x with folderPath := p } else x) hb
  simpa [hne] using this

theorem mem_ldDelete_of_ne (l : List LdBookmark) (i : Nat) (b : LdBookmark)
    (hb : b ∈ l) (hne : b.id ≠ i) : b ∈ ldDelete l i :=
  (mem_ldDelete l i b).mpr ⟨hb, hne⟩

theorem mem_chromeRemove_of_ne (l : List ChromeBookmark) (i : Nat) (b : ChromeBookmark)
    (hb : b ∈ l) (hne : b.id ≠ i) : b ∈ chromeRemove l i :=
  (mem_chromeRemove l i b).mpr ⟨hb, hne⟩

theorem ldUpdate_map_id (l : List LdBookmark) (i : Nat) (url title : String)
    (tags : List String) :
    (ldUpdate l i url title tags).map (fun b => b.id) = l.map (fun b => b.id) := by
  unfold ldUpdate
  rw [List.map_map]
  apply List.map_congr_left
  intro b _
  by_cases hb : b.id = i
  · simp [hb, ldApplyUpdate]
  · simp [hb]

theorem chromeSetTitle_map_id (l : List ChromeBookmark) (i : Nat) (t : String) :
    (chromeSetTitle l i t).map (fun c => c.id) = l.map (fun c => c.id) := by
  unfold chromeSetTitle
  rw [List.map_map]
  apply List.map_congr_left
  intro c _
  by_cases hc : c.id = i
  · simp [hc]
  · simp [hc]

theorem chromeMove_map_id (l : List ChromeBookmark) (i : Nat) (p : String) :
    (chromeMove l i p).map (fun c => c.id) = l.map (fun c => c.id) := by
  unfold chromeMove
  rw [List.map_map]
  apply List.map_congr_left
  intro c _
  by_cases hc : c.id = i
  · simp [hc]
  · simp [hc]

theorem nodup_ids_ldDelete (l : List LdBookmark) (i : Nat)
    (h : (l.map (fun b => b.id)).Nodup) : ((ldDelete l i).map (fun b => b.id)).Nodup :=
  ((List.filter_sublist l).map (fun b => b.id)).nodup h

theorem nodup_ids_chromeRemove (l : List ChromeBookmark) (i : Nat)
    (h : (l.map (fun c => c.id)).Nodup) : ((chromeRemove l i).map (fun c => c.id)).Nodup :=
  ((List.filter_sublist l).map (fun c => c.id)).nodup h

theorem contains_iff_mem_str (l : List String) (a : String) : l.contains a = true ↔ a ∈ l := by
  induction l with
  | nil => simp
  | cons x xs ih =>
    rw [List.contains_cons]
    rw [Bool.or_eq_true]
    constructor
    · rintro (h | h)
      · have hax : a = x := by simpa using h
        exact hax ▸ List.mem_cons_self x xs
      · exact List.mem_cons.mpr (Or.inr (ih.mp h))
    · intro h
      rcases List.mem_cons.mp h with rfl | h'
      · left; simp
      · right; exact ih.mpr h'

theorem ldTitleOf_ne_empty (b : LdBookmark) (h : b.url ≠ "") : ldTitleOf b ≠ "" := by
  unfold ldTitleOf
  by_cases ht : b.title = ""
  · rw [if_pos ht]; exact h
  · rw [if_neg ht]; exact ht

theorem resolveTitle_fst_of_ld_flag_false (e : MappingEntry) (ct lt : String) (d : Nat)
    (h : (resolveTitle e ct lt d).2.1 = false) : (resolveTitle e ct lt d).1 = lt := by
  by_cases hc : ct = e.title <;> by_cases hl : lt = e.title
  · rw [resolveTitle_none e ct lt d hc hl]; rw [hl]
  · rw [resolveTitle_ld_only e ct lt d hl hc]
  · rw [resolveTitle_chrome_only e ct lt d hc hl] at h
    cases h
  · by_cases hd : e.lastSynced < d
    · rw [resolveTitle_both_ld e ct lt d hl hc hd]
    · rw [resolveTitle_both_chrome e ct lt d hl hc hd] at h
      cases h

theorem resolveTitle_fst_of_chrome_flag_false (e : MappingEntry) (ct lt : String) (d : Nat)
    (h : (resolveTitle e ct lt d).2.2 = false) : (resolveTitle e ct lt d).1 = ct := by
  by_cases hc : ct = e.title <;> by_cases hl : lt = e.title
  · rw [resolveTitle_none e ct lt d hc hl]; rw [hc]
  · rw [resolveTitle_ld_only e ct lt d hl hc] at h
    cases h
  · rw [resolveTitle_chrome_only e ct lt d hc hl]
  · by_cases hd : e.lastSynced < d
    · rw [resolveTitle_both_ld e ct lt d hl hc hd] at h
      cases h
    · rw [resolveTitle_both_chrome e ct lt d hl hc hd]

theorem resolveTitle_fst_cases (e : MappingEntry) (ct lt : String) (d : Nat) :
    (resolveTitle e ct lt d).1 = ct ∨ (resolveTitle e ct lt d).1 = lt := by
  by_cases hc : ct = e.title <;> by_cases hl : lt = e.title
  · rw [resolveTitle_none e ct lt d hc hl]; left; rw [hc]
  · rw [resolveTitle_ld_only e ct lt d hl hc]; right; rfl
  · rw [resolveTitle_chrome_only e ct lt d hc hl]; left; rfl
  · by_cases hd : e.lastSynced < d
    · rw [resolveTitle_both_ld e ct lt d hl hc hd]; right; rfl
    · rw [resolveTitle_both_chrome e ct lt d hl hc hd]; left; rfl

theorem resolvePath_fst_of_ld_flag_false (m c l : String)
    (h : (resolvePath m c l).2.1 = false) : (resolvePath m c l).1 = l := by
  by_cases hc : c = m <;> by_cases hl : l = m
  · rw [resolvePath_none m c l hc hl]; rw [hl]
  · rw [resolvePath_ld_only m c l hl hc]
  · rw [resolvePath_chrome_only m c l hc hl] at h
    cases h
  · rw [resolvePath_both m c l hl hc] at h
    cases h

theorem resolvePath_fst_of_chrome_flag_false (m c l : String)
    (h : (resolvePath m c l).2.2 = false) : (resolvePath m c l).1 = c := by
  by_cases hc : c = m <;> by_cases hl : l = m
  · rw [resolvePath_none m c l hc hl]; rw [hc]
  · rw [resolvePath_ld_only m c l hl hc] at h
    cases h
  · rw [resolvePath_chrome_only m c l hc hl]
  · rw [resolvePath_both m c l hl hc]

/-! ## Idempotence of the incremental reconciler

`Synced T w` says the three persisted structures agree: every local bookmark
and every tagged remote bookmark is covered by a mapping entry recording its
current title and folder path, and every mapping key is present on both
sides.  A synced world is a fixed point for the counters: all three passes
of `runTwoWaySync` skip every item. -/

/-- The snapshot `fetchBookmarksWithTag` returns: remote bookmarks carrying
the sync tag. -/
def taggedLds (T : String) (w : World) : List LdBookmark :=
  w.ld.filter (fun b => b.tagNames.contains T)

/-- The stores and the mapping agree: every side is covered by an
up-to-date mapping entry and every entry is backed on both sides. -/
def Synced (T : String) (w : World) : Prop :=
  ((w.mapping.map (fun p => p.1)).Nodup) ∧
  (∀ c ∈ w.chrome, ∃ e, lookupEntry w.mapping c.url = some e ∧
      e.title = c.title ∧ e.folderPath = c.folderPath) ∧
  (∀ b ∈ taggedLds T w, ∃ e, lookupEntry w.mapping b.url = some e ∧
      ldTitleOf b = e.title ∧ extractFolderPath T b.tagNames = e.folderPath) ∧
  (∀ p ∈ w.mapping, (∃ c ∈ w.chrome, c.url = p.1) ∧ (∃ b ∈ taggedLds T w, b.url = p.1))

/-- On a synced world the run reports `{added: 0, removed: 0, updated: 0}`:
pass 1 and pass 2 skip every item (all URLs are mapped), and pass 3 takes the
both-present branch with both resolvers returning no-change flags. -/
theorem synced_run_counts (T : String) (w : World) (hs : Synced T w) :
    (runTwoWaySync T w).2 = ⟨0, 0, 0⟩ := by
  obtain ⟨hnd, hchrome, hldm, hkeys⟩ := hs
  have h2 : (runTwoWaySync T w).2 =
      ⟨(w.mapping.foldl (phase3Step T (taggedLds T w) w.chrome w.now)
          ((taggedLds T w).foldl (phase2Step T w.chrome w.mapping w.now)
            (w.chrome.foldl (phase1Step T (taggedLds T w) w.mapping w.now)
              ⟨w.ld, w.chrome, w.nextLdId, w.nextChromeId, [], 0, 0, 0⟩))).added,
       (w.mapping.foldl (phase3Step T (taggedLds T w) w.chrome w.now)
          ((taggedLds T w).foldl (phase2Step T w.chrome w.mapping w.now)
            (w.chrome.foldl (phase1Step T (taggedLds T w) w.mapping w.now)
              ⟨w.ld, w.chrome, w.nextLdId, w.nextChromeId, [], 0, 0, 0⟩))).removed,
       (w.mapping.foldl (phase3Step T (taggedLds T w) w.chrome w.now)
          ((taggedLds T w).foldl (phase2Step T w.chrome w.mapping w.now)
            (w.chrome.foldl (phase1Step T (taggedLds T w) w.mapping w.now)
              ⟨w.ld, w.chrome, w.nextLdId, w.nextChromeId, [], 0, 0, 0⟩))).updated⟩ := rfl
  have ha1 : w.chrome.foldl (phase1Step T (taggedLds T w) w.mapping w.now)
      ⟨w.ld, w.chrome, w.nextLdId, w.nextChromeId, [], 0, 0, 0⟩ =
      ⟨w.ld, w.chrome, w.nextLdId, w.nextChromeId, [], 0, 0, 0⟩ := by
    apply foldl_id
    intro a c hc
    obtain ⟨e, he, _, _⟩ := hchrome c hc
    unfold phase1Step
    rw [he]
  have ha2 : (taggedLds T w).foldl (phase2Step T w.chrome w.mapping w.now)
      ⟨w.ld, w.chrome, w.nextLdId, w.nextChromeId, [], 0, 0, 0⟩ =
      ⟨w.ld, w.chrome, w.nextLdId, w.nextChromeId, [], 0, 0, 0⟩ := by
    apply foldl_id
    intro a b hb
    obtain ⟨e, he, _, _⟩ := hldm b hb
    unfold phase2Step
    rw [if_neg]
    rintro ⟨h1, _⟩
    rw [he] at h1
    simp at h1
  have h3 : ((w.mapping.foldl (phase3Step T (taggedLds T w) w.chrome w.now)
        ⟨w.ld, w.chrome, w.nextLdId, w.nextChromeId, [], 0, 0, 0⟩)).added = 0 ∧
      ((w.mapping.foldl (phase3Step T (taggedLds T w) w.chrome w.now)
        ⟨w.ld, w.chrome, w.nextLdId, w.nextChromeId, [], 0, 0, 0⟩)).removed = 0 ∧
      ((w.mapping.foldl (phase3Step T (taggedLds T w) w.chrome w.now)
        ⟨w.ld, w.chrome, w.nextLdId, w.nextChromeId, [], 0, 0, 0⟩)).updated = 0 := by
    apply foldl_invariant (phase3Step T (taggedLds T w) w.chrome w.now)
      (fun a => a.added = 0 ∧ a.removed = 0 ∧ a.updated = 0) w.mapping
    · rintro a ⟨u, e⟩ hp hP
      obtain ⟨⟨c, hc, hcu⟩, ⟨b, hb, hbu⟩⟩ := hkeys (u, e) hp
      obtain ⟨cbm, hcbm⟩ : ∃ x, chromeByUrl w.chrome u = some x :=
        Option.isSome_iff_exists.mp (chromeByUrl_isSome_of_mem w.chrome u c hc hcu)
      obtain ⟨ld0, hld0⟩ : ∃ x, ldByUrl (taggedLds T w) u = some x :=
        Option.isSome_iff_exists.mp (ldByUrl_isSome_of_mem (taggedLds T w) u b hb hbu)
      have hlook : lookupEntry w.mapping u = some e :=
        lookupEntry_of_mem_nodup w.mapping hnd u e hp
      have hcbm2 := chromeByUrl_some w.chrome u cbm hcbm
      obtain ⟨e1, he1, het1, hef1⟩ := hchrome cbm hcbm2.1
      rw [hcbm2.2, hlook] at he1
      have he1e : e1 = e := (Option.some.inj he1).symm
      have hld02 := ldByUrl_some (taggedLds T w) u ld0 hld0
      obtain ⟨e2, he2, het2, hef2⟩ := hldm ld0 hld02.1
      rw [hld02.2, hlook] at he2
      have he2e : e2 = e := (Option.some.inj he2).symm
      rw [phase3Step_both T (taggedLds T w) w.chrome w.now a u e cbm ld0 hcbm hld0,
        phase3Both_eq]
      have hrt : resolveTitle e cbm.title (ldTitleOf ld0) (ld0.dateModified.getD 0) =
          (e.title, false, false) :=
        resolveTitle_none e cbm.title (ldTitleOf ld0) (ld0.dateModified.getD 0)
          (by rw [← het1, he1e]) (by rw [het2, he2e])
      have hrp : resolvePath e.folderPath cbm.folderPath (extractFolderPath T ld0.tagNames) =
          (e.folderPath, false, false) :=
        resolvePath_none e.folderPath cbm.folderPath (extractFolderPath T ld0.tagNames)
          (by rw [← hef1, he1e]) (by rw [hef2, he2e])
      simp only [hrt, hrp, Bool.or_self, if_false, Bool.false_eq_true]
      exact ⟨hP.1, hP.2.1, hP.2.2⟩
    · exact ⟨rfl, rfl, rfl⟩
  rw [ha1, ha2] at h2
  rw [h2, h3.1, h3.2.1, h3.2.2]

/-- Well-formedness of a world before a run, together with the preconditions
under which the run leaves a synced world: URLs and ids are unique per store,
mapping keys are unique and each entry's `chromeId` is the id of the local
bookmark holding the mapped URL, ids are below the fresh-id counters, a local
URL missing from the mapping is also missing from the tagged remote snapshot
(no simultaneous independent creation on both sides), local titles are
non-empty (Chrome never stores an empty bookmark title) and tagged remote
items have non-empty URLs. -/
structure WF (T : String) (w : World) : Prop where
  chromeUrlsNodup : (w.chrome.map (fun c => c.url)).Nodup
  chromeIdsNodup : (w.chrome.map (fun c => c.id)).Nodup
  ldIdsNodup : (w.ld.map (fun b => b.id)).Nodup
  taggedUrlsNodup : ((taggedLds T w).map (fun b => b.url)).Nodup
  mappingKeysNodup : (w.mapping.map (fun p => p.1)).Nodup
  mappingBinds : ∀ p ∈ w.mapping, ∀ c ∈ w.chrome, c.url = p.1 → c.id = p.2.chromeId
  chromeIdsFresh : ∀ c ∈ w.chrome, c.id < w.nextChromeId
  ldIdsFresh : ∀ b ∈ w.ld, b.id < w.nextLdId
  newOnOneSide : ∀ c ∈ w.chrome, lookupEntry w.mapping c.url = none →
    ldByUrl (taggedLds T w) c.url = none
  chromeTitles : ∀ c ∈ w.chrome, c.title ≠ ""
  taggedUrls : ∀ b ∈ taggedLds T w, b.url ≠ ""

theorem nodup_map_split_ne {α β : Type} (f : α → β) (l0 done rest : List α) (x : α)
    (h : l0 = done ++ x :: rest) (hnd : (l0.map f).Nodup) :
    (∀ a ∈ done, f a ≠ f x) ∧ (∀ a ∈ rest, f a ≠ f x) := by
  subst h
  rw [List.map_append, List.map_cons, List.nodup_append] at hnd
  obtain ⟨h1, h2, h3⟩ := hnd
  rw [List.nodup_cons] at h2
  constructor
  · intro a ha hfa
    exact h3 (List.mem_map_of_mem f ha) (by rw [hfa]; exact List.mem_cons_self _ _)
  · intro a ha hfa
    exact h2.1 (by rw [← hfa]; exact List.mem_map_of_mem f ha)

theorem nodup_map_append_one {α β : Type} (f : α → β) (l : List α) (x : α)
    (hnd : (l.map f).Nodup) (hx : ∀ a ∈ l, f a ≠ f x) : ((l ++ [x]).map f).Nodup := by
  rw [List.map_append, List.nodup_append]
  refine ⟨hnd, List.nodup_singleton _, ?_⟩
  intro b hb hb2
  simp only [List.map_cons, List.map_nil, List.mem_singleton] at hb2
  obtain ⟨a, ha, hae⟩ := List.mem_map.mp hb
  exact hx a ha (by rw [hae, hb2])

theorem nodup_ids_append_fresh_ld (l : List LdBookmark) (x : LdBookmark)
    (hnd : (l.map (fun b => b.id)).Nodup) (hx : ∀ b ∈ l, b.id ≠ x.id) :
    ((l ++ [x]).map (fun b => b.id)).Nodup :=
  nodup_map_append_one (fun b => b.id) l x hnd hx

theorem nodup_ids_append_fresh_chrome (l : List ChromeBookmark) (x : ChromeBookmark)
    (hnd : (l.map (fun c => c.id)).Nodup) (hx : ∀ c ∈ l, c.id ≠ x.id) :
    ((l ++ [x]).map (fun c => c.id)).Nodup :=
  nodup_map_append_one (fun c => c.id) l x hnd hx

theorem mem_of_lookupEntry_some (m : Mapping) (k : String) (v : MappingEntry)
    (h : lookupEntry m k = some v) : (k, v) ∈ m := by
  induction m with
  | nil => cases h
  | cons x xs ih =>
    rw [lookupEntry] at h
    by_cases hx : (x.1 == k) = true
    · rw [if_pos hx] at h
      obtain ⟨a, b⟩ := x
      have h1 : b = v := Option.some.inj h
      have h2 : a = k := by simpa using hx
      rw [← h1, ← h2]
      exact List.mem_cons_self _ _
    · rw [if_neg hx] at h
      exact List.mem_cons_of_mem x (ih h)

theorem exists_key_of_lookup (m : Mapping) (k : String) (h : lookupEntry m k ≠ none) :
    ∃ p ∈ m, p.1 = k := by
  cases hl : lookupEntry m k with
  | none => exact absurd hl h
  | some v => exact ⟨(k, v), mem_of_lookupEntry_some m k v hl, rfl⟩

theorem phase1Step_skip (T : String) (lds : List LdBookmark) (m0 : Mapping) (now : Nat)
    (acc : RunAcc) (cbm : ChromeBookmark) (e : MappingEntry)
    (h : lookupEntry m0 cbm.url = some e) :
    phase1Step T lds m0 now acc cbm = acc := by
  unfold phase1Step
  rw [h]

theorem phase1Step_create (T : String) (lds : List LdBookmark) (m0 : Mapping) (now : Nat)
    (acc : RunAcc) (cbm : ChromeBookmark)
    (h1 : lookupEntry m0 cbm.url = none) (h2 : ldByUrl lds cbm.url = none) :
    phase1Step T lds m0 now acc cbm =
      { acc with
        ld := acc.ld ++ [⟨acc.nextLdId, cbm.url,
          if cbm.title = "" then cbm.url else cbm.title,
          buildTagsForPath T cbm.folderPath, some now⟩]
        nextLdId := acc.nextLdId + 1
        newMapping := mapSet acc.newMapping cbm.url
          ⟨acc.nextLdId, cbm.id, cbm.title, cbm.url, cbm.folderPath, now⟩
        added := acc.added + 1 } := by
  unfold phase1Step
  rw [h1, h2]
  rfl

theorem phase2Step_create (T : String) (cs : List ChromeBookmark) (m0 : Mapping) (now : Nat)
    (acc : RunAcc) (l : LdBookmark)
    (h1 : lookupEntry m0 l.url = none) (h2 : chromeByUrl cs l.url = none) :
    phase2Step T cs m0 now acc l =
      { acc with
        chrome := acc.chrome ++
          [⟨acc.nextChromeId, l.url, ldTitleOf l, now, extractFolderPath T l.tagNames⟩]
        nextChromeId := acc.nextChromeId + 1
        newMapping := mapSet acc.newMapping l.url
          ⟨l.id, acc.nextChromeId, ldTitleOf l, l.url, extractFolderPath T l.tagNames, now⟩
        added := acc.added + 1 } := by
  unfold phase2Step
  rw [if_pos ⟨by rw [h1]; rfl, by rw [h2]; rfl⟩]
  rfl

/-- Invariant of pass 1 after processing the local bookmarks in `done`:
the local tree is untouched, every remote creation is fresh, tagged, carries
an unmapped Chrome URL and is covered by a matching `newMapping` entry, and
every processed unmapped local bookmark is covered by a matching entry. -/
structure Inv1 (T : String) (w : World) (done : List ChromeBookmark) (acc : RunAcc) : Prop where
  chromeEq : acc.chrome = w.chrome
  nextChromeEq : acc.nextChromeId = w.nextChromeId
  nextLdGe : w.nextLdId ≤ acc.nextLdId
  ldBound : ∀ b ∈ acc.ld, b.id < acc.nextLdId
  ldIds : (acc.ld.map (fun b => b.id)).Nodup
  oldLd : ∀ b ∈ w.ld, b ∈ acc.ld
  ldChar : ∀ b ∈ acc.ld, b ∈ w.ld ∨
    (w.nextLdId ≤ b.id ∧ lookupEntry w.mapping b.url = none)
  nmKeys : ∀ p ∈ acc.newMapping, lookupEntry w.mapping p.1 = none
  nmKeysDone : ∀ p ∈ acc.newMapping, ∃ c ∈ done, c.url = p.1
  nmNodup : (acc.newMapping.map (fun p => p.1)).Nodup
  doneMatched : ∀ c ∈ done, lookupEntry w.mapping c.url = none →
    ∃ e, lookupEntry acc.newMapping c.url = some e ∧ e.title = c.title ∧
      e.folderPath = c.folderPath
  createdMatched : ∀ b ∈ acc.ld, b ∉ w.ld →
    b.tagNames.contains T = true ∧
    ∃ e, lookupEntry acc.newMapping b.url = some e ∧ ldTitleOf b = e.title ∧
      extractFolderPath T b.tagNames = e.folderPath
  nmLd : ∀ p ∈ acc.newMapping, ∃ b ∈ acc.ld, b.url = p.1 ∧ b.tagNames.contains T = true

/-- Pass 1 establishes its invariant over the whole local snapshot. -/
theorem phase1_establishes (T : String) (w : World) (hwf : WF T w) :
    Inv1 T w w.chrome
      (w.chrome.foldl (phase1Step T (taggedLds T w) w.mapping w.now)
        ⟨w.ld, w.chrome, w.nextLdId, w.nextChromeId, [], 0, 0, 0⟩) := by
  have hinit : Inv1 T w [] ⟨w.ld, w.chrome, w.nextLdId, w.nextChromeId, [], 0, 0, 0⟩ := by
    refine ⟨rfl, rfl, Nat.le_refl _, hwf.ldIdsFresh, hwf.ldIdsNodup, fun b hb => hb,
      fun b hb => Or.inl hb, ?_, ?_, List.nodup_nil, ?_, ?_, ?_⟩
    · intro p hp; cases hp
    · intro p hp; cases hp
    · intro c hc; cases hc
    · intro b hb hbn; exact absurd hb hbn
    · intro p hp; cases hp
  have hstep : ∀ done acc cbm rest, w.chrome = done ++ cbm :: rest →
      Inv1 T w done acc →
      Inv1 T w (done ++ [cbm])
        (phase1Step T (taggedLds T w) w.mapping w.now acc cbm) := by
    intro done acc cbm rest hsplit hinv
    have hcbm_cs : cbm ∈ w.chrome := by
      rw [hsplit]; exact List.mem_append_right _ (List.mem_cons_self _ _)
    have hurlne0 := nodup_map_split_ne (fun c => c.url) w.chrome done rest cbm hsplit
      hwf.chromeUrlsNodup
    have hurlne : ∀ a ∈ done, a.url ≠ cbm.url := fun a ha => hurlne0.1 a ha
    cases hlu : lookupEntry w.mapping cbm.url with
    | some e =>
      rw [phase1Step_skip T (taggedLds T w) w.mapping w.now acc cbm e hlu]
      refine ⟨hinv.chromeEq, hinv.nextChromeEq, hinv.nextLdGe, hinv.ldBound, hinv.ldIds,
        hinv.oldLd, hinv.ldChar, hinv.nmKeys, ?_, hinv.nmNodup, ?_, hinv.createdMatched,
        hinv.nmLd⟩
      · intro p hp
        obtain ⟨c, hc, hcu⟩ := hinv.nmKeysDone p hp
        exact ⟨c, List.mem_append_left _ hc, hcu⟩
      · intro c hc hcnone
        rcases List.mem_append.mp hc with hc | hc
        · exact hinv.doneMatched c hc hcnone
        · rw [List.mem_singleton] at hc
          subst hc
          rw [hlu] at hcnone
          cases hcnone
    | none =>
      have hldnone : ldByUrl (taggedLds T w) cbm.url = none :=
        hwf.newOnOneSide cbm hcbm_cs hlu
      rw [phase1Step_create T (taggedLds T w) w.mapping w.now acc cbm hlu hldnone]
      have hkeynone : lookupEntry acc.newMapping cbm.url = none := by
        rw [lookupEntry_eq_none_iff]
        intro p hp hpk
        obtain ⟨c, hc, hcu⟩ := hinv.nmKeysDone p hp
        exact hurlne c hc (by rw [hcu, hpk])
      have htne : cbm.title ≠ "" := hwf.chromeTitles cbm hcbm_cs
      refine ⟨hinv.chromeEq, hinv.nextChromeEq, ?_, ?_, ?_, ?_, ?_, ?_, ?_, ?_, ?_, ?_, ?_⟩
      · exact Nat.le_trans hinv.nextLdGe (Nat.le_succ _)
      · -- ldBound
        intro b hb
        rcases List.mem_append.mp hb with hb | hb
        · exact Nat.lt_trans (hinv.ldBound b hb) (Nat.lt_succ_self _)
        · rw [List.mem_singleton] at hb
          rw [hb]
          exact Nat.lt_succ_self _
      · -- ldIds
        exact nodup_ids_append_fresh_ld acc.ld _ hinv.ldIds
          (fun b hb => Nat.ne_of_lt (hinv.ldBound b hb))
      · -- oldLd
        intro b hb
        exact List.mem_append_left _ (hinv.oldLd b hb)
      · -- ldChar
        intro b hb
        rcases List.mem_append.mp hb with hb | hb
        · exact hinv.ldChar b hb
        · rw [List.mem_singleton] at hb
          subst hb
          exact Or.inr ⟨hinv.nextLdGe, hlu⟩
      · -- nmKeys
        intro p hp
        rcases mem_mapSet acc.newMapping cbm.url _ p hp with hp | hp
        · exact hinv.nmKeys p hp
        · rw [hp]; exact hlu
      · -- nmKeysDone
        intro p hp
        rcases mem_mapSet acc.newMapping cbm.url _ p hp with hp | hp
        · obtain ⟨c, hc, hcu⟩ := hinv.nmKeysDone p hp
          exact ⟨c, List.mem_append_left _ hc, hcu⟩
        · exact ⟨cbm, List.mem_append_right _ (List.mem_singleton.mpr rfl), hp.symm⟩
      · -- nmNodup
        exact nodup_keys_mapSet_new acc.newMapping cbm.url _ hinv.nmNodup hkeynone
      · -- doneMatched
        intro c hc hcnone
        rcases List.mem_append.mp hc with hc | hc
        · obtain ⟨e, he, het, hef⟩ := hinv.doneMatched c hc hcnone
          refine ⟨e, ?_, het, hef⟩
          rw [lookupEntry_mapSet_ne acc.newMapping cbm.url c.url _ ?_, he]
          intro hcu
          exact hurlne c hc hcu
        · rw [List.mem_singleton] at hc
          subst hc
          exact ⟨⟨acc.nextLdId, c.id, c.title, c.url, c.folderPath, w.now⟩,
            lookupEntry_mapSet_self acc.newMapping c.url _, rfl, rfl⟩
      · -- createdMatched
        intro b hb hbold
        rcases List.mem_append.mp hb with hb | hb
        · obtain ⟨htag, e, he, het, hef⟩ := hinv.createdMatched b hb hbold
          refine ⟨htag, e, ?_, het, hef⟩
          have hbkey : ∃ p ∈ acc.newMapping, p.1 = b.url :=
            exists_key_of_lookup acc.newMapping b.url (by rw [he]; intro hx; cases hx)
          obtain ⟨p, hp, hpk⟩ := hbkey
          obtain ⟨c, hc, hcu⟩ := hinv.nmKeysDone p hp
          rw [lookupEntry_mapSet_ne acc.newMapping cbm.url b.url _ ?_, he]
          intro hbu
          exact hurlne c hc (by rw [hcu, hpk, hbu])
        · rw [List.mem_singleton] at hb
          subst hb
          refine ⟨?_, ⟨acc.nextLdId, cbm.id, cbm.title, cbm.url, cbm.folderPath, w.now⟩,
            lookupEntry_mapSet_self acc.newMapping cbm.url _, ?_, ?_⟩
          · exact contains_iff_mem_str _ T |>.mpr (syncTag_mem_buildTagsForPath T cbm.folderPath)
          · show ldTitleOf _ = cbm.title
            simp [ldTitleOf, htne]
          · show extractFolderPath T (buildTagsForPath T cbm.folderPath) = cbm.folderPath
            exact extract_build T cbm.folderPath
      · -- nmLd
        intro p hp
        rcases mem_mapSet acc.newMapping cbm.url _ p hp with hp | hp
        · obtain ⟨b, hb, hbu, hbt⟩ := hinv.nmLd p hp
          exact ⟨b, List.mem_append_left _ hb, hbu, hbt⟩
        · refine ⟨⟨acc.nextLdId, cbm.url,
            if cbm.title = "" then cbm.url else cbm.title,
            buildTagsForPath T cbm.folderPath, some w.now⟩,
            List.mem_append_right _ (List.mem_singleton.mpr rfl), hp.symm, ?_⟩
          exact contains_iff_mem_str _ T |>.mpr (syncTag_mem_buildTagsForPath T cbm.folderPath)
  have h := foldl_rec (phase1Step T (taggedLds T w) w.mapping w.now)
    (fun done acc => Inv1 T w done acc) w.chrome hstep w.chrome []
    ⟨w.ld, w.chrome, w.nextLdId, w.nextChromeId, [], 0, 0, 0⟩ rfl hinit
  simpa using h

theorem phase2Step_skip (T : String) (cs : List ChromeBookmark) (m0 : Mapping) (now : Nat)
    (acc : RunAcc) (l : LdBookmark) (h : lookupEntry m0 l.url ≠ none) :
    phase2Step T cs m0 now acc l = acc := by
  unfold phase2Step
  rw [if_neg]
  rintro ⟨h1, _⟩
  cases hl : lookupEntry m0 l.url with
  | none => exact h hl
  | some v => rw [hl] at h1; simp at h1

/-- Invariant of pass 2 after processing the tagged remote bookmarks in
`done`, starting from the pass-1 result `A1`: the remote store is untouched,
every local creation is fresh with an unmapped URL and covered by a matching
entry, entries at local-URL keys are exactly the pass-1 entries, and every
processed unmapped remote bookmark is covered by a matching entry. -/
structure Inv2 (T : String) (w : World) (A1 : RunAcc) (done : List LdBookmark)
    (acc : RunAcc) : Prop where
  ldEq : acc.ld = A1.ld
  nextLdEq : acc.nextLdId = A1.nextLdId
  nextChromeGe : w.nextChromeId ≤ acc.nextChromeId
  chromeBound : ∀ c ∈ acc.chrome, c.id < acc.nextChromeId
  chromeIds : (acc.chrome.map (fun c => c.id)).Nodup
  oldChrome : ∀ c ∈ w.chrome, c ∈ acc.chrome
  chromeChar : ∀ c ∈ acc.chrome, c ∈ w.chrome ∨
    (w.nextChromeId ≤ c.id ∧ lookupEntry w.mapping c.url = none)
  nmKeys : ∀ p ∈ acc.newMapping, lookupEntry w.mapping p.1 = none
  nmNodup : (acc.newMapping.map (fun p => p.1)).Nodup
  nmFrameChrome : ∀ k : String, (∃ c ∈ w.chrome, c.url = k) →
    lookupEntry acc.newMapping k = lookupEntry A1.newMapping k
  nmNewChar : ∀ p ∈ acc.newMapping, p ∈ A1.newMapping ∨ ∃ b ∈ done, b.url = p.1
  nmNewChrome : ∀ p ∈ acc.newMapping, p ∉ A1.newMapping → ∃ c ∈ acc.chrome, c.url = p.1
  doneMatched : ∀ b ∈ done, lookupEntry w.mapping b.url = none →
    ∃ e, lookupEntry acc.newMapping b.url = some e ∧ ldTitleOf b = e.title ∧
      extractFolderPath T b.tagNames = e.folderPath
  createdChrome : ∀ c ∈ acc.chrome, c ∉ w.chrome →
    (∃ b ∈ done, b.url = c.url) ∧
    ∃ e, lookupEntry acc.newMapping c.url = some e ∧ e.title = c.title ∧
      e.folderPath = c.folderPath

/-- Pass 2 establishes its invariant over the whole tagged remote snapshot. -/
theorem phase2_establishes (T : String) (w : World) (hwf : WF T w) (A1 : RunAcc)
    (h1 : Inv1 T w w.chrome A1) :
    Inv2 T w A1 (taggedLds T w)
      ((taggedLds T w).foldl (phase2Step T w.chrome w.mapping w.now) A1) := by
  have hinit : Inv2 T w A1 [] A1 := by
    refine ⟨rfl, rfl, ?_, ?_, ?_, ?_, ?_, h1.nmKeys, h1.nmNodup, fun k _ => rfl,
      fun p hp => Or.inl hp, ?_, ?_, ?_⟩
    · rw [h1.nextChromeEq]
    · intro c hc
      rw [h1.nextChromeEq]
      exact hwf.chromeIdsFresh c (h1.chromeEq ▸ hc)
    · rw [h1.chromeEq]; exact hwf.chromeIdsNodup
    · intro c hc; rw [h1.chromeEq]; exact hc
    · intro c hc; exact Or.inl (h1.chromeEq ▸ hc)
    · intro p hp hpn; exact absurd hp hpn
    · intro b hb; cases hb
    · intro c hc hcn; exact absurd (h1.chromeEq ▸ hc) hcn
  have hstep : ∀ done acc l rest, taggedLds T w = done ++ l :: rest →
      Inv2 T w A1 done acc →
      Inv2 T w A1 (done ++ [l]) (phase2Step T w.chrome w.mapping w.now acc l) := by
    intro done acc l rest hsplit hinv
    have hlmem : l ∈ taggedLds T w := by
      rw [hsplit]; exact List.mem_append_right _ (List.mem_cons_self _ _)
    have hurlne0 := nodup_map_split_ne (fun b => b.url) (taggedLds T w) done rest l hsplit
      hwf.taggedUrlsNodup
    have hurlne : ∀ b ∈ done, b.url ≠ l.url := fun b hb => hurlne0.1 b hb
    cases hlu : lookupEntry w.mapping l.url with
    | some e =>
      rw [phase2Step_skip T w.chrome w.mapping w.now acc l (by rw [hlu]; intro hx; cases hx)]
      refine ⟨hinv.ldEq, hinv.nextLdEq, hinv.nextChromeGe, hinv.chromeBound, hinv.chromeIds,
        hinv.oldChrome, hinv.chromeChar, hinv.nmKeys, hinv.nmNodup, hinv.nmFrameChrome,
        ?_, hinv.nmNewChrome, ?_, ?_⟩
      · intro p hp
        rcases hinv.nmNewChar p hp with hp | ⟨b, hb, hbu⟩
        · exact Or.inl hp
        · exact Or.inr ⟨b, List.mem_append_left _ hb, hbu⟩
      · intro b hb hbnone
        rcases List.mem_append.mp hb with hb | hb
        · exact hinv.doneMatched b hb hbnone
        · rw [List.mem_singleton] at hb
          subst hb
          rw [hlu] at hbnone
          cases hbnone
      · intro c hc hcn
        obtain ⟨⟨b, hb, hbu⟩, he⟩ := hinv.createdChrome c hc hcn
        exact ⟨⟨b, List.mem_append_left _ hb, hbu⟩, he⟩
    | none =>
      have hcb : chromeByUrl w.chrome l.url = none := by
        cases hcb : chromeByUrl w.chrome l.url with
        | none => rfl
        | some c =>
          have hc := chromeByUrl_some w.chrome l.url c hcb
          have h3 := ldByUrl_none (taggedLds T w) c.url
            (hwf.newOnOneSide c hc.1 (by rw [hc.2]; exact hlu)) l hlmem
          exact absurd hc.2.symm h3
      rw [phase2Step_create T w.chrome w.mapping w.now acc l hlu hcb]
      have hkeynone : lookupEntry acc.newMapping l.url = none := by
        rw [lookupEntry_eq_none_iff]
        intro p hp hpk
        rcases hinv.nmNewChar p hp with hpA | ⟨b, hb, hbu⟩
        · obtain ⟨c, hc, hcu⟩ := h1.nmKeysDone p hpA
          exact chromeByUrl_none w.chrome l.url hcb c hc (by rw [hcu, hpk])
        · exact hurlne b hb (by rw [hbu, hpk])
      refine ⟨hinv.ldEq, hinv.nextLdEq, ?_, ?_, ?_, ?_, ?_, ?_, ?_, ?_, ?_, ?_, ?_, ?_⟩
      · exact Nat.le_trans hinv.nextChromeGe (Nat.le_succ _)
      · intro c hc
        rcases List.mem_append.mp hc with hc | hc
        · exact Nat.lt_trans (hinv.chromeBound c hc) (Nat.lt_succ_self _)
        · rw [List.mem_singleton] at hc
          rw [hc]
          exact Nat.lt_succ_self _
      · exact nodup_ids_append_fresh_chrome acc.chrome _ hinv.chromeIds
          (fun c hc => Nat.ne_of_lt (hinv.chromeBound c hc))
      · intro c hc
        exact List.mem_append_left _ (hinv.oldChrome c hc)
      · intro c hc
        rcases List.mem_append.mp hc with hc | hc
        · exact hinv.chromeChar c hc
        · rw [List.mem_singleton] at hc
          subst hc
          exact Or.inr ⟨hinv.nextChromeGe, hlu⟩
      · intro p hp
        rcases mem_mapSet acc.newMapping l.url _ p hp with hp | hp
        · exact hinv.nmKeys p hp
        · rw [hp]; exact hlu
      · exact nodup_keys_mapSet_new acc.newMapping l.url _ hinv.nmNodup hkeynone
      · -- nmFrameChrome
        intro k hk
        obtain ⟨c, hc, hcu⟩ := hk
        rw [lookupEntry_mapSet_ne acc.newMapping l.url k _ ?_]
        · exact hinv.nmFrameChrome k ⟨c, hc, hcu⟩
        · intro hkl
          exact chromeByUrl_none w.chrome l.url hcb c hc (by rw [hcu, hkl])
      · -- nmNewChar
        intro p hp
        rcases mem_mapSet acc.newMapping l.url _ p hp with hp | hp
        · rcases hinv.nmNewChar p hp with hp | ⟨b, hb, hbu⟩
          · exact Or.inl hp
          · exact Or.inr ⟨b, List.mem_append_left _ hb, hbu⟩
        · exact Or.inr ⟨l, List.mem_append_right _ (List.mem_singleton.mpr rfl), hp.symm⟩
      · -- nmNewChrome
        intro p hp hpA
        rcases mem_mapSet acc.newMapping l.url _ p hp with hp | hp
        · by_cases hpA1 : p ∈ A1.newMapping
          · exact absurd hpA1 hpA
          · obtain ⟨c, hc, hcu⟩ := hinv.nmNewChrome p hp hpA1
            exact ⟨c, List.mem_append_left _ hc, hcu⟩
        · exact ⟨⟨acc.nextChromeId, l.url, ldTitleOf l, w.now, extractFolderPath T l.tagNames⟩,
            List.mem_append_right _ (List.mem_singleton.mpr rfl), hp.symm⟩
      · -- doneMatched
        intro b hb hbnone
        rcases List.mem_append.mp hb with hb | hb
        · obtain ⟨e, he, het, hef⟩ := hinv.doneMatched b hb hbnone
          refine ⟨e, ?_, het, hef⟩
          rw [lookupEntry_mapSet_ne acc.newMapping l.url b.url _ (hurlne b hb), he]
        · rw [List.mem_singleton] at hb
          subst hb
          exact ⟨⟨b.id, acc.nextChromeId, ldTitleOf b, b.url, extractFolderPath T b.tagNames,
            w.now⟩, lookupEntry_mapSet_self acc.newMapping b.url _, rfl, rfl⟩
      · -- createdChrome
        intro c hc hcn
        rcases List.mem_append.mp hc with hc | hc
        · obtain ⟨⟨b, hb, hbu⟩, e, he, het, hef⟩ := hinv.createdChrome c hc hcn
          refine ⟨⟨b, List.mem_append_left _ hb, hbu⟩, e, ?_, het, hef⟩
          rw [lookupEntry_mapSet_ne acc.newMapping l.url c.url _ ?_, he]
          intro hcl
          exact hurlne b hb (by rw [hbu, hcl])
        · rw [List.mem_singleton] at hc
          subst hc
          refine ⟨⟨l, List.mem_append_right _ (List.mem_singleton.mpr rfl), rfl⟩,
            ⟨l.id, acc.nextChromeId, ldTitleOf l, l.url, extractFolderPath T l.tagNames,
              w.now⟩, lookupEntry_mapSet_self acc.newMapping l.url _, rfl, rfl⟩
  have h := foldl_rec (phase2Step T w.chrome w.mapping w.now)
    (fun done acc => Inv2 T w A1 done acc) (taggedLds T w) hstep (taggedLds T w) [] A1
    rfl hinit
  simpa using h

/-- What holds of the run state `A` when pass 3 starts: remote and local
creations of passes 1 and 2 are fresh and covered by matching entries at
unmapped keys, every unmapped item of either store is covered, and every new
entry is backed on both sides. -/
structure MidFacts (T : String) (w : World) (A : RunAcc) : Prop where
  ldIds : (A.ld.map (fun b => b.id)).Nodup
  chromeIds : (A.chrome.map (fun c => c.id)).Nodup
  oldLd : ∀ b ∈ w.ld, b ∈ A.ld
  oldChrome : ∀ c ∈ w.chrome, c ∈ A.chrome
  ldChar : ∀ b ∈ A.ld, b ∈ w.ld ∨
    (w.nextLdId ≤ b.id ∧ lookupEntry w.mapping b.url = none)
  chromeChar : ∀ c ∈ A.chrome, c ∈ w.chrome ∨
    (w.nextChromeId ≤ c.id ∧ lookupEntry w.mapping c.url = none)
  nmKeys : ∀ p ∈ A.newMapping, lookupEntry w.mapping p.1 = none
  nmNodup : (A.newMapping.map (fun p => p.1)).Nodup
  chromeMatched : ∀ c ∈ A.chrome, lookupEntry w.mapping c.url = none →
    ∃ e, lookupEntry A.newMapping c.url = some e ∧ e.title = c.title ∧
      e.folderPath = c.folderPath
  ldMatched : ∀ b ∈ A.ld, b.tagNames.contains T = true →
    lookupEntry w.mapping b.url = none →
    ∃ e, lookupEntry A.newMapping b.url = some e ∧ ldTitleOf b = e.title ∧
      extractFolderPath T b.tagNames = e.folderPath
  nmBoth : ∀ p ∈ A.newMapping, (∃ c ∈ A.chrome, c.url = p.1) ∧
    (∃ b ∈ A.ld, b.url = p.1 ∧ b.tagNames.contains T = true)

/-- After passes 1 and 2 the run state satisfies `MidFacts`. -/
theorem midFacts_of (T : String) (w : World) (hwf : WF T w) (A1 : RunAcc)
    (h1 : Inv1 T w w.chrome A1) :
    MidFacts T w ((taggedLds T w).foldl (phase2Step T w.chrome w.mapping w.now) A1) := by
  have h2 := phase2_establishes T w hwf A1 h1
  refine ⟨?_, h2.chromeIds, ?_, h2.oldChrome, ?_, h2.chromeChar, h2.nmKeys, h2.nmNodup,
    ?_, ?_, ?_⟩
  · rw [h2.ldEq]; exact h1.ldIds
  · intro b hb; rw [h2.ldEq]; exact h1.oldLd b hb
  · intro b hb; exact h1.ldChar b (h2.ldEq ▸ hb)
  · -- chromeMatched
    intro c hc hcnone
    by_cases hcw : c ∈ w.chrome
    · obtain ⟨e, he, het, hef⟩ := h1.doneMatched c hcw hcnone
      refine ⟨e, ?_, het, hef⟩
      rw [h2.nmFrameChrome c.url ⟨c, hcw, rfl⟩, he]
    · exact (h2.createdChrome c hc hcw).2
  · -- ldMatched
    intro b hb htag hbnone
    by_cases hbw : b ∈ w.ld
    · exact h2.doneMatched b (List.mem_filter.mpr ⟨hbw, htag⟩) hbnone
    · obtain ⟨htag', e, he, het, hef⟩ := h1.createdMatched b (h2.ldEq ▸ hb) hbw
      refine ⟨e, ?_, het, hef⟩
      obtain ⟨p, hp, hpk⟩ := exists_key_of_lookup A1.newMapping b.url
        (by rw [he]; intro hx; cases hx)
      obtain ⟨c, hcw, hcu⟩ := h1.nmKeysDone p hp
      rw [h2.nmFrameChrome b.url ⟨c, hcw, by rw [hcu, hpk]⟩, he]
  · -- nmBoth
    intro p hp
    by_cases hpA : p ∈ A1.newMapping
    · obtain ⟨c, hcw, hcu⟩ := h1.nmKeysDone p hpA
      obtain ⟨b, hbA, hbu, hbt⟩ := h1.nmLd p hpA
      exact ⟨⟨c, h2.oldChrome c hcw, hcu⟩, ⟨b, h2.ldEq ▸ hbA, hbu, hbt⟩⟩
    · obtain ⟨c, hc, hcu⟩ := h2.nmNewChrome p hp hpA
      rcases h2.nmNewChar p hp with hp1 | ⟨b, hbdone, hbu⟩
      · exact absurd hp1 hpA
      · have hbw : b ∈ w.ld := (List.mem_filter.mp hbdone).1
        have hbt : b.tagNames.contains T = true := by
          simpa using (List.mem_filter.mp hbdone).2
        exact ⟨⟨c, hc, hcu⟩, ⟨b, h2.ldEq ▸ h1.oldLd b hbw, hbu, hbt⟩⟩

theorem midFacts_establish (T : String) (w : World) (hwf : WF T w) :
    MidFacts T w
      ((taggedLds T w).foldl (phase2Step T w.chrome w.mapping w.now)
        (w.chrome.foldl (phase1Step T (taggedLds T w) w.mapping w.now)
          ⟨w.ld, w.chrome, w.nextLdId, w.nextChromeId, [], 0, 0, 0⟩)) :=
  midFacts_of T w hwf _ (phase1_establishes T w hwf)

theorem chromeSetTitle_trace (l : List ChromeBookmark) (i : Nat) (t : String) :
    ∀ c ∈ chromeSetTitle l i t, ∃ c0 ∈ l, c.id = c0.id ∧ c.url = c0.url ∧
      (c = c0 ∨ c.id = i) := by
  intro c hc
  obtain ⟨c0, hc0, hce⟩ := List.mem_map.mp hc
  by_cases h : c0.id = i
  · refine ⟨c0, hc0, ?_, ?_, Or.inr ?_⟩ <;> rw [← hce] <;> simp [h]
  · refine ⟨c0, hc0, ?_, ?_, Or.inl ?_⟩ <;> rw [← hce] <;> simp [h]

theorem chromeMove_trace (l : List ChromeBookmark) (i : Nat) (p : String) :
    ∀ c ∈ chromeMove l i p, ∃ c0 ∈ l, c.id = c0.id ∧ c.url = c0.url ∧
      (c = c0 ∨ c.id = i) := by
  intro c hc
  obtain ⟨c0, hc0, hce⟩ := List.mem_map.mp hc
  by_cases h : c0.id = i
  · refine ⟨c0, hc0, ?_, ?_, Or.inr ?_⟩ <;> rw [← hce] <;> simp [h]
  · refine ⟨c0, hc0, ?_, ?_, Or.inl ?_⟩ <;> rw [← hce] <;> simp [h]

theorem ldUpdate_trace (l : List LdBookmark) (i : Nat) (url title : String)
    (tags : List String) :
    ∀ b ∈ ldUpdate l i url title tags, ∃ b0 ∈ l, b.id = b0.id ∧ (b = b0 ∨ b.id = i) := by
  intro b hb
  obtain ⟨b0, hb0, hbe⟩ := List.mem_map.mp hb
  by_cases h : b0.id = i
  · refine ⟨b0, hb0, ?_, Or.inr ?_⟩ <;> rw [← hbe] <;> simp [h, ldApplyUpdate]
  · refine ⟨b0, hb0, ?_, Or.inl ?_⟩ <;> rw [← hbe] <;> simp [h]

theorem chrome_write_trace (l : List ChromeBookmark) (cbm : ChromeBookmark) (t p : String) :
    ∀ c ∈ (if p ≠ cbm.folderPath then
            chromeMove (if t ≠ cbm.title then chromeSetTitle l cbm.id t else l) cbm.id p
          else (if t ≠ cbm.title then chromeSetTitle l cbm.id t else l)),
      ∃ c0 ∈ l, c.id = c0.id ∧ c.url = c0.url ∧ (c = c0 ∨ c.id = cbm.id) := by
  have hinner : ∀ c ∈ (if t ≠ cbm.title then chromeSetTitle l cbm.id t else l),
      ∃ c0 ∈ l, c.id = c0.id ∧ c.url = c0.url ∧ (c = c0 ∨ c.id = cbm.id) := by
    by_cases ht : t ≠ cbm.title
    · rw [if_pos ht]
      exact chromeSetTitle_trace l cbm.id t
    · rw [if_neg ht]
      intro c hc
      exact ⟨c, hc, rfl, rfl, Or.inl rfl⟩
  by_cases hp : p ≠ cbm.folderPath
  · rw [if_pos hp]
    intro c hc
    obtain ⟨c1, hc1, hid1, hurl1, hd1⟩ := chromeMove_trace _ cbm.id p c hc
    obtain ⟨c0, hc0, hid0, hurl0, hd0⟩ := hinner c1 hc1
    refine ⟨c0, hc0, hid1.trans hid0, hurl1.trans hurl0, ?_⟩
    rcases hd1 with hd1 | hd1
    · rcases hd0 with hd0 | hd0
      · exact Or.inl (hd1.trans hd0)
      · exact Or.inr (by rw [hd1]; exact hd0)
    · exact Or.inr hd1
  · rw [if_neg hp]
    exact hinner

theorem chrome_write_mem_of_ne (l : List ChromeBookmark) (cbm : ChromeBookmark)
    (t p : String) (b : ChromeBookmark) (hb : b ∈ l) (hne : b.id ≠ cbm.id) :
    b ∈ (if p ≠ cbm.folderPath then
          chromeMove (if t ≠ cbm.title then chromeSetTitle l cbm.id t else l) cbm.id p
        else (if t ≠ cbm.title then chromeSetTitle l cbm.id t else l)) := by
  have hinner : b ∈ (if t ≠ cbm.title then chromeSetTitle l cbm.id t else l) := by
    by_cases ht : t ≠ cbm.title
    · rw [if_pos ht]
      exact mem_chromeSetTitle_of_ne l cbm.id t b hb hne
    · rw [if_neg ht]
      exact hb
  by_cases hp : p ≠ cbm.folderPath
  · rw [if_pos hp]
    exact mem_chromeMove_of_ne _ cbm.id p b hinner hne
  · rw [if_neg hp]
    exact hinner

theorem chrome_write_map_id (l : List ChromeBookmark) (cbm : ChromeBookmark) (t p : String) :
    (if p ≠ cbm.folderPath then
        chromeMove (if t ≠ cbm.title then chromeSetTitle l cbm.id t else l) cbm.id p
      else (if t ≠ cbm.title then chromeSetTitle l cbm.id t else l)).map (fun c => c.id) =
      l.map (fun c => c.id) := by
  have hinner : (if t ≠ cbm.title then chromeSetTitle l cbm.id t else l).map (fun c => c.id) =
      l.map (fun c => c.id) := by
    by_cases ht : t ≠ cbm.title
    · rw [if_pos ht, chromeSetTitle_map_id]
    · rw [if_neg ht]
  by_cases hp : p ≠ cbm.folderPath
  · rw [if_pos hp, chromeMove_map_id, hinner]
  · rw [if_neg hp, hinner]

theorem chrome_write_spec_full (l : List ChromeBookmark) (cbm : ChromeBookmark)
    (t p : String) (hb : cbm ∈ l) :
    ∃ b ∈ (if p ≠ cbm.folderPath then
            chromeMove (if t ≠ cbm.title then chromeSetTitle l cbm.id t else l) cbm.id p
          else (if t ≠ cbm.title then chromeSetTitle l cbm.id t else l)),
      b.id = cbm.id ∧ b.url = cbm.url ∧ b.title = t ∧ b.folderPath = p := by
  have hinner : ∃ b ∈ (if t ≠ cbm.title then chromeSetTitle l cbm.id t else l),
      b.id = cbm.id ∧ b.url = cbm.url ∧ b.title = t ∧ b.folderPath = cbm.folderPath := by
    by_cases ht : t ≠ cbm.title
    · rw [if_pos ht]
      refine ⟨{ cbm with title := t }, ?_, rfl, rfl, rfl, rfl⟩
      unfold chromeSetTitle
      have := List.mem_map_of_mem
        (fun x => if x.id = cbm.id then { x with title := t } else x) hb
      simpa using this
    · rw [if_neg ht]
      rw [not_not] at ht
      exact ⟨cbm, hb, rfl, rfl, ht.symm, rfl⟩
  by_cases hp : p ≠ cbm.folderPath
  · rw [if_pos hp]
    obtain ⟨b, hbm, hid, hurl, ht2, hf⟩ := hinner
    refine ⟨{ b with folderPath := p }, ?_, hid, hurl, ht2, rfl⟩
    unfold chromeMove
    have := List.mem_map_of_mem
      (fun x => if x.id = cbm.id then { x with folderPath := p } else x) hbm
    simpa [hid] using this
  · rw [if_neg hp]
    rw [not_not] at hp
    obtain ⟨b, hbm, hid, hurl, ht2, hf⟩ := hinner
    exact ⟨b, hbm, hid, hurl, ht2, by rw [hf, hp]⟩

theorem chrome_ids_ne_of_urls_ne (cs : List ChromeBookmark)
    (hnd : (cs.map (fun c => c.id)).Nodup) (c1 : ChromeBookmark) (h1 : c1 ∈ cs)
    (c2 : ChromeBookmark) (h2 : c2 ∈ cs) (hu : c1.url ≠ c2.url) : c1.id ≠ c2.id := by
  intro hid
  have := eq_of_mem_of_nodup_map (fun c => c.id) cs hnd c1 h1 c2 h2 hid
  exact hu (by rw [this])

theorem ld_ids_ne_of_urls_ne (ls : List LdBookmark)
    (hnd : (ls.map (fun b => b.id)).Nodup) (b1 : LdBookmark) (h1 : b1 ∈ ls)
    (b2 : LdBookmark) (h2 : b2 ∈ ls) (hu : b1.url ≠ b2.url) : b1.id ≠ b2.id := by
  intro hid
  have := eq_of_mem_of_nodup_map (fun b => b.id) ls hnd b1 h1 b2 h2 hid
  exact hu (by rw [this])

/-- What pass 3 guarantees for one processed mapping entry: present on both
sides, the rewritten stores carry items matching the freshly written entry;
otherwise the key is dropped and the surviving side's item removed. -/
def Post3 (T : String) (w : World) (acc : RunAcc) (q : String × MappingEntry) : Prop :=
  match chromeByUrl w.chrome q.1, ldByUrl (taggedLds T w) q.1 with
  | some cbm, some ld =>
      ∃ e2, lookupEntry acc.newMapping q.1 = some e2 ∧
        (∃ c ∈ acc.chrome, c.id = cbm.id ∧ c.url = q.1 ∧ c.title = e2.title ∧
          c.folderPath = e2.folderPath) ∧
        (∃ b ∈ acc.ld, b.id = ld.id ∧ b.url = q.1 ∧ ldTitleOf b = e2.title ∧
          extractFolderPath T b.tagNames = e2.folderPath ∧ b.tagNames.contains T = true)
  | some cbm, none =>
      lookupEntry acc.newMapping q.1 = none ∧ ∀ c ∈ acc.chrome, c.id ≠ cbm.id
  | none, some ld =>
      lookupEntry acc.newMapping q.1 = none ∧ ∀ b ∈ acc.ld, b.id ≠ ld.id
  | none, none => lookupEntry acc.newMapping q.1 = none

/-- Invariant of pass 3 after processing the persisted entries in `done`,
starting from the pass-2 result `A2`: entries at unmapped keys are untouched,
unprocessed keys are still absent from the new mapping, surviving store items
trace back by id to pass-2 items modified only by their own key's step, items
not hit by any processed step survive unchanged, and each processed key
satisfies its postcondition. -/
structure Inv3 (T : String) (w : World) (A2 : RunAcc)
    (done : List (String × MappingEntry)) (acc : RunAcc) : Prop where
  ldIds : (acc.ld.map (fun b => b.id)).Nodup
  chromeIds : (acc.chrome.map (fun c => c.id)).Nodup
  nmFrame : ∀ k : String, lookupEntry w.mapping k = none →
    lookupEntry acc.newMapping k = lookupEntry A2.newMapping k
  nmTodo : ∀ q : String × MappingEntry, q ∈ w.mapping → q ∉ done →
    lookupEntry acc.newMapping q.1 = none
  nmMem : ∀ p ∈ acc.newMapping, p ∈ A2.newMapping ∨ ∃ q ∈ done, p.1 = q.1
  nmNodup : (acc.newMapping.map (fun p => p.1)).Nodup
  ldTrace : ∀ b ∈ acc.ld, ∃ b0 ∈ A2.ld, b.id = b0.id ∧
    (b = b0 ∨ ∃ q ∈ done, ∃ ld0, ldByUrl (taggedLds T w) q.1 = some ld0 ∧ b0.id = ld0.id)
  ldKept : ∀ b0 ∈ A2.ld,
    (∀ q ∈ done, ∀ ld0, ldByUrl (taggedLds T w) q.1 = some ld0 → b0.id ≠ ld0.id) →
    b0 ∈ acc.ld
  chromeTrace : ∀ c ∈ acc.chrome, ∃ c0 ∈ A2.chrome, c.id = c0.id ∧ c.url = c0.url ∧
    (c = c0 ∨ ∃ q ∈ done, ∃ cbm0, chromeByUrl w.chrome q.1 = some cbm0 ∧ c0.id = cbm0.id)
  chromeKept : ∀ c0 ∈ A2.chrome,
    (∀ q ∈ done, ∀ cbm0, chromeByUrl w.chrome q.1 = some cbm0 → c0.id ≠ cbm0.id) →
    c0 ∈ acc.chrome
  post : ∀ q ∈ done, Post3 T w acc q

/-- `Post3` transfers along a further state change that keeps the entry at the
key, keeps the canonical items of its sides, and introduces no fresh ids. -/
theorem post3_mono (T : String) (w : World) (acc acc2 : RunAcc)
    (q : String × MappingEntry)
    (hnm : lookupEntry acc2.newMapping q.1 = lookupEntry acc.newMapping q.1)
    (hchkeep : ∀ cbm0, chromeByUrl w.chrome q.1 = some cbm0 →
      ∀ c ∈ acc.chrome, c.id = cbm0.id → c ∈ acc2.chrome)
    (hchids : ∀ c ∈ acc2.chrome, ∃ c1 ∈ acc.chrome, c.id = c1.id)
    (hldkeep : ∀ ld0, ldByUrl (taggedLds T w) q.1 = some ld0 →
      ∀ b ∈ acc.ld, b.id = ld0.id → b ∈ acc2.ld)
    (hldids : ∀ b ∈ acc2.ld, ∃ b1 ∈ acc.ld, b.id = b1.id)
    (hpost : Post3 T w acc q) : Post3 T w acc2 q := by
  unfold Post3 at hpost ⊢
  cases hcb : chromeByUrl w.chrome q.1 with
  | some cbm =>
    cases hld : ldByUrl (taggedLds T w) q.1 with
    | some ld =>
      rw [hcb, hld] at hpost
      obtain ⟨e2, he2, ⟨c, hc, hc1, hc2, hc3, hc4⟩, ⟨b, hb, hb1, hb2, hb3, hb4, hb5⟩⟩ := hpost
      exact ⟨e2, by rw [hnm, he2],
        ⟨c, hchkeep cbm hcb c hc hc1, hc1, hc2, hc3, hc4⟩,
        ⟨b, hldkeep ld hld b hb hb1, hb1, hb2, hb3, hb4, hb5⟩⟩
    | none =>
      rw [hcb, hld] at hpost
      refine ⟨by rw [hnm]; exact hpost.1, ?_⟩
      intro c hc
      obtain ⟨c1, hc1, hce⟩ := hchids c hc
      rw [hce]
      exact hpost.2 c1 hc1
  | none =>
    cases hld : ldByUrl (taggedLds T w) q.1 with
    | some ld =>
      rw [hcb, hld] at hpost
      refine ⟨by rw [hnm]; exact hpost.1, ?_⟩
      intro b hb
      obtain ⟨b1, hb1, hbe⟩ := hldids b hb
      rw [hbe]
      exact hpost.2 b1 hb1
    | none =>
      rw [hcb, hld] at hpost
      rw [hnm]
      exact hpost

/-- Extending the pass-3 invariant over a both-present step, given the
rewritten stores `L`/`C`, the merged entry `v` written at the key, and the
facts pass 3 needs about them. -/
theorem inv3_extend_both (T : String) (w : World) (hwf : WF T w) (A2 : RunAcc)
    (done : List (String × MappingEntry)) (acc : RunAcc)
    (u : String) (e : MappingEntry) (rest : List (String × MappingEntry))
    (hsplit : w.mapping = done ++ (u, e) :: rest)
    (hinv : Inv3 T w A2 done acc)
    (cbm0 : ChromeBookmark) (ld0 : LdBookmark)
    (hcb : chromeByUrl w.chrome u = some cbm0)
    (hld : ldByUrl (taggedLds T w) u = some ld0)
    (L : List LdBookmark) (C : List ChromeBookmark) (v : MappingEntry) (n : Nat)
    (hLtrace : ∀ b ∈ L, ∃ b1 ∈ acc.ld, b.id = b1.id ∧ (b = b1 ∨ b.id = ld0.id))
    (hLkeep : ∀ b ∈ acc.ld, b.id ≠ ld0.id → b ∈ L)
    (hLids : L.map (fun b => b.id) = acc.ld.map (fun b => b.id))
    (hCtrace : ∀ c ∈ C, ∃ c1 ∈ acc.chrome, c.id = c1.id ∧ c.url = c1.url ∧
      (c = c1 ∨ c.id = cbm0.id))
    (hCkeep : ∀ c ∈ acc.chrome, c.id ≠ cbm0.id → c ∈ C)
    (hCids : C.map (fun c => c.id) = acc.chrome.map (fun c => c.id))
    (hCanC : ∃ c ∈ C, c.id = cbm0.id ∧ c.url = u ∧ c.title = v.title ∧
      c.folderPath = v.folderPath)
    (hCanL : ∃ b ∈ L, b.id = ld0.id ∧ b.url = u ∧ ldTitleOf b = v.title ∧
      extractFolderPath T b.tagNames = v.folderPath ∧ b.tagNames.contains T = true) :
    Inv3 T w A2 (done ++ [(u, e)])
      ⟨L, C, acc.nextLdId, acc.nextChromeId, mapSet acc.newMapping u v,
        acc.added, acc.removed, n⟩ := by
  have hq_m0 : (u, e) ∈ w.mapping := by
    rw [hsplit]; exact List.mem_append_right _ (List.mem_cons_self _ _)
  have hkeysne0 := nodup_map_split_ne (fun p => p.1) w.mapping done rest (u, e) hsplit
    hwf.mappingKeysNodup
  have hkeysne : ∀ p ∈ done, p.1 ≠ u := fun p hp => hkeysne0.1 p hp
  have hrestne : ∀ p ∈ rest, p.1 ≠ u := fun p hp => hkeysne0.2 p hp
  have hq_not_done : (u, e) ∉ done := fun hd => hkeysne (u, e) hd rfl
  have hulook : lookupEntry acc.newMapping u = none := hinv.nmTodo (u, e) hq_m0 hq_not_done
  have humapped : lookupEntry w.mapping u ≠ none :=
    lookupEntry_isSome_of_mem w.mapping (u, e) hq_m0
  have hcbs := chromeByUrl_some w.chrome u cbm0 hcb
  have hlds := ldByUrl_some (taggedLds T w) u ld0 hld
  have hld0w : ld0 ∈ w.ld := (List.mem_filter.mp hlds.1).1
  refine ⟨?_, ?_, ?_, ?_, ?_, ?_, ?_, ?_, ?_, ?_, ?_⟩
  · show (L.map (fun b => b.id)).Nodup
    rw [hLids]; exact hinv.ldIds
  · show (C.map (fun c => c.id)).Nodup
    rw [hCids]; exact hinv.chromeIds
  · -- nmFrame
    intro k hk
    show lookupEntry (mapSet acc.newMapping u v) k = lookupEntry A2.newMapping k
    rw [lookupEntry_mapSet_ne acc.newMapping u k v ?_]
    · exact hinv.nmFrame k hk
    · intro hku; rw [hku] at hk; exact humapped hk
  · -- nmTodo
    intro q2 hq2 hq2nd
    have hq2d : q2 ∉ done := fun hx => hq2nd (List.mem_append_left _ hx)
    have hq2ne : q2 ≠ (u, e) := fun hx =>
      hq2nd (List.mem_append_right _ (by rw [hx]; exact List.mem_singleton.mpr rfl))
    have hq2rest : q2 ∈ rest := by
      rw [hsplit] at hq2
      rcases List.mem_append.mp hq2 with h | h
      · exact absurd h hq2d
      · rcases List.mem_cons.mp h with h | h
        · exact absurd h hq2ne
        · exact h
    show lookupEntry (mapSet acc.newMapping u v) q2.1 = none
    rw [lookupEntry_mapSet_ne acc.newMapping u q2.1 v (hrestne q2 hq2rest)]
    exact hinv.nmTodo q2 hq2 hq2d
  · -- nmMem
    intro p hp
    rcases mem_mapSet acc.newMapping u v p hp with hp | hp
    · rcases hinv.nmMem p hp with h | ⟨q2, hq2, hq2e⟩
      · exact Or.inl h
      · exact Or.inr ⟨q2, List.mem_append_left _ hq2, hq2e⟩
    · exact Or.inr ⟨(u, e), List.mem_append_right _ (List.mem_singleton.mpr rfl), hp⟩
  · -- nmNodup
    exact nodup_keys_mapSet_new acc.newMapping u v hinv.nmNodup hulook
  · -- ldTrace
    intro b hb
    obtain ⟨b1, hb1, hbid, hbd⟩ := hLtrace b hb
    obtain ⟨b0, hb0, hb1id, hb1d⟩ := hinv.ldTrace b1 hb1
    refine ⟨b0, hb0, hbid.trans hb1id, ?_⟩
    rcases hbd with hbd | hbd
    · rcases hb1d with hb1d | ⟨q2, hq2, ld1, hld1, hid1⟩
      · exact Or.inl (hbd.trans hb1d)
      · exact Or.inr ⟨q2, List.mem_append_left _ hq2, ld1, hld1, hid1⟩
    · refine Or.inr ⟨(u, e), List.mem_append_right _ (List.mem_singleton.mpr rfl), ld0,
        hld, ?_⟩
      rw [← hb1id, ← hbid]
      exact hbd
  · -- ldKept
    intro b0 hb0 hexcl
    have hb0acc : b0 ∈ acc.ld :=
      hinv.ldKept b0 hb0 (fun q2 hq2 => hexcl q2 (List.mem_append_left _ hq2))
    exact hLkeep b0 hb0acc
      (hexcl (u, e) (List.mem_append_right _ (List.mem_singleton.mpr rfl)) ld0 hld)
  · -- chromeTrace
    intro c hc
    obtain ⟨c1, hc1, hcid, hcurl, hcd⟩ := hCtrace c hc
    obtain ⟨c0, hc0, hc1id, hc1url, hc1d⟩ := hinv.chromeTrace c1 hc1
    refine ⟨c0, hc0, hcid.trans hc1id, hcurl.trans hc1url, ?_⟩
    rcases hcd with hcd | hcd
    · rcases hc1d with hc1d | ⟨q2, hq2, cbm1, hcb1, hid1⟩
      · exact Or.inl (hcd.trans hc1d)
      · exact Or.inr ⟨q2, List.mem_append_left _ hq2, cbm1, hcb1, hid1⟩
    · refine Or.inr ⟨(u, e), List.mem_append_right _ (List.mem_singleton.mpr rfl), cbm0,
        hcb, ?_⟩
      rw [← hc1id, ← hcid]
      exact hcd
  · -- chromeKept
    intro c0 hc0 hexcl
    have hc0acc : c0 ∈ acc.chrome :=
      hinv.chromeKept c0 hc0 (fun q2 hq2 => hexcl q2 (List.mem_append_left _ hq2))
    exact hCkeep c0 hc0acc
      (hexcl (u, e) (List.mem_append_right _ (List.mem_singleton.mpr rfl)) cbm0 hcb)
  · -- post
    intro q2 hq2
    rcases List.mem_append.mp hq2 with hq2 | hq2
    · have hkne : q2.1 ≠ u := hkeysne q2 hq2
      apply post3_mono T w acc _ q2 ?_ ?_ ?_ ?_ ?_ (hinv.post q2 hq2)
      · show lookupEntry (mapSet acc.newMapping u v) q2.1 = lookupEntry acc.newMapping q2.1
        exact lookupEntry_mapSet_ne acc.newMapping u q2.1 v hkne
      · intro cbm1 hcb1 c hc hcid
        apply hCkeep c hc
        rw [hcid]
        have hc1s := chromeByUrl_some w.chrome q2.1 cbm1 hcb1
        exact chrome_ids_ne_of_urls_ne w.chrome hwf.chromeIdsNodup cbm1 hc1s.1 cbm0 hcbs.1
          (by rw [hc1s.2, hcbs.2]; exact hkne)
      · intro c hc
        obtain ⟨c1, hc1, hcid, _, _⟩ := hCtrace c hc
        exact ⟨c1, hc1, hcid⟩
      · intro ld1 hld1 b hb hbid
        apply hLkeep b hb
        rw [hbid]
        have hl1s := ldByUrl_some (taggedLds T w) q2.1 ld1 hld1
        have hl1w : ld1 ∈ w.ld := (List.mem_filter.mp hl1s.1).1
        exact ld_ids_ne_of_urls_ne w.ld hwf.ldIdsNodup ld1 hl1w ld0 hld0w
          (by rw [hl1s.2, hlds.2]; exact hkne)
      · intro b hb
        obtain ⟨b1, hb1, hbid, _⟩ := hLtrace b hb
        exact ⟨b1, hb1, hbid⟩
    · rw [List.mem_singleton] at hq2
      subst hq2
      show Post3 T w
        ⟨L, C, acc.nextLdId, acc.nextChromeId, mapSet acc.newMapping u v,
          acc.added, acc.removed, n⟩ (u, e)
      simp only [Post3, hcb, hld]
      exact ⟨v, lookupEntry_mapSet_self acc.newMapping u v, hCanC, hCanL⟩

theorem bool_eq_false_of_ne_true (b : Bool) (h : ¬b = true) : b = false := by
  cases b
  · rfl
  · exact absurd rfl h

theorem bool_or_eq_false (a b : Bool) (h : (a || b) = false) : a = false ∧ b = false := by
  cases a <;> cases b <;> simp_all

/-- Extending the pass-3 invariant over a step whose key is gone from both
sides: only the `removed` counter changes. -/
theorem inv3_extend_none (T : String) (w : World) (hwf : WF T w) (A2 : RunAcc)
    (done : List (String × MappingEntry)) (acc : RunAcc)
    (u : String) (e : MappingEntry) (rest : List (String × MappingEntry))
    (hsplit : w.mapping = done ++ (u, e) :: rest)
    (hinv : Inv3 T w A2 done acc)
    (hcb : chromeByUrl w.chrome u = none) (hld : ldByUrl (taggedLds T w) u = none) :
    Inv3 T w A2 (done ++ [(u, e)]) { acc with removed := acc.removed + 1 } := by
  have hq_m0 : (u, e) ∈ w.mapping := by
    rw [hsplit]; exact List.mem_append_right _ (List.mem_cons_self _ _)
  have hkeysne0 := nodup_map_split_ne (fun p => p.1) w.mapping done rest (u, e) hsplit
    hwf.mappingKeysNodup
  have hq_not_done : (u, e) ∉ done := fun hd => hkeysne0.1 (u, e) hd rfl
  have hulook : lookupEntry acc.newMapping u = none := hinv.nmTodo (u, e) hq_m0 hq_not_done
  refine ⟨hinv.ldIds, hinv.chromeIds, hinv.nmFrame, ?_, ?_, hinv.nmNodup, ?_, ?_, ?_, ?_, ?_⟩
  · intro q2 hq2 hq2nd
    exact hinv.nmTodo q2 hq2 (fun hx => hq2nd (List.mem_append_left _ hx))
  · intro p hp
    rcases hinv.nmMem p hp with h | ⟨q2, hq2, he2⟩
    · exact Or.inl h
    · exact Or.inr ⟨q2, List.mem_append_left _ hq2, he2⟩
  · intro b hb
    obtain ⟨b0, hb0, hid, hd⟩ := hinv.ldTrace b hb
    refine ⟨b0, hb0, hid, ?_⟩
    rcases hd with hd | ⟨q2, hq2, ld1, h1, h2⟩
    · exact Or.inl hd
    · exact Or.inr ⟨q2, List.mem_append_left _ hq2, ld1, h1, h2⟩
  · intro b0 hb0 hexcl
    exact hinv.ldKept b0 hb0 (fun q2 hq2 => hexcl q2 (List.mem_append_left _ hq2))
  · intro c hc
    obtain ⟨c0, hc0, hid, hurl, hd⟩ := hinv.chromeTrace c hc
    refine ⟨c0, hc0, hid, hurl, ?_⟩
    rcases hd with hd | ⟨q2, hq2, cbm1, h1, h2⟩
    · exact Or.inl hd
    · exact Or.inr ⟨q2, List.mem_append_left _ hq2, cbm1, h1, h2⟩
  · intro c0 hc0 hexcl
    exact hinv.chromeKept c0 hc0 (fun q2 hq2 => hexcl q2 (List.mem_append_left _ hq2))
  · intro q2 hq2
    rcases List.mem_append.mp hq2 with hq2 | hq2
    · exact hinv.post q2 hq2
    · rw [List.mem_singleton] at hq2
      subst hq2
      show Post3 T w { acc with removed := acc.removed + 1 } (u, e)
      simp only [Post3, hcb, hld]
      exact hulook

/-- Extending the pass-3 invariant over a step whose key is present only on
the remote side: the remote item is deleted and the entry dropped. -/
theorem inv3_extend_ldonly (T : String) (w : World) (hwf : WF T w) (A2 : RunAcc)
    (done : List (String × MappingEntry)) (acc : RunAcc)
    (u : String) (e : MappingEntry) (rest : List (String × MappingEntry))
    (hsplit : w.mapping = done ++ (u, e) :: rest)
    (hinv : Inv3 T w A2 done acc) (ld0 : LdBookmark)
    (hcb : chromeByUrl w.chrome u = none) (hld : ldByUrl (taggedLds T w) u = some ld0) :
    Inv3 T w A2 (done ++ [(u, e)])
      { acc with ld := ldDelete acc.ld ld0.id, removed := acc.removed + 1 } := by
  have hq_m0 : (u, e) ∈ w.mapping := by
    rw [hsplit]; exact List.mem_append_right _ (List.mem_cons_self _ _)
  have hkeysne0 := nodup_map_split_ne (fun p => p.1) w.mapping done rest (u, e) hsplit
    hwf.mappingKeysNodup
  have hkeysne : ∀ p ∈ done, p.1 ≠ u := fun p hp => hkeysne0.1 p hp
  have hq_not_done : (u, e) ∉ done := fun hd => hkeysne (u, e) hd rfl
  have hulook : lookupEntry acc.newMapping u = none := hinv.nmTodo (u, e) hq_m0 hq_not_done
  have hlds := ldByUrl_some (taggedLds T w) u ld0 hld
  have hld0w : ld0 ∈ w.ld := (List.mem_filter.mp hlds.1).1
  refine ⟨?_, hinv.chromeIds, hinv.nmFrame, ?_, ?_, hinv.nmNodup, ?_, ?_, ?_, ?_, ?_⟩
  · exact nodup_ids_ldDelete acc.ld ld0.id hinv.ldIds
  · intro q2 hq2 hq2nd
    exact hinv.nmTodo q2 hq2 (fun hx => hq2nd (List.mem_append_left _ hx))
  · intro p hp
    rcases hinv.nmMem p hp with h | ⟨q2, hq2, he2⟩
    · exact Or.inl h
    · exact Or.inr ⟨q2, List.mem_append_left _ hq2, he2⟩
  · -- ldTrace
    intro b hb
    obtain ⟨hb1, _⟩ := (mem_ldDelete acc.ld ld0.id b).mp hb
    obtain ⟨b0, hb0, hid, hd⟩ := hinv.ldTrace b hb1
    refine ⟨b0, hb0, hid, ?_⟩
    rcases hd with hd | ⟨q2, hq2, ld1, h1, h2⟩
    · exact Or.inl hd
    · exact Or.inr ⟨q2, List.mem_append_left _ hq2, ld1, h1, h2⟩
  · -- ldKept
    intro b0 hb0 hexcl
    have hb0acc : b0 ∈ acc.ld :=
      hinv.ldKept b0 hb0 (fun q2 hq2 => hexcl q2 (List.mem_append_left _ hq2))
    exact mem_ldDelete_of_ne acc.ld ld0.id b0 hb0acc
      (hexcl (u, e) (List.mem_append_right _ (List.mem_singleton.mpr rfl)) ld0 hld)
  · intro c hc
    obtain ⟨c0, hc0, hid, hurl, hd⟩ := hinv.chromeTrace c hc
    refine ⟨c0, hc0, hid, hurl, ?_⟩
    rcases hd with hd | ⟨q2, hq2, cbm1, h1, h2⟩
    · exact Or.inl hd
    · exact Or.inr ⟨q2, List.mem_append_left _ hq2, cbm1, h1, h2⟩
  · intro c0 hc0 hexcl
    exact hinv.chromeKept c0 hc0 (fun q2 hq2 => hexcl q2 (List.mem_append_left _ hq2))
  · intro q2 hq2
    rcases List.mem_append.mp hq2 with hq2 | hq2
    · apply post3_mono T w acc _ q2 ?_ ?_ ?_ ?_ ?_ (hinv.post q2 hq2)
      · rfl
      · exact fun _ _ c hc _ => hc
      · exact fun c hc => ⟨c, hc, rfl⟩
      · intro ld1 hld1 b hb hbid
        have hl1s := ldByUrl_some (taggedLds T w) q2.1 ld1 hld1
        have hl1w : ld1 ∈ w.ld := (List.mem_filter.mp hl1s.1).1
        apply mem_ldDelete_of_ne acc.ld ld0.id b hb
        rw [hbid]
        exact ld_ids_ne_of_urls_ne w.ld hwf.ldIdsNodup ld1 hl1w ld0 hld0w
          (by rw [hl1s.2, hlds.2]; exact hkeysne q2 hq2)
      · exact fun b hb => ⟨b, ((mem_ldDelete acc.ld ld0.id b).mp hb).1, rfl⟩
    · rw [List.mem_singleton] at hq2
      subst hq2
      show Post3 T w
        { acc with ld := ldDelete acc.ld ld0.id, removed := acc.removed + 1 }
        (u, e)
      simp only [Post3, hcb, hld]
      exact ⟨hulook, fun b hb => ((mem_ldDelete acc.ld ld0.id b).mp hb).2⟩

/-- Extending the pass-3 invariant over a step whose key is present only
locally: the local bookmark carrying the entry's `chromeId` is removed and
the entry dropped. -/
theorem inv3_extend_chromeonly (T : String) (w : World) (hwf : WF T w) (A2 : RunAcc)
    (done : List (String × MappingEntry)) (acc : RunAcc)
    (u : String) (e : MappingEntry) (rest : List (String × MappingEntry))
    (hsplit : w.mapping = done ++ (u, e) :: rest)
    (hinv : Inv3 T w A2 done acc) (cbm0 : ChromeBookmark)
    (hcb : chromeByUrl w.chrome u = some cbm0) (hld : ldByUrl (taggedLds T w) u = none) :
    Inv3 T w A2 (done ++ [(u, e)])
      { acc with chrome := chromeRemove acc.chrome e.chromeId, removed := acc.removed + 1 } := by
  have hq_m0 : (u, e) ∈ w.mapping := by
    rw [hsplit]; exact List.mem_append_right _ (List.mem_cons_self _ _)
  have hkeysne0 := nodup_map_split_ne (fun p => p.1) w.mapping done rest (u, e) hsplit
    hwf.mappingKeysNodup
  have hkeysne : ∀ p ∈ done, p.1 ≠ u := fun p hp => hkeysne0.1 p hp
  have hq_not_done : (u, e) ∉ done := fun hd => hkeysne (u, e) hd rfl
  have hulook : lookupEntry acc.newMapping u = none := hinv.nmTodo (u, e) hq_m0 hq_not_done
  have hcbs := chromeByUrl_some w.chrome u cbm0 hcb
  have hbind : cbm0.id = e.chromeId := hwf.mappingBinds (u, e) hq_m0 cbm0 hcbs.1 hcbs.2
  refine ⟨hinv.ldIds, ?_, hinv.nmFrame, ?_, ?_, hinv.nmNodup, ?_, ?_, ?_, ?_, ?_⟩
  · exact nodup_ids_chromeRemove acc.chrome e.chromeId hinv.chromeIds
  · intro q2 hq2 hq2nd
    exact hinv.nmTodo q2 hq2 (fun hx => hq2nd (List.mem_append_left _ hx))
  · intro p hp
    rcases hinv.nmMem p hp with h | ⟨q2, hq2, he2⟩
    · exact Or.inl h
    · exact Or.inr ⟨q2, List.mem_append_left _ hq2, he2⟩
  · intro b hb
    obtain ⟨b0, hb0, hid, hd⟩ := hinv.ldTrace b hb
    refine ⟨b0, hb0, hid, ?_⟩
    rcases hd with hd | ⟨q2, hq2, ld1, h1, h2⟩
    · exact Or.inl hd
    · exact Or.inr ⟨q2, List.mem_append_left _ hq2, ld1, h1, h2⟩
  · intro b0 hb0 hexcl
    exact hinv.ldKept b0 hb0 (fun q2 hq2 => hexcl q2 (List.mem_append_left _ hq2))
  · -- chromeTrace
    intro c hc
    obtain ⟨hc1, _⟩ := (mem_chromeRemove acc.chrome e.chromeId c).mp hc
    obtain ⟨c0, hc0, hid, hurl, hd⟩ := hinv.chromeTrace c hc1
    refine ⟨c0, hc0, hid, hurl, ?_⟩
    rcases hd with hd | ⟨q2, hq2, cbm1, h1, h2⟩
    · exact Or.inl hd
    · exact Or.inr ⟨q2, List.mem_append_left _ hq2, cbm1, h1, h2⟩
  · -- chromeKept
    intro c0 hc0 hexcl
    have hc0acc : c0 ∈ acc.chrome :=
      hinv.chromeKept c0 hc0 (fun q2 hq2 => hexcl q2 (List.mem_append_left _ hq2))
    apply mem_chromeRemove_of_ne acc.chrome e.chromeId c0 hc0acc
    rw [← hbind]
    exact hexcl (u, e) (List.mem_append_right _ (List.mem_singleton.mpr rfl)) cbm0 hcb
  · intro q2 hq2
    rcases List.mem_append.mp hq2 with hq2 | hq2
    · apply post3_mono T w acc _ q2 ?_ ?_ ?_ ?_ ?_ (hinv.post q2 hq2)
      · rfl
      · intro cbm1 hcb1 c hc hcid
        have hc1s := chromeByUrl_some w.chrome q2.1 cbm1 hcb1
        apply mem_chromeRemove_of_ne acc.chrome e.chromeId c hc
        rw [hcid, ← hbind]
        exact chrome_ids_ne_of_urls_ne w.chrome hwf.chromeIdsNodup cbm1 hc1s.1 cbm0 hcbs.1
          (by rw [hc1s.2, hcbs.2]; exact hkeysne q2 hq2)
      · exact fun c hc => ⟨c, ((mem_chromeRemove acc.chrome e.chromeId c).mp hc).1, rfl⟩
      · exact fun _ _ b hb _ => hb
      · exact fun b hb => ⟨b, hb, rfl⟩
    · rw [List.mem_singleton] at hq2
      subst hq2
      show Post3 T w
        { acc with chrome := chromeRemove acc.chrome e.chromeId, removed := acc.removed + 1 }
        (u, e)
      simp only [Post3, hcb, hld]
      refine ⟨hulook, ?_⟩
      intro c hc hcid
      exact ((mem_chromeRemove acc.chrome e.chromeId c).mp hc).2 (hcid.trans hbind)

/-- Pass 3 establishes its invariant over the whole persisted mapping. -/
theorem phase3_establishes (T : String) (w : World) (hwf : WF T w) (A2 : RunAcc)
    (hmid : MidFacts T w A2) :
    Inv3 T w A2 w.mapping
      (w.mapping.foldl (phase3Step T (taggedLds T w) w.chrome w.now) A2) := by
  have hinit : Inv3 T w A2 [] A2 := by
    refine ⟨hmid.ldIds, hmid.chromeIds, fun k _ => rfl, ?_, fun p hp => Or.inl hp,
      hmid.nmNodup, fun b hb => ⟨b, hb, rfl, Or.inl rfl⟩, fun b0 hb0 _ => hb0,
      fun c hc => ⟨c, hc, rfl, rfl, Or.inl rfl⟩, fun c0 hc0 _ => hc0, ?_⟩
    · intro q hq _
      cases hl : lookupEntry A2.newMapping q.1 with
      | none => rfl
      | some v =>
        have hp := mem_of_lookupEntry_some A2.newMapping q.1 v hl
        exact absurd (hmid.nmKeys (q.1, v) hp) (lookupEntry_isSome_of_mem w.mapping q hq)
    · intro q hq; cases hq
  have hstep : ∀ done acc q rest, w.mapping = done ++ q :: rest →
      Inv3 T w A2 done acc →
      Inv3 T w A2 (done ++ [q]) (phase3Step T (taggedLds T w) w.chrome w.now acc q) := by
    intro done acc q rest hsplit hinv
    obtain ⟨u, e⟩ := q
    cases hcb : chromeByUrl w.chrome u with
    | none =>
      cases hld : ldByUrl (taggedLds T w) u with
      | none =>
        rw [phase3Step_none_none T (taggedLds T w) w.chrome w.now acc u e hcb hld]
        exact inv3_extend_none T w hwf A2 done acc u e rest hsplit hinv hcb hld
      | some ld0 =>
        rw [phase3Step_ld_only T (taggedLds T w) w.chrome w.now acc u e ld0 hcb hld]
        exact inv3_extend_ldonly T w hwf A2 done acc u e rest hsplit hinv ld0 hcb hld
    | some cbm0 =>
      cases hld : ldByUrl (taggedLds T w) u with
      | none =>
        rw [phase3Step_chrome_only T (taggedLds T w) w.chrome w.now acc u e cbm0 hcb hld]
        exact inv3_extend_chromeonly T w hwf A2 done acc u e rest hsplit hinv cbm0 hcb hld
      | some ld0 =>
        rw [phase3Step_both T (taggedLds T w) w.chrome w.now acc u e cbm0 ld0 hcb hld,
          phase3Both_eq]
        have hkeysne0 := nodup_map_split_ne (fun p => p.1) w.mapping done rest (u, e)
          hsplit hwf.mappingKeysNodup
        have hkeysne : ∀ p ∈ done, p.1 ≠ u := fun p hp => hkeysne0.1 p hp
        have hcbs := chromeByUrl_some w.chrome u cbm0 hcb
        have hlds := ldByUrl_some (taggedLds T w) u ld0 hld
        have hld0w : ld0 ∈ w.ld := (List.mem_filter.mp hlds.1).1
        have hcbm0acc : cbm0 ∈ acc.chrome := by
          apply hinv.chromeKept cbm0 (hmid.oldChrome cbm0 hcbs.1)
          intro q2 hq2 cbm1 hcb1
          have hc1s := chromeByUrl_some w.chrome q2.1 cbm1 hcb1
          exact chrome_ids_ne_of_urls_ne w.chrome hwf.chromeIdsNodup cbm0 hcbs.1 cbm1 hc1s.1
            (by rw [hcbs.2, hc1s.2]; exact Ne.symm (hkeysne q2 hq2))
        have hld0acc : ld0 ∈ acc.ld := by
          apply hinv.ldKept ld0 (hmid.oldLd ld0 hld0w)
          intro q2 hq2 ld1 hld1
          have hl1s := ldByUrl_some (taggedLds T w) q2.1 ld1 hld1
          have hl1w : ld1 ∈ w.ld := (List.mem_filter.mp hl1s.1).1
          exact ld_ids_ne_of_urls_ne w.ld hwf.ldIdsNodup ld0 hld0w ld1 hl1w
            (by rw [hlds.2, hl1s.2]; exact Ne.symm (hkeysne q2 hq2))
        have hctne : cbm0.title ≠ "" := hwf.chromeTitles cbm0 hcbs.1
        have hltne : ldTitleOf ld0 ≠ "" := ldTitleOf_ne_empty ld0 (hwf.taggedUrls ld0 hlds.1)
        have htag : ld0.tagNames.contains T = true := by
          simpa using (List.mem_filter.mp hlds.1).2
        set rt := resolveTitle e cbm0.title (ldTitleOf ld0) (ld0.dateModified.getD 0)
          with hrtdef
        set rp := resolvePath e.folderPath cbm0.folderPath (extractFolderPath T ld0.tagNames)
          with hrpdef
        have hrtne : rt.1 ≠ "" := by
          rcases resolveTitle_fst_cases e cbm0.title (ldTitleOf ld0) (ld0.dateModified.getD 0)
            with h | h
          · rw [hrtdef, h]; exact hctne
          · rw [hrtdef, h]; exact hltne
        apply inv3_extend_both T w hwf A2 done acc u e rest hsplit hinv cbm0 ld0 hcb hld
        · -- hLtrace
          by_cases hNL : (rt.2.1 || rp.2.1) = true
          · rw [if_pos hNL]
            exact ldUpdate_trace acc.ld ld0.id ld0.url rt.1 (rewriteTags T rp.1 ld0.tagNames)
          · rw [if_neg hNL]
            exact fun b hb => ⟨b, hb, rfl, Or.inl rfl⟩
        · -- hLkeep
          by_cases hNL : (rt.2.1 || rp.2.1) = true
          · rw [if_pos hNL]
            exact fun b hb hne => mem_ldUpdate_of_ne acc.ld ld0.id ld0.url rt.1
              (rewriteTags T rp.1 ld0.tagNames) b hb hne
          · rw [if_neg hNL]
            exact fun b hb _ => hb
        · -- hLids
          by_cases hNL : (rt.2.1 || rp.2.1) = true
          · rw [if_pos hNL]
            exact ldUpdate_map_id acc.ld ld0.id ld0.url rt.1 (rewriteTags T rp.1 ld0.tagNames)
          · rw [if_neg hNL]
        · -- hCtrace
          by_cases hNC : (rt.2.2 || rp.2.2) = true
          · rw [if_pos hNC]
            exact chrome_write_trace acc.chrome cbm0 rt.1 rp.1
          · rw [if_neg hNC]
            exact fun c hc => ⟨c, hc, rfl, rfl, Or.inl rfl⟩
        · -- hCkeep
          by_cases hNC : (rt.2.2 || rp.2.2) = true
          · rw [if_pos hNC]
            exact fun c hc hne => chrome_write_mem_of_ne acc.chrome cbm0 rt.1 rp.1 c hc hne
          · rw [if_neg hNC]
            exact fun c hc _ => hc
        · -- hCids
          by_cases hNC : (rt.2.2 || rp.2.2) = true
          · rw [if_pos hNC]
            exact chrome_write_map_id acc.chrome cbm0 rt.1 rp.1
          · rw [if_neg hNC]
        · -- hCanC
          by_cases hNC : (rt.2.2 || rp.2.2) = true
          · rw [if_pos hNC, if_neg (show ¬(((rt.2.1 || rp.2.1) = false) ∧ ((rt.2.2 || rp.2.2) = false)) from fun hx => Bool.noConfusion (hx.2 ▸ hNC))]
            obtain ⟨c, hcm, hcid, hcurl, hct, hcf⟩ :=
              chrome_write_spec_full acc.chrome cbm0 rt.1 rp.1 hcbm0acc
            exact ⟨c, hcm, hcid, by rw [hcurl, hcbs.2], hct, hcf⟩
          · rw [if_neg hNC]
            have hNC0 := bool_eq_false_of_ne_true _ hNC
            obtain ⟨h22, hp22⟩ := bool_or_eq_false _ _ hNC0
            have hti : rt.1 = cbm0.title := by
              rw [hrtdef]
              exact resolveTitle_fst_of_chrome_flag_false e cbm0.title (ldTitleOf ld0)
                (ld0.dateModified.getD 0) (by rw [← hrtdef]; exact h22)
            have hfi : rp.1 = cbm0.folderPath := by
              rw [hrpdef]
              exact resolvePath_fst_of_chrome_flag_false e.folderPath cbm0.folderPath
                (extractFolderPath T ld0.tagNames) (by rw [← hrpdef]; exact hp22)
            by_cases hNL : (rt.2.1 || rp.2.1) = true
            · rw [if_neg (show ¬(((rt.2.1 || rp.2.1) = false) ∧ ((rt.2.2 || rp.2.2) = false)) from fun hx => Bool.noConfusion (hx.1 ▸ hNL))]
              exact ⟨cbm0, hcbm0acc, rfl, hcbs.2, hti.symm, hfi.symm⟩
            · have hNL0 := bool_eq_false_of_ne_true _ hNL
              rw [if_pos ⟨hNL0, hNC0⟩]
              obtain ⟨h21, hp21⟩ := bool_or_eq_false _ _ hNL0
              have hflag := (resolveTitle_flags e cbm0.title (ldTitleOf ld0)
                (ld0.dateModified.getD 0)).mp
                ⟨by rw [← hrtdef]; exact h21, by rw [← hrtdef]; exact h22⟩
              exact ⟨cbm0, hcbm0acc, rfl, hcbs.2, hflag.1, rfl⟩
        · -- hCanL
          by_cases hNL : (rt.2.1 || rp.2.1) = true
          · rw [if_pos hNL, if_neg (show ¬(((rt.2.1 || rp.2.1) = false) ∧ ((rt.2.2 || rp.2.2) = false)) from fun hx => Bool.noConfusion (hx.1 ▸ hNL))]
            refine ⟨ldApplyUpdate ld0 ld0.url rt.1 (rewriteTags T rp.1 ld0.tagNames),
              mem_ldUpdate_self acc.ld ld0.url rt.1 (rewriteTags T rp.1 ld0.tagNames)
                ld0 hld0acc, rfl, ?_, ?_, ?_, ?_⟩
            · rw [ldApplyUpdate_url, ite_self]
              exact hlds.2
            · show ldTitleOf (ldApplyUpdate ld0 ld0.url rt.1
                (rewriteTags T rp.1 ld0.tagNames)) = rt.1
              simp [ldTitleOf, ldApplyUpdate_title, hrtne]
            · show extractFolderPath T (ldApplyUpdate ld0 ld0.url rt.1
                (rewriteTags T rp.1 ld0.tagNames)).tagNames = rp.1
              rw [ldApplyUpdate_tagNames]
              exact extract_rewriteTags T rp.1 ld0.tagNames
            · show (ldApplyUpdate ld0 ld0.url rt.1
                (rewriteTags T rp.1 ld0.tagNames)).tagNames.contains T = true
              rw [ldApplyUpdate_tagNames]
              exact (contains_iff_mem_str _ T).mpr
                (List.mem_append_left _ (syncTag_mem_buildTagsForPath T rp.1))
          · rw [if_neg hNL]
            have hNL0 := bool_eq_false_of_ne_true _ hNL
            obtain ⟨h21, hp21⟩ := bool_or_eq_false _ _ hNL0
            have hti : rt.1 = ldTitleOf ld0 := by
              rw [hrtdef]
              exact resolveTitle_fst_of_ld_flag_false e cbm0.title (ldTitleOf ld0)
                (ld0.dateModified.getD 0) (by rw [← hrtdef]; exact h21)
            have hfi : rp.1 = extractFolderPath T ld0.tagNames := by
              rw [hrpdef]
              exact resolvePath_fst_of_ld_flag_false e.folderPath cbm0.folderPath
                (extractFolderPath T ld0.tagNames) (by rw [← hrpdef]; exact hp21)
            by_cases hNC : (rt.2.2 || rp.2.2) = true
            · rw [if_neg (show ¬(((rt.2.1 || rp.2.1) = false) ∧ ((rt.2.2 || rp.2.2) = false)) from fun hx => Bool.noConfusion (hx.2 ▸ hNC))]
              exact ⟨ld0, hld0acc, rfl, hlds.2, hti.symm, hfi.symm, htag⟩
            · have hNC0 := bool_eq_false_of_ne_true _ hNC
              rw [if_pos ⟨hNL0, hNC0⟩]
              obtain ⟨h22, hp22⟩ := bool_or_eq_false _ _ hNC0
              have hflagT := (resolveTitle_flags e cbm0.title (ldTitleOf ld0)
                (ld0.dateModified.getD 0)).mp
                ⟨by rw [← hrtdef]; exact h21, by rw [← hrtdef]; exact h22⟩
              have hflagP := (resolvePath_flags e.folderPath cbm0.folderPath
                (extractFolderPath T ld0.tagNames)).mp
                ⟨by rw [← hrpdef]; exact hp21, by rw [← hrpdef]; exact hp22⟩
              refine ⟨ld0, hld0acc, rfl, hlds.2, hflagT.2, ?_, htag⟩
              rw [hflagP.2, ← hflagP.1]
  have h := foldl_rec (phase3Step T (taggedLds T w) w.chrome w.now)
    (fun done acc => Inv3 T w A2 done acc) w.mapping hstep w.mapping [] A2 rfl hinit
  simpa using h

/-- The pass-3 invariant over the whole mapping, together with the pass-1/2
facts, makes the output world synced. -/
theorem synced_of_inv3 (T : String) (w : World) (hwf : WF T w) (A2 : RunAcc)
    (hmid : MidFacts T w A2) (acc3 : RunAcc)
    (hinv : Inv3 T w A2 w.mapping acc3) :
    Synced T ⟨acc3.ld, acc3.chrome, acc3.newMapping, acc3.nextLdId, acc3.nextChromeId,
      w.now⟩ := by
  refine ⟨hinv.nmNodup, ?_, ?_, ?_⟩
  · -- every local bookmark is covered by a matching entry
    intro c hc
    obtain ⟨c0, hc0, hcid, hcurl, hcd⟩ := hinv.chromeTrace c hc
    cases hm : lookupEntry w.mapping c0.url with
    | none =>
      have hceq : c = c0 := by
        rcases hcd with h | ⟨q2, hq2, cbm1, hcb1, hid1⟩
        · exact h
        · exfalso
          have hc1s := chromeByUrl_some w.chrome q2.1 cbm1 hcb1
          have hq2look : lookupEntry w.mapping q2.1 ≠ none :=
            lookupEntry_isSome_of_mem w.mapping q2 hq2
          rcases hmid.chromeChar c0 hc0 with hcw | ⟨hfresh, _⟩
          · have heq := eq_of_mem_of_nodup_map (fun x => x.id) w.chrome hwf.chromeIdsNodup
              c0 hcw cbm1 hc1s.1 hid1
            rw [heq, hc1s.2] at hm
            exact hq2look hm
          · have := hwf.chromeIdsFresh cbm1 hc1s.1
            omega
      obtain ⟨e2, he2, het, hef⟩ := hmid.chromeMatched c0 hc0 hm
      refine ⟨e2, ?_, ?_, ?_⟩
      · rw [hcurl, hinv.nmFrame c0.url hm]
        exact he2
      · rw [hceq]; exact het
      · rw [hceq]; exact hef
    | some e1 =>
      have hc0w : c0 ∈ w.chrome := by
        rcases hmid.chromeChar c0 hc0 with h | ⟨_, hnone⟩
        · exact h
        · rw [hm] at hnone
          exact Option.noConfusion hnone
      have hq2 : (c0.url, e1) ∈ w.mapping := mem_of_lookupEntry_some w.mapping c0.url e1 hm
      have hpost := hinv.post (c0.url, e1) hq2
      obtain ⟨cbm1, hcb1⟩ : ∃ x, chromeByUrl w.chrome c0.url = some x :=
        Option.isSome_iff_exists.mp (chromeByUrl_isSome_of_mem w.chrome c0.url c0 hc0w rfl)
      have hc0cbm1 : c0 = cbm1 :=
        chromeByUrl_unique w.chrome hwf.chromeUrlsNodup c0.url cbm1 hcb1 c0 hc0w rfl
      cases hldq : ldByUrl (taggedLds T w) c0.url with
      | some ldq =>
        simp only [Post3, hcb1, hldq] at hpost
        obtain ⟨e2, he2, ⟨c2, hc2, hcid2, hcurl2, hct2, hcf2⟩, _⟩ := hpost
        have hcidq : c.id = c2.id := by
          rw [hcid, hc0cbm1, ← hcid2]
        have hcc2 : c = c2 :=
          eq_of_mem_of_nodup_map (fun x => x.id) acc3.chrome hinv.chromeIds c hc c2 hc2 hcidq
        refine ⟨e2, ?_, ?_, ?_⟩
        · rw [hcurl]
          exact he2
        · rw [hcc2]; exact hct2.symm
        · rw [hcc2]; exact hcf2.symm
      | none =>
        exfalso
        simp only [Post3, hcb1, hldq] at hpost
        exact hpost.2 c hc (by rw [hcid, hc0cbm1])
  · -- every tagged remote bookmark is covered by a matching entry
    intro b hbf
    have hb : b ∈ acc3.ld := (List.mem_filter.mp hbf).1
    have hbt : b.tagNames.contains T = true := by
      simpa using (List.mem_filter.mp hbf).2
    obtain ⟨b0, hb0A, hbid, hbd⟩ := hinv.ldTrace b hb
    rcases hbd with hbeq | ⟨q2, hq2, ld1, hld1, hid1⟩
    · cases hm : lookupEntry w.mapping b0.url with
      | none =>
        have hb0t : b0.tagNames.contains T = true := by rw [← hbeq]; exact hbt
        obtain ⟨e2, he2, het, hef⟩ := hmid.ldMatched b0 hb0A hb0t hm
        refine ⟨e2, ?_, ?_, ?_⟩
        · rw [hbeq, hinv.nmFrame b0.url hm]
          exact he2
        · rw [hbeq]; exact het
        · rw [hbeq]; exact hef
      | some e1 =>
        have hb0w : b0 ∈ w.ld := by
          rcases hmid.ldChar b0 hb0A with h | ⟨_, hnone⟩
          · exact h
          · rw [hm] at hnone
            exact Option.noConfusion hnone
        have hb0tag : b0 ∈ taggedLds T w :=
          List.mem_filter.mpr ⟨hb0w, by rw [← hbeq]; exact hbt⟩
        have hq2m : (b0.url, e1) ∈ w.mapping := mem_of_lookupEntry_some w.mapping b0.url e1 hm
        have hpost := hinv.post (b0.url, e1) hq2m
        obtain ⟨ldq, hldq⟩ : ∃ x, ldByUrl (taggedLds T w) b0.url = some x :=
          Option.isSome_iff_exists.mp
            (ldByUrl_isSome_of_mem (taggedLds T w) b0.url b0 hb0tag rfl)
        have hb0ldq : b0 = ldq :=
          ldByUrl_unique (taggedLds T w) hwf.taggedUrlsNodup b0.url ldq hldq b0 hb0tag rfl
        cases hcbq : chromeByUrl w.chrome b0.url with
        | some cbmq =>
          simp only [Post3, hcbq, hldq] at hpost
          obtain ⟨e2, he2, _, ⟨b2, hb2, hbid2, hburl2, hbt2, hbf2, _⟩⟩ := hpost
          have hbidq : b.id = b2.id := by
            rw [hbid, hb0ldq, ← hbid2]
          have hbb2 : b = b2 :=
            eq_of_mem_of_nodup_map (fun x => x.id) acc3.ld hinv.ldIds b hb b2 hb2 hbidq
          refine ⟨e2, ?_, ?_, ?_⟩
          · rw [hbeq]
            exact he2
          · rw [hbb2]; exact hbt2
          · rw [hbb2]; exact hbf2
        | none =>
          exfalso
          simp only [Post3, hcbq, hldq] at hpost
          exact hpost.2 b hb (by rw [hbid, hb0ldq])
    · -- the item was rewritten by its own key's step
      have hl1s := ldByUrl_some (taggedLds T w) q2.1 ld1 hld1
      have hl1w : ld1 ∈ w.ld := (List.mem_filter.mp hl1s.1).1
      have hb0w : b0 ∈ w.ld := by
        rcases hmid.ldChar b0 hb0A with h | ⟨hfresh, _⟩
        · exact h
        · exfalso
          have := hwf.ldIdsFresh ld1 hl1w
          omega
      have hb0ld1 : b0 = ld1 :=
        eq_of_mem_of_nodup_map (fun x => x.id) w.ld hwf.ldIdsNodup b0 hb0w ld1 hl1w hid1
      have hpost := hinv.post q2 hq2
      cases hcbq : chromeByUrl w.chrome q2.1 with
      | some cbmq =>
        simp only [Post3, hcbq, hld1] at hpost
        obtain ⟨e2, he2, _, ⟨b2, hb2, hbid2, hburl2, hbt2, hbf2, _⟩⟩ := hpost
        have hbidq : b.id = b2.id := by
          rw [hbid, hb0ld1, ← hbid2]
        have hbb2 : b = b2 :=
          eq_of_mem_of_nodup_map (fun x => x.id) acc3.ld hinv.ldIds b hb b2 hb2 hbidq
        refine ⟨e2, ?_, ?_, ?_⟩
        · rw [hbb2, hburl2]
          exact he2
        · rw [hbb2]; exact hbt2
        · rw [hbb2]; exact hbf2
      | none =>
        exfalso
        simp only [Post3, hcbq, hld1] at hpost
        exact hpost.2 b hb (by rw [hbid, hb0ld1])
  · -- every mapping key is backed on both sides
    intro p hp
    rcases hinv.nmMem p hp with hpA | ⟨q2, hq2, hpq⟩
    · have hkm : lookupEntry w.mapping p.1 = none := hmid.nmKeys p hpA
      obtain ⟨⟨c0, hc0, hcu⟩, ⟨b0, hb0, hbu, hbt⟩⟩ := hmid.nmBoth p hpA
      constructor
      · refine ⟨c0, ?_, hcu⟩
        apply hinv.chromeKept c0 hc0
        intro q2 hq2 cbm1 hcb1
        have hc1s := chromeByUrl_some w.chrome q2.1 cbm1 hcb1
        have hq2look : lookupEntry w.mapping q2.1 ≠ none :=
          lookupEntry_isSome_of_mem w.mapping q2 hq2
        rcases hmid.chromeChar c0 hc0 with hcw | ⟨hfresh, _⟩
        · apply chrome_ids_ne_of_urls_ne w.chrome hwf.chromeIdsNodup c0 hcw cbm1 hc1s.1
          rw [hcu, hc1s.2]
          intro hx
          rw [hx] at hkm
          exact hq2look hkm
        · have := hwf.chromeIdsFresh cbm1 hc1s.1
          omega
      · refine ⟨b0, List.mem_filter.mpr ⟨?_, by simpa using hbt⟩, hbu⟩
        apply hinv.ldKept b0 hb0
        intro q2 hq2 ld1 hld1
        have hl1s := ldByUrl_some (taggedLds T w) q2.1 ld1 hld1
        have hl1w : ld1 ∈ w.ld := (List.mem_filter.mp hl1s.1).1
        have hq2look : lookupEntry w.mapping q2.1 ≠ none :=
          lookupEntry_isSome_of_mem w.mapping q2 hq2
        rcases hmid.ldChar b0 hb0 with hbw | ⟨hfresh, _⟩
        · apply ld_ids_ne_of_urls_ne w.ld hwf.ldIdsNodup b0 hbw ld1 hl1w
          rw [hbu, hl1s.2]
          intro hx
          rw [hx] at hkm
          exact hq2look hkm
        · have := hwf.ldIdsFresh ld1 hl1w
          omega
    · have hpost := hinv.post q2 hq2
      have hlookup_ne : lookupEntry acc3.newMapping q2.1 ≠ none := by
        rw [← hpq]
        exact lookupEntry_isSome_of_mem acc3.newMapping p hp
      cases hcbq : chromeByUrl w.chrome q2.1 with
      | none =>
        cases hldq : ldByUrl (taggedLds T w) q2.1 with
        | none =>
          exfalso; simp only [Post3, hcbq, hldq] at hpost; exact hlookup_ne hpost
        | some _ =>
          exfalso; simp only [Post3, hcbq, hldq] at hpost; exact hlookup_ne hpost.1
      | some cbmq =>
        cases hldq : ldByUrl (taggedLds T w) q2.1 with
        | none =>
          exfalso; simp only [Post3, hcbq, hldq] at hpost; exact hlookup_ne hpost.1
        | some ldq =>
          simp only [Post3, hcbq, hldq] at hpost
          obtain ⟨e2, he2, ⟨c2, hc2, _, hcurl2, _, _⟩, ⟨b2, hb2, _, hburl2, _, _, hbt2⟩⟩ :=
            hpost
          constructor
          · refine ⟨c2, hc2, ?_⟩
            rw [hcurl2, hpq]
          · refine ⟨b2, List.mem_filter.mpr ⟨hb2, by simpa using hbt2⟩, ?_⟩
            rw [hburl2, hpq]

/-- One completed run on a well-formed world leaves the two stores and the
persisted mapping in agreement. -/
theorem run_establishes_synced (T : String) (w : World) (hwf : WF T w) :
    Synced T ((runTwoWaySync T w).1) :=
  synced_of_inv3 T w hwf _ (midFacts_establish T w hwf) _
    (phase3_establishes T w hwf _ (midFacts_establish T w hwf))

/-- C2, counterexample. Running the incremental reconciler twice from a world
whose only URL is present on both sides with different titles and no mapping:
the first run completes with `{added: 0, removed: 0, updated: 0}` (it links
the two items, recording the local title in the entry without reconciling the
titles), and the second run returns `{added: 0, removed: 0, updated: 1}`
≠ `{0, 0, 0}`, refuting idempotence as stated. -/
theorem twoWaySync_not_idempotent_cex :
    (runTwoWaySync "s"
      ⟨[⟨1, "u", "B", ["s"], none⟩], [⟨1, "u", "A", 0, ""⟩], [], 2, 2, 100⟩).2 =
        ⟨0, 0, 0⟩ ∧
    (runTwoWaySync "s"
      ((runTwoWaySync "s"
        ⟨[⟨1, "u", "B", ["s"], none⟩], [⟨1, "u", "A", 0, ""⟩], [], 2, 2, 100⟩).1)).2 =
      ⟨0, 0, 1⟩ := by
  constructor
  · decide
  · decide

/-- C2, amended. On a well-formed world — URLs and ids unique per store,
mapping keys unique with `chromeId` bound to the local bookmark holding the
key, ids below the fresh-id counters, no URL newly present on both sides at
once, local titles non-empty and tagged remote URLs non-empty — a second run
of `runTwoWaySync` right after a completed run reports
`{added: 0, removed: 0, updated: 0}`. -/
theorem twoWaySync_idempotent_amended (T : String) (w : World) (h : WF T w) :
    (runTwoWaySync T ((runTwoWaySync T w).1)).2 = ⟨0, 0, 0⟩ :=
  synced_run_counts T ((runTwoWaySync T w).1) (run_establishes_synced T w h)

/-- Witness for the amended C2 theorem at a concrete well-formed world. -/
theorem twoWaySync_idempotent_amended_witness :
    (runTwoWaySync "s"
      ((runTwoWaySync "s"
        ⟨[⟨1, "u", "B", ["s"], some 5⟩], [⟨2, "u", "B", 0, "a"⟩],
          [("u", ⟨1, 2, "B", "u", "a", 50⟩)], 3, 3, 100⟩).1)).2 = ⟨0, 0, 0⟩ :=
  twoWaySync_idempotent_amended "s"
    ⟨[⟨1, "u", "B", ["s"], some 5⟩], [⟨2, "u", "B", 0, "a"⟩],
      [("u", ⟨1, 2, "B", "u", "a", 50⟩)], 3, 3, 100⟩
    (by constructor <;> decide)

end LinkdingSync
